import Mathlib

/-!
# aqo: rolling query statistics and automatic query tuning

A shallow embedding of `postprocessing.c` (`atomic_fss_learn_step`,
`learn_sample`, `restore_selectivities`, `collect_planstat`,
`update_query_stat_row`, `learn_query_stat`) and of `auto_tuning.c`
(`get_estimation`, `converged_cq`, `automatical_query_tuning`).

Conventions of the embedding.

* A C `double` is an element of a linearly ordered field `K`, with exact
  arithmetic: rounding, infinities and NaN are not modelled.  The source
  divides by `auto_tuning_window_size` and by `t_not_aqo + t_aqo`; the
  embedding agrees with the C program only where these divisors are not zero.
  Every definition is computable and can be run at `K = ℚ`; the results on
  the exponential are stated at `K = ℝ`.
* A C `int` or `long long` is an `Int`.  The sizes are bounded by
  `aqo_stat_size`, so no size computation overflows; the execution counters are
  incremented once per run and are taken as unbounded.
* A C array `double *a` is the map `Int → K` from an index to the value stored
  there.  The embedding reads and writes exactly the indices the source does;
  it does not model the bounds of the allocation.  The indices the tuner
  reads are listed apart, in the section on its array reads.
* The parameters `aqo_stat_size`, `auto_tuning_window_size`,
  `auto_tuning_exploration` and `object_selection_prediction_threshold`,
  global variables of `aqo.c`, are arguments.
* A PostgreSQL list is an immutable list, and the functions the two files call
  without defining them are arguments; see the section on learning from one
  object.
-/

set_option linter.unusedSectionVars false

namespace Aqo

variable {K : Type} [LinearOrderedField K]

/-! ## The rolling statistics rows (`postprocessing.c`) -/

/-- The loop `for (i = 1; i < aqo_stat_size; ++i) a[i - 1] = a[i];` of
`update_query_stat_row`: it runs for `i = 1, ..., aqo_stat_size - 1` in
increasing order. -/
def shift_loop (aqo_stat_size : Int) (a : Int → K) : Int → K :=
  (List.range' 1 (aqo_stat_size - 1).toNat).foldl
    (fun (b : Int → K) (i : Nat) => Function.update b ((i : Int) - 1) (b (i : Int))) a

/-- The block that `update_query_stat_row` repeats for each of its three
arrays `a` with its size `*a_size`:
```
if (*a_size >= aqo_stat_size)
    for (i = 1; i < aqo_stat_size; ++i)
        a[i - 1] = a[i];
*a_size = (*a_size >= aqo_stat_size) ? aqo_stat_size : (*a_size + 1);
a[*a_size - 1] = value;
```
The result is the array and the size after the block. -/
def stat_row_append (aqo_stat_size : Int) (a : Int → K) (a_size : Int) (value : K) :
    (Int → K) × Int :=
  let a1 := if a_size ≥ aqo_stat_size then shift_loop aqo_stat_size a else a
  let a_size1 := if a_size ≥ aqo_stat_size then aqo_stat_size else a_size + 1
  (Function.update a1 (a_size1 - 1) value, a_size1)

/-- The memory `update_query_stat_row` works on through its pointer arguments:
the three arrays `et`, `pt`, `ce`, their sizes and the counter `*n_exec`. -/
structure StatRow (K : Type) where
  et : Int → K
  et_size : Int
  pt : Int → K
  pt_size : Int
  ce : Int → K
  ce_size : Int
  n_exec : Int

/-- The function `update_query_stat_row` of `postprocessing.c`.  The
cardinality error is stored only when `cardinality_error >= 0`; the execution
time and the planning time are always stored; `(*n_exec)++` always runs. -/
def update_query_stat_row (aqo_stat_size : Int) (row : StatRow K)
    (planning_time execution_time cardinality_error : K) : StatRow K :=
  let ce1 :=
    if cardinality_error ≥ 0 then
      stat_row_append aqo_stat_size row.ce row.ce_size cardinality_error
    else (row.ce, row.ce_size)
  let et1 := stat_row_append aqo_stat_size row.et row.et_size execution_time
  let pt1 := stat_row_append aqo_stat_size row.pt row.pt_size planning_time
  { et := et1.1, et_size := et1.2,
    pt := pt1.1, pt_size := pt1.2,
    ce := ce1.1, ce_size := ce1.2,
    n_exec := row.n_exec + 1 }

/-- The entries `a[0], ..., a[size - 1]` of a series, in index order. -/
def series (a : Int → K) (size : Int) : List K :=
  (List.range size.toNat).map (fun (i : Nat) => a (i : Int))

/-- One completed run as `update_query_stat_row` receives it. -/
structure RunSample (K : Type) where
  planning_time : K
  execution_time : K
  cardinality_error : K

/-- The runs of a list are recorded one at a time, first to last, each by one
call of `update_query_stat_row`. -/
def record_runs (aqo_stat_size : Int) (row : StatRow K) (runs : List (RunSample K)) :
    StatRow K :=
  runs.foldl
    (fun r s => update_query_stat_row aqo_stat_size r
      s.planning_time s.execution_time s.cardinality_error) row

/-- The values of a list are appended to one series one at a time, first to
last, each by the block `stat_row_append`. -/
def append_values (aqo_stat_size : Int) (st : (Int → K) × Int) (values : List K) :
    (Int → K) × Int :=
  values.foldl (fun p v => stat_row_append aqo_stat_size p.1 p.2 v) st

/-- A statistics row with no sample: zeroed arrays, sizes and counter. -/
def empty_row : StatRow K :=
  { et := fun _ => 0, et_size := 0,
    pt := fun _ => 0, pt_size := 0,
    ce := fun _ => 0, ce_size := 0,
    n_exec := 0 }

/-- Five runs with distinct times and non-negative cardinality errors. -/
def five_runs : List (RunSample ℚ) :=
  [⟨1, 11, 21⟩, ⟨2, 12, 22⟩, ⟨3, 13, 23⟩, ⟨4, 14, 24⟩, ⟨5, 15, 25⟩]

/-! ## Automatic query tuning (`auto_tuning.c`) -/

/-- The function `get_estimation` of `auto_tuning.c`: the loop adds
`elems[nelems - 1 - i]` for `i = 0, ..., auto_tuning_window_size - 1` to `sum`,
which starts at 0, and the result is `sum / auto_tuning_window_size`. -/
def get_estimation (auto_tuning_window_size : Int) (elems : Int → K) (nelems : Int) : K :=
  (List.range auto_tuning_window_size.toNat).foldl
      (fun (sum : K) (i : Nat) => sum + elems (nelems - 1 - (i : Int))) 0 /
    (auto_tuning_window_size : K)

/-- The function `converged_cq` of `auto_tuning.c`. -/
def converged_cq (auto_tuning_window_size : Int) (elems : Int → K) (nelems : Int) : Bool :=
  if nelems < auto_tuning_window_size + 2 then false
  else
    let est := get_estimation auto_tuning_window_size elems (nelems - 1)
    (decide (est * 1.1 > elems (nelems - 1)) || decide (est + 0.1 > elems (nelems - 1))) &&
      (decide (est * 0.9 < elems (nelems - 1)) || decide (est - 0.1 < elems (nelems - 1)))

/-- The statistics of one query type, `QueryStat` in the source: for the runs
with aqo and for the runs without it, three arrays with their sizes and a
counter of executions.  The fields are those `learn_query_stat` and
`automatical_query_tuning` use. -/
structure QueryStat (K : Type) where
  execution_time_with_aqo : Int → K
  execution_time_with_aqo_size : Int
  planning_time_with_aqo : Int → K
  planning_time_with_aqo_size : Int
  cardinality_error_with_aqo : Int → K
  cardinality_error_with_aqo_size : Int
  execution_time_without_aqo : Int → K
  execution_time_without_aqo_size : Int
  planning_time_without_aqo : Int → K
  planning_time_without_aqo_size : Int
  cardinality_error_without_aqo : Int → K
  cardinality_error_without_aqo_size : Int
  executions_with_aqo : Int
  executions_without_aqo : Int

/-- The two global flags `automatical_query_tuning` sets and hands to
`update_query`. -/
@[ext]
structure TuningFlags where
  learn_aqo : Bool
  use_aqo : Bool
deriving DecidableEq

/-- The value of `p_use` after `p_use = t_not_aqo / (t_not_aqo + t_aqo);`. -/
def p_use_ratio (t_aqo t_not_aqo : K) : K :=
  t_not_aqo / (t_not_aqo + t_aqo)

/-- The value of `p_use` after `p_use = 1 / (1 + exp((p_use - 0.5) / unstability));`,
from its value `p` before.  The function `exp` of the C library is an
argument. -/
def p_use_logistic (exp : K → K) (unstability p : K) : K :=
  1 / (1 + exp ((p - 0.5) / unstability))

/-- The value of `p_use` after the two statements
`p_use -= 1 / (1 + exp(-0.5 / unstability));` and
`p_use /= 1 - 2 / (1 + exp(-0.5 / unstability));`, from its value `q` before. -/
def p_use_rescale (exp : K → K) (unstability q : K) : K :=
  (q - 1 / (1 + exp (-0.5 / unstability))) / (1 - 2 / (1 + exp (-0.5 / unstability)))

/-- The final value of `p_use` in the last branch of `automatical_query_tuning`,
from the two time estimations. -/
def p_use (exp : K → K) (unstability t_aqo t_not_aqo : K) : K :=
  p_use_rescale exp unstability (p_use_logistic exp unstability (p_use_ratio t_aqo t_not_aqo))

/-- The value of the local variable `t_aqo` in the last branch of
`automatical_query_tuning`: the estimated execution time plus the estimated
planning time of the runs with aqo. -/
def t_aqo (auto_tuning_window_size : Int) (stat : QueryStat K) : K :=
  get_estimation auto_tuning_window_size stat.execution_time_with_aqo
      stat.execution_time_with_aqo_size +
    get_estimation auto_tuning_window_size stat.planning_time_with_aqo
      stat.planning_time_with_aqo_size

/-- The value of the local variable `t_not_aqo` in the last branch of
`automatical_query_tuning`: the same sum for the runs without aqo. -/
def t_not_aqo (auto_tuning_window_size : Int) (stat : QueryStat K) : K :=
  get_estimation auto_tuning_window_size stat.execution_time_without_aqo
      stat.execution_time_without_aqo_size +
    get_estimation auto_tuning_window_size stat.planning_time_without_aqo
      stat.planning_time_without_aqo_size

/-- The function `automatical_query_tuning` of `auto_tuning.c`, up to the call
of `update_query`, which stores the two flags it is given.  The argument `rnd`
is the value of `(double) rand() / RAND_MAX`, and `exp` is the function of the
C library. -/
def automatical_query_tuning (auto_tuning_window_size : Int) (auto_tuning_exploration : K)
    (exp : K → K) (stat : QueryStat K) (rnd : K) : TuningFlags :=
  let unstability := auto_tuning_exploration
  if stat.executions_without_aqo < auto_tuning_window_size then
    { learn_aqo := true, use_aqo := false }
  else if !converged_cq auto_tuning_window_size stat.cardinality_error_with_aqo
      stat.cardinality_error_with_aqo_size then
    { learn_aqo := true, use_aqo := true }
  else
    let use_aqo := decide (rnd < p_use exp unstability
      (t_aqo auto_tuning_window_size stat) (t_not_aqo auto_tuning_window_size stat))
    { learn_aqo := use_aqo, use_aqo := use_aqo }

/-! ## Recording a completed run (`learn_query_stat`) -/

/-- What `learn_query_stat` reads when a query ends: the global flags of
`aqo.c`, the two static variables `cardinality_sum_errors` and
`cardinality_num_objects` as the plan walk of the `if (learn_aqo)` block left
them, the planning time, the total time measured from `query_starttime`, and
the value `rnd` of `(double) rand() / RAND_MAX`. -/
structure QueryRun (K : Type) where
  explain_only : Bool
  learn_aqo : Bool
  use_aqo : Bool
  collect_stat : Bool
  adding_query : Bool
  auto_tuning : Bool
  cardinality_sum_errors : K
  cardinality_num_objects : Int
  query_planning_time : K
  totaltime : K
  rnd : K

/-- The three arrays of the runs with aqo, as the first call of
`update_query_stat_row` in `learn_query_stat` receives them. -/
def row_with_aqo (stat : QueryStat K) : StatRow K :=
  { et := stat.execution_time_with_aqo, et_size := stat.execution_time_with_aqo_size,
    pt := stat.planning_time_with_aqo, pt_size := stat.planning_time_with_aqo_size,
    ce := stat.cardinality_error_with_aqo, ce_size := stat.cardinality_error_with_aqo_size,
    n_exec := stat.executions_with_aqo }

/-- The three arrays of the runs without aqo, as the second call of
`update_query_stat_row` in `learn_query_stat` receives them. -/
def row_without_aqo (stat : QueryStat K) : StatRow K :=
  { et := stat.execution_time_without_aqo, et_size := stat.execution_time_without_aqo_size,
    pt := stat.planning_time_without_aqo, pt_size := stat.planning_time_without_aqo_size,
    ce := stat.cardinality_error_without_aqo,
    ce_size := stat.cardinality_error_without_aqo_size,
    n_exec := stat.executions_without_aqo }

/-- The statistics after `update_query_stat_row` has written through the
pointers to the fields of the runs with aqo. -/
def set_row_with_aqo (stat : QueryStat K) (row : StatRow K) : QueryStat K :=
  { stat with
    execution_time_with_aqo := row.et, execution_time_with_aqo_size := row.et_size,
    planning_time_with_aqo := row.pt, planning_time_with_aqo_size := row.pt_size,
    cardinality_error_with_aqo := row.ce, cardinality_error_with_aqo_size := row.ce_size,
    executions_with_aqo := row.n_exec }

/-- The statistics after `update_query_stat_row` has written through the
pointers to the fields of the runs without aqo. -/
def set_row_without_aqo (stat : QueryStat K) (row : StatRow K) : QueryStat K :=
  { stat with
    execution_time_without_aqo := row.et, execution_time_without_aqo_size := row.et_size,
    planning_time_without_aqo := row.pt, planning_time_without_aqo_size := row.pt_size,
    cardinality_error_without_aqo := row.ce,
    cardinality_error_without_aqo_size := row.ce_size,
    executions_without_aqo := row.n_exec }

/-- The function `learn_query_stat` of `postprocessing.c` from the test of
`explain_only` on, with the plan walk replaced by its result in the two static
variables, and for a query type whose statistics exist (`stat != NULL`).  The
result is the statistics handed to `update_aqo_stat` and the flags
`automatical_query_tuning` hands to `update_query`, when it runs. -/
def learn_query_stat (aqo_stat_size auto_tuning_window_size : Int)
    (auto_tuning_exploration : K) (exp : K → K) (run : QueryRun K) (stat : QueryStat K) :
    QueryStat K × Option TuningFlags :=
  let learn_aqo := if run.explain_only then false else run.learn_aqo
  let collect_stat := if run.explain_only then false else run.collect_stat
  if collect_stat then
    let cardinality_error : K :=
      if learn_aqo && decide (run.cardinality_num_objects ≠ 0) then
        run.cardinality_sum_errors / (run.cardinality_num_objects : K)
      else -1
    let stat1 :=
      if run.use_aqo then
        set_row_with_aqo stat
          (update_query_stat_row aqo_stat_size (row_with_aqo stat) run.query_planning_time
            (run.totaltime - run.query_planning_time) cardinality_error)
      else
        set_row_without_aqo stat
          (update_query_stat_row aqo_stat_size (row_without_aqo stat) run.query_planning_time
            (run.totaltime - run.query_planning_time) cardinality_error)
    if !run.adding_query && run.auto_tuning then
      (stat1, some (automatical_query_tuning auto_tuning_window_size auto_tuning_exploration
        exp stat1 run.rnd))
    else (stat1, none)
  else (stat, none)

/-- The runs of a list end one after the other, each handled by
`learn_query_stat` on the statistics the previous one left; the result lists
the flags decided after each run. -/
def tuning_trace (aqo_stat_size auto_tuning_window_size : Int)
    (auto_tuning_exploration : K) (exp : K → K) :
    QueryStat K → List (QueryRun K) → List (Option TuningFlags)
  | _, [] => []
  | stat, run :: rest =>
    (learn_query_stat aqo_stat_size auto_tuning_window_size auto_tuning_exploration exp
        run stat).2 ::
      tuning_trace aqo_stat_size auto_tuning_window_size auto_tuning_exploration exp
        (learn_query_stat aqo_stat_size auto_tuning_window_size auto_tuning_exploration exp
          run stat).1 rest

/-- The statistics of a query type that never ran: zeroed arrays, sizes and
counters. -/
def empty_stat : QueryStat K :=
  { execution_time_with_aqo := fun _ => 0, execution_time_with_aqo_size := 0,
    planning_time_with_aqo := fun _ => 0, planning_time_with_aqo_size := 0,
    cardinality_error_with_aqo := fun _ => 0, cardinality_error_with_aqo_size := 0,
    execution_time_without_aqo := fun _ => 0, execution_time_without_aqo_size := 0,
    planning_time_without_aqo := fun _ => 0, planning_time_without_aqo_size := 0,
    cardinality_error_without_aqo := fun _ => 0, cardinality_error_without_aqo_size := 0,
    executions_with_aqo := 0, executions_without_aqo := 0 }

/-- A completed run on the branch without aqo that reports no cardinality
error: statistics are collected (`collect_stat`, no `explain_only`), the query
ran with `use_aqo = false`, the tuner is on (`auto_tuning`, no `adding_query`),
and the plan walk produced no object, so that `learn_query_stat` computes
`cardinality_error = -1`. -/
def run_without_aqo_no_error (run : QueryRun K) : Prop :=
  run.explain_only = false ∧ run.collect_stat = true ∧ run.use_aqo = false ∧
  run.adding_query = false ∧ run.auto_tuning = true ∧
  (run.learn_aqo = false ∨ run.cardinality_num_objects = 0)

/-- A run without aqo of the end-to-end scenario: planning time 1, total time
101, so that the execution time is 100, and no cardinality error. -/
def scenario_run : QueryRun ℚ :=
  { explain_only := false, learn_aqo := true, use_aqo := false, collect_stat := true,
    adding_query := false, auto_tuning := true,
    cardinality_sum_errors := 0, cardinality_num_objects := 0,
    query_planning_time := 1, totaltime := 101, rnd := 1 / 2 }

/-- Statistics with five executions without aqo and seven cardinality errors
with aqo, the last one far below the others. -/
def diverged_stat : QueryStat ℚ :=
  { (empty_stat : QueryStat ℚ) with
    cardinality_error_with_aqo := fun i => if i = 6 then 2 else 10,
    cardinality_error_with_aqo_size := 7,
    executions_with_aqo := 7,
    executions_without_aqo := 5 }

/-- Statistics of a query type in the stable state: seven runs with aqo, each
with cardinality error 1, execution time 2 and planning time 1, and five runs
without aqo, each with execution time 4 and planning time 1. -/
def steady_stat : QueryStat K :=
  { execution_time_with_aqo := fun _ => 2, execution_time_with_aqo_size := 7,
    planning_time_with_aqo := fun _ => 1, planning_time_with_aqo_size := 7,
    cardinality_error_with_aqo := fun _ => 1, cardinality_error_with_aqo_size := 7,
    execution_time_without_aqo := fun _ => 4, execution_time_without_aqo_size := 5,
    planning_time_without_aqo := fun _ => 1, planning_time_without_aqo_size := 5,
    cardinality_error_without_aqo := fun _ => 0, cardinality_error_without_aqo_size := 0,
    executions_with_aqo := 7, executions_without_aqo := 5 }

/-- The array `a[0], a[1], ...` that holds the values of a list, and 0 at the
other indices. -/
def array_of (l : List K) : Int → K :=
  fun i => if 0 ≤ i then l.getD i.toNat 0 else 0

/-- The estimation as the specification words it for the convergence test:
the arithmetic mean of the `window_size` samples immediately before the last
one, that is of `elems[nelems - 2 - i]` for `i < window_size`. -/
def spec_window_mean (window_size : Int) (elems : Int → K) (nelems : Int) : K :=
  ((List.range window_size.toNat).map (fun (i : Nat) => elems (nelems - 2 - (i : Int)))).sum /
    (window_size : K)

/-- The convergence condition as the specification words it: the last sample
lies within both the 10% relative band and the absolute band of width 0.1
around the estimation. -/
def spec_within_both_bands (est last : K) : Prop :=
  (0.9 * est < last ∧ last < 1.1 * est) ∧ (est - 0.1 < last ∧ last < est + 0.1)

/-! ## Learning from one object (`postprocessing.c`)

PostgreSQL lists are immutable lists here: `lappend(l, x)` is `l ++ [x]` and
`list_concat(a, b)` is `a ++ b`.  The functions the source calls and does not
define (`load_fss`, `OkNNr_learn`, `update_fss`, `get_fss_for_object`,
`get_eclasses`, `get_clause_hash`, `selectivity_cache_find_global_relid`, and
`InstrEndLoop` of PostgreSQL) are fields of `Collaborators`; `log` of the C
library is an argument.  The feature subspaces live in a store of type
`Store`, which `load_fss` reads and `update_fss` writes. -/

/-- A `RestrictInfo` of PostgreSQL, with the fields `restore_selectivities`
reads. -/
structure RestrictInfo (K C : Type) where
  clause : C
  norm_selec : K
  outer_selec : K

/-- The `JoinType` of PostgreSQL. -/
inductive JoinType where
  | JOIN_INNER
  | JOIN_LEFT
  | JOIN_FULL
  | JOIN_RIGHT
  | JOIN_SEMI
  | JOIN_ANTI
  | JOIN_UNIQUE_OUTER
  | JOIN_UNIQUE_INNER
deriving DecidableEq

/-- What `get_eclasses` writes through its three pointers. -/
structure Eclasses where
  nargs : Int
  args_hash : Int → Int
  eclass_hash : Int → Int

/-- What `get_fss_for_object` writes through its three pointers. -/
structure FssObject (K : Type) where
  matrix_cols : Int
  fss_hash : Int
  features : Int → K

/-- What `load_fss` returns and writes: its boolean result, the two arrays it
fills and the row count `*rows`. -/
structure LoadResult (K : Type) where
  found : Bool
  matrix : Int → Int → K
  targets : Int → K
  rows : Int

/-- What `OkNNr_learn` returns and writes: the list of changed lines and the
two arrays it updates in place. -/
structure LearnResult (K : Type) where
  changed_lines : List Int
  matrix : Int → Int → K
  targets : Int → K

/-- The `Instrumentation` of PostgreSQL, with the two fields
`collect_planstat` reads. -/
structure Instrumentation (K : Type) where
  ntuples : K
  nloops : K

/-- The functions `postprocessing.c` calls and does not define. -/
structure Collaborators (K C Store : Type) where
  InstrEndLoop : Instrumentation K → Instrumentation K
  get_eclasses : List (RestrictInfo K C) → Eclasses
  get_clause_hash : C → Int → (Int → Int) → (Int → Int) → Int
  selectivity_cache_find_global_relid : Int → Int → Option K
  get_fss_for_object : List (RestrictInfo K C) → List K → List Int → FssObject K
  load_fss : Store → Int → Int → (Int → Int → K) → (Int → K) → LoadResult K
  OkNNr_learn : Int → Int → (Int → Int → K) → (Int → K) → (Int → K) → K → LearnResult K
  update_fss : Store → Int → Int → Int → (Int → Int → K) → (Int → K) → Int → List Int → Store

variable {C Store : Type}

/-- The loop of `atomic_fss_learn_step` over `changed_lines`:
`if (lfirst_int(l) >= new_matrix_rows) new_matrix_rows = lfirst_int(l) + 1;`,
from the starting value `new_matrix_rows = matrix_rows`. -/
def new_matrix_rows_loop (matrix_rows : Int) (changed_lines : List Int) : Int :=
  changed_lines.foldl
    (fun (new_matrix_rows l : Int) => if l ≥ new_matrix_rows then l + 1 else new_matrix_rows)
    matrix_rows

/-- The value of `matrix_rows` after
`if (!load_fss(...)) matrix_rows = 0;`. -/
def loaded_matrix_rows (loaded : LoadResult K) : Int :=
  if !loaded.found then 0 else loaded.rows

/-- The function `atomic_fss_learn_step` of `postprocessing.c`; the result is
the store `update_fss` leaves. -/
def atomic_fss_learn_step (env : Collaborators K C Store) (store : Store)
    (fss_hash matrix_cols : Int) (matrix : Int → Int → K) (targets : Int → K)
    (features : Int → K) (target : K) : Store :=
  let loaded := env.load_fss store fss_hash matrix_cols matrix targets
  let matrix_rows := loaded_matrix_rows loaded
  let learned := env.OkNNr_learn matrix_rows matrix_cols loaded.matrix loaded.targets
    features target
  let new_matrix_rows := new_matrix_rows_loop matrix_rows learned.changed_lines
  env.update_fss store fss_hash new_matrix_rows matrix_cols learned.matrix learned.targets
    matrix_rows learned.changed_lines

/-- The two static variables of `postprocessing.c` and the store of the
feature subspaces. -/
structure LearnState (K Store : Type) where
  cardinality_sum_errors : K
  cardinality_num_objects : Int
  store : Store

/-- The arguments of one call of `learn_sample`. -/
structure Observation (K C : Type) where
  clauselist : List (RestrictInfo K C)
  selectivities : List K
  relidslist : List Int
  true_cardinality : K
  predicted_cardinality : K

/-- The error `fabs(log(predicted_cardinality) - log(true_cardinality))` of
one call of `learn_sample`. -/
def prediction_error (log : K → K) (obs : Observation K C) : K :=
  |log obs.predicted_cardinality - log obs.true_cardinality|

/-- The function `learn_sample` of `postprocessing.c`.  The arrays `matrix`
and `targets` it allocates with `palloc0` are zeroed; `aqo_K` only sizes them
and does not appear. -/
def learn_sample (log : K → K) (object_selection_prediction_threshold : K)
    (env : Collaborators K C Store) (obs : Observation K C) (st : LearnState K Store) :
    LearnState K Store :=
  let st1 : LearnState K Store :=
    { st with
      cardinality_sum_errors := st.cardinality_sum_errors + prediction_error log obs,
      cardinality_num_objects := st.cardinality_num_objects + 1 }
  if prediction_error log obs < object_selection_prediction_threshold then st1
  else
    let target := log obs.true_cardinality
    let object := env.get_fss_for_object obs.clauselist obs.selectivities obs.relidslist
    { st1 with
      store := atomic_fss_learn_step env st1.store object.fss_hash object.matrix_cols
        (fun _ _ => 0) (fun _ => 0) object.features target }

/-- The function `restore_selectivities` of `postprocessing.c`; the list of
pointers it returns is the list of the values they point to. -/
def restore_selectivities (env : Collaborators K C Store)
    (clauselist : List (RestrictInfo K C)) (relidslist : List Int) (join_type : JoinType)
    (was_parametrized : Bool) : List K :=
  let parametrized_sel := was_parametrized && decide (relidslist.length = 1)
  let cur_relid := relidslist.headD 0
  let ec := env.get_eclasses clauselist
  clauselist.foldl
    (fun (lst : List K) (rinfo : RestrictInfo K C) =>
      let cur_sel : K :=
        if parametrized_sel then
          match env.selectivity_cache_find_global_relid
              (env.get_clause_hash rinfo.clause ec.nargs ec.args_hash ec.eclass_hash)
              cur_relid with
          | some sel => sel
          | none =>
            if join_type = JoinType.JOIN_INNER then rinfo.norm_selec else rinfo.outer_selec
        else if join_type = JoinType.JOIN_INNER then rinfo.norm_selec
        else rinfo.outer_selec
      lst ++ [cur_sel])
    []

/-! ## The walk over the plan (`collect_planstat`, `learn_query_stat`) -/

/-- A `Plan` node, with the fields `aqo_copy_generic_path_info` fills and
`plan_rows`. -/
structure Plan (K C : Type) where
  had_path : Bool
  path_clauses : List (RestrictInfo K C)
  path_relids : List Int
  path_jointype : JoinType
  path_parallel_workers : Int
  was_parametrized : Bool
  plan_rows : K

/-- A `PlanState` node: its plan, its instrumentation (`none` for a NULL
pointer), its two subtrees (`none` for NULL) and the list `subPlan`, each
`SubPlanState` of which is given by its `planstate`. -/
inductive PlanState (K C : Type) where
  | mk (plan : Plan K C) (instrument : Option (Instrumentation K))
      (lefttree righttree : Option (PlanState K C)) (subPlan : List (PlanState K C))

/-- The variables a walk works on: the queue `other_plans`, the three lists
behind the pointers `clauselist`, `selectivities`, `relidslist`, and the calls
of `learn_sample` made so far, oldest first.  The function `learn_sample`
reads and writes nothing of the walk, so that a walk is given by the calls it
makes; `plan_walk_learn` runs them. -/
structure PlanWalk (K C : Type) where
  other_plans : List (PlanState K C)
  clauselist : List (RestrictInfo K C)
  selectivities : List K
  relidslist : List Int
  learn_calls : List (Observation K C)

/-- The value of `learn_rows` that `collect_planstat` passes to `learn_sample`,
from the instrumentation after `InstrEndLoop`; `leaf` tells whether both
subtrees are NULL. -/
def learn_rows (env : Collaborators K C Store) (plan : Plan K C)
    (instrument : Instrumentation K) (leaf : Bool) : K :=
  let ended := env.InstrEndLoop instrument
  if ended.nloops ≥ 0.5 then
    let rows0 := ended.ntuples / ended.nloops
    let rows1 :=
      if decide (plan.path_parallel_workers > 0) && leaf then
        rows0 * ((plan.path_parallel_workers + 1 : Int) : K)
      else rows0
    if rows1 < 1 then 1 else rows1
  else 1

/-- The part of `collect_planstat` after the recursive calls, from
`if (p->plan->had_path)` on, for a node with the given plan, instrumentation
and subtrees. -/
def collect_planstat_own (env : Collaborators K C Store) (plan : Plan K C)
    (instrument : Option (Instrumentation K)) (lefttree righttree : Option (PlanState K C))
    (w : PlanWalk K C) : PlanWalk K C :=
  if plan.had_path then
    let cur_selectivities := restore_selectivities env plan.path_clauses plan.path_relids
      plan.path_jointype plan.was_parametrized
    let w1 : PlanWalk K C :=
      { w with
        clauselist := plan.path_clauses ++ w.clauselist,
        relidslist := if plan.path_relids ≠ [] then plan.path_relids else w.relidslist,
        selectivities := cur_selectivities ++ w.selectivities }
    match instrument with
    | none => w1
    | some instr =>
      if righttree.isSome || lefttree.isNone || !plan.path_clauses.isEmpty then
        let ended := env.InstrEndLoop instr
        if !(decide (ended.ntuples = 0) && decide (ended.nloops = 0)) then
          { w1 with
            learn_calls := w1.learn_calls ++
              [{ clauselist := w1.clauselist, selectivities := w1.selectivities,
                 relidslist := w1.relidslist,
                 true_cardinality :=
                   learn_rows env plan instr (lefttree.isNone && righttree.isNone),
                 predicted_cardinality := plan.plan_rows }] }
        else w1
      else w1
  else w

/-- The function `collect_planstat` of `postprocessing.c`. -/
def collect_planstat (env : Collaborators K C Store) :
    PlanState K C → PlanWalk K C → PlanWalk K C
  | PlanState.mk plan instrument none none subPlan, w =>
    collect_planstat_own env plan instrument none none
      { w with other_plans := w.other_plans ++ subPlan }
  | PlanState.mk _ _ none (some _) subPlan, w =>
    { w with other_plans := w.other_plans ++ subPlan }
  | PlanState.mk plan instrument (some l) none subPlan, w =>
    collect_planstat_own env plan instrument (some l) none
      (collect_planstat env l { w with other_plans := w.other_plans ++ subPlan })
  | PlanState.mk plan instrument (some l) (some r) subPlan, w =>
    let w1 := collect_planstat env l { w with other_plans := w.other_plans ++ subPlan }
    let w2 := collect_planstat env r
      { w1 with clauselist := [], selectivities := [], relidslist := [] }
    collect_planstat_own env plan instrument (some l) (some r)
      { w2 with
        clauselist := w2.clauselist ++ w1.clauselist,
        relidslist := w2.relidslist ++ w1.relidslist,
        selectivities := w2.selectivities ++ w1.selectivities }

/-- One turn of the loop `while (list_length(other_plans) != 0)` of
`learn_query_stat`: the head of the queue is walked with the three lists as
they are, then removed from the queue. -/
def walk_step (env : Collaborators K C Store) (w : PlanWalk K C) : PlanWalk K C :=
  match w.other_plans with
  | [] => w
  | to_walk :: _ =>
    { collect_planstat env to_walk w with
      other_plans := (collect_planstat env to_walk w).other_plans.tail }

/-- The loop `while (list_length(other_plans) != 0)` of `learn_query_stat`,
for at most `fuel` turns. -/
def walk_loop (env : Collaborators K C Store) : Nat → PlanWalk K C → PlanWalk K C
  | 0, w => w
  | fuel + 1, w =>
    if w.other_plans.length ≠ 0 then walk_loop env fuel (walk_step env w) else w

mutual
/-- The number of `PlanState` nodes of a plan, subordinate plans included. -/
def plan_size : PlanState K C → Nat
  | PlanState.mk _ _ l r s => 1 + plan_size_opt l + plan_size_opt r + plan_size_list s
/-- The number of nodes behind a pointer that may be NULL. -/
def plan_size_opt : Option (PlanState K C) → Nat
  | none => 0
  | some p => plan_size p
/-- The number of nodes of the plans of a list. -/
def plan_size_list : List (PlanState K C) → Nat
  | [] => 0
  | p :: rest => plan_size p + plan_size_list rest
end

/-- The state of the walk when the loop of `learn_query_stat` starts: the
queue holds `queryDesc->planstate` and the three lists are NIL. -/
def walk_start (planstate : PlanState K C) : PlanWalk K C :=
  { other_plans := [planstate], clauselist := [], selectivities := [], relidslist := [],
    learn_calls := [] }

/-- The walk of `learn_query_stat` over the plan of a query, run for as many
turns as the plan has nodes, which empties the queue. -/
def plan_walk (env : Collaborators K C Store) (planstate : PlanState K C) : PlanWalk K C :=
  walk_loop env (plan_size planstate) (walk_start planstate)

/-- The `if (learn_aqo)` block of `learn_query_stat`: the two static variables
are reset and every call of `learn_sample` of the walk is run, in order. -/
def plan_walk_learn (log : K → K) (object_selection_prediction_threshold : K)
    (env : Collaborators K C Store) (planstate : PlanState K C) (st : LearnState K Store) :
    LearnState K Store :=
  (plan_walk env planstate).learn_calls.foldl
    (fun (s : LearnState K Store) (obs : Observation K C) =>
      learn_sample log object_selection_prediction_threshold env obs s)
    { st with cardinality_sum_errors := 0, cardinality_num_objects := 0 }

/-- The value of `cardinality_error` that `learn_query_stat` hands to
`update_query_stat_row`, from `learn_aqo` and the two static variables. -/
def run_cardinality_error (learn_aqo : Bool) (st : LearnState K Store) : K :=
  if learn_aqo && decide (st.cardinality_num_objects ≠ 0) then
    st.cardinality_sum_errors / (st.cardinality_num_objects : K)
  else -1

/-- The walk variables with an empty queue, empty lists and no call. -/
def empty_walk : PlanWalk K C :=
  { other_plans := [], clauselist := [], selectivities := [], relidslist := [],
    learn_calls := [] }

/-- The subordinate plans the walk of a tree queues, in the order it queues
them. -/
def subtree_queue (env : Collaborators K C Store) (p : PlanState K C) :
    List (PlanState K C) :=
  (collect_planstat env p empty_walk).other_plans

/-- The clauses the walk of a tree accumulates, from an empty list. -/
def subtree_clauses (env : Collaborators K C Store) (p : PlanState K C) :
    List (RestrictInfo K C) :=
  (collect_planstat env p empty_walk).clauselist

/-- The selectivities the walk of a tree accumulates, from an empty list. -/
def subtree_selectivities (env : Collaborators K C Store) (p : PlanState K C) : List K :=
  (collect_planstat env p empty_walk).selectivities

/-- Modelled from the spec: the collaborators over a store that holds the row
count of one feature subspace which is not full.  `load_fss` returns the stored
row count (and fails on an empty subspace), `OkNNr_learn` appends the new
object as a new row, so that the only changed line is the row count, and
`update_fss` stores the row count it is given.  The other collaborators are
trivial: `InstrEndLoop` changes nothing and the selectivity cache is empty. -/
def row_count_env : Collaborators K C Int :=
  { InstrEndLoop := fun instr => instr,
    get_eclasses := fun _ => { nargs := 0, args_hash := fun _ => 0, eclass_hash := fun _ => 0 },
    get_clause_hash := fun _ _ _ _ => 0,
    selectivity_cache_find_global_relid := fun _ _ => none,
    get_fss_for_object := fun _ _ _ =>
      { matrix_cols := 0, fss_hash := 0, features := fun _ => 0 },
    load_fss := fun store _ _ matrix targets =>
      { found := decide (0 < store), matrix := matrix, targets := targets, rows := store },
    OkNNr_learn := fun matrix_rows _ matrix targets _ _ =>
      { changed_lines := [matrix_rows], matrix := matrix, targets := targets },
    update_fss := fun _ _ new_matrix_rows _ _ _ _ _ => new_matrix_rows }

/-- A call of `learn_sample` with no clause, for the given true and predicted
cardinalities. -/
def bare_observation (true_cardinality predicted_cardinality : K) : Observation K C :=
  { clauselist := [], selectivities := [], relidslist := [],
    true_cardinality := true_cardinality, predicted_cardinality := predicted_cardinality }

/-- The selectivity of a clause for a join type, without the cache: the
inner-join selectivity `norm_selec` for `JOIN_INNER`, `outer_selec`
otherwise. -/
def join_type_selectivity (join_type : JoinType) (rinfo : RestrictInfo K C) : K :=
  if join_type = JoinType.JOIN_INNER then rinfo.norm_selec else rinfo.outer_selec

/-- The collaborators of `row_count_env` over integer clauses, with a
selectivity cache that holds 1/4 for the clause hash 1 and the relation 7; the
hash of a clause is the clause. -/
def cached_env : Collaborators ℚ Int Int :=
  { (row_count_env : Collaborators ℚ Int Int) with
    get_clause_hash := fun clause _ _ _ => clause,
    selectivity_cache_find_global_relid := fun hash relid =>
      if hash = 1 ∧ relid = 7 then some (1 / 4) else none }

/-- Two clauses with the hashes 1 and 2. -/
def two_clauses : List (RestrictInfo ℚ Int) :=
  [{ clause := 1, norm_selec := 1 / 2, outer_selec := 1 / 3 },
   { clause := 2, norm_selec := 1 / 5, outer_selec := 1 / 6 }]

/-- The plan of a node with path info, no clause and no relation id, with the
given predicted rows and number of parallel workers. -/
def scan_plan (plan_rows : K) (path_parallel_workers : Int) : Plan K C :=
  { had_path := true, path_clauses := [], path_relids := [],
    path_jointype := JoinType.JOIN_INNER, path_parallel_workers := path_parallel_workers,
    was_parametrized := false, plan_rows := plan_rows }

/-- The plans of the nodes of a tree: the node and the nodes of its left and
right subtrees, without the subordinate plans. -/
def tree_plans : PlanState K C → List (Plan K C)
  | PlanState.mk plan _ none none _ => [plan]
  | PlanState.mk plan _ none (some r) _ => plan :: tree_plans r
  | PlanState.mk plan _ (some l) none _ => plan :: tree_plans l
  | PlanState.mk plan _ (some l) (some r) _ => plan :: (tree_plans l ++ tree_plans r)

/-- A leaf with path info that ran once and returned 5 tuples, and whose plan
predicts `plan_rows` rows. -/
def executed_leaf (plan_rows : K) : PlanState K C :=
  PlanState.mk (scan_plan plan_rows 0) (some { ntuples := 5, nloops := 1 }) none none []

/-- A leaf with path info that never ran: 0 tuples over 0 loops. -/
def idle_leaf (plan_rows : K) : PlanState K C :=
  PlanState.mk (scan_plan plan_rows 0) (some { ntuples := 0, nloops := 0 }) none none []

/-- A selectivity that belongs to a clause: its inner-join selectivity, its
outer-join selectivity, or a value the cache holds for a hash of the clause. -/
def selectivity_of_clause (env : Collaborators K C Store) (rinfo : RestrictInfo K C)
    (sel : K) : Prop :=
  sel = rinfo.norm_selec ∨ sel = rinfo.outer_selec ∨
    ∃ (nargs : Int) (args_hash eclass_hash : Int → Int) (relid : Int),
      env.selectivity_cache_find_global_relid
        (env.get_clause_hash rinfo.clause nargs args_hash eclass_hash) relid = some sel

/-- A clause list and a selectivity list are position-aligned: they have the
same length and the i-th selectivity belongs to the i-th clause. -/
def position_aligned (env : Collaborators K C Store)
    (clauselist : List (RestrictInfo K C)) (selectivities : List K) : Prop :=
  List.Forall₂ (selectivity_of_clause env) clauselist selectivities

/-- The plan of a node with path info and one clause, whose hash, inner-join
and outer-join selectivities are given, over the given relation ids. -/
def clause_plan (clause : Int) (norm_selec outer_selec : ℚ) (path_relids : List Int)
    (plan_rows : ℚ) : Plan ℚ Int :=
  { had_path := true,
    path_clauses := [{ clause := clause, norm_selec := norm_selec, outer_selec := outer_selec }],
    path_relids := path_relids, path_jointype := JoinType.JOIN_INNER,
    path_parallel_workers := 0, was_parametrized := false, plan_rows := plan_rows }

/-- An executed leaf with the clause 1, which returned 5 tuples in one loop. -/
def left_leaf : PlanState ℚ Int :=
  PlanState.mk (clause_plan 1 (1 / 2) (1 / 3) [1] 10) (some { ntuples := 5, nloops := 1 })
    none none []

/-- An executed leaf with the clause 2, which returned 4 tuples in one loop. -/
def right_leaf : PlanState ℚ Int :=
  PlanState.mk (clause_plan 2 (1 / 5) (1 / 6) [2] 15) (some { ntuples := 4, nloops := 1 })
    none none []

/-- A join with the clause 3 over the two leaves, which returned 6 tuples in
one loop. -/
def join_of_leaves : PlanState ℚ Int :=
  PlanState.mk (clause_plan 3 (1 / 7) (1 / 8) [1, 2] 20) (some { ntuples := 6, nloops := 1 })
    (some left_leaf) (some right_leaf) []

/-- The function `learn_query_stat` of `postprocessing.c` with its plan walk:
when `learn_aqo` holds after the test of `explain_only`, the `if (learn_aqo)`
block runs on `planstate` from the static variables and the store `st`; then
the rest runs as `learn_query_stat` above, which reads the two static
variables the walk left.  The result is the static variables and the store,
the statistics and the flags. -/
def learn_query_stat_run (aqo_stat_size auto_tuning_window_size : Int)
    (auto_tuning_exploration : K) (exp log : K → K)
    (object_selection_prediction_threshold : K) (env : Collaborators K C Store)
    (planstate : PlanState K C) (run : QueryRun K) (st : LearnState K Store)
    (stat : QueryStat K) : LearnState K Store × QueryStat K × Option TuningFlags :=
  let learn_aqo := if run.explain_only then false else run.learn_aqo
  let st1 :=
    if learn_aqo then
      plan_walk_learn log object_selection_prediction_threshold env planstate st
    else st
  let rest := learn_query_stat aqo_stat_size auto_tuning_window_size
    auto_tuning_exploration exp
    { run with
      cardinality_sum_errors := st1.cardinality_sum_errors,
      cardinality_num_objects := st1.cardinality_num_objects } stat
  (st1, rest.1, rest.2)

/-- An executed leaf with the clause 3 that has the leaf with the clause 1 as
its only subordinate plan. -/
def leaf_with_subplan : PlanState ℚ Int :=
  PlanState.mk (clause_plan 3 (1 / 7) (1 / 8) [3] 20) (some { ntuples := 6, nloops := 1 })
    none none [left_leaf]

/-- A run with learning and statistics enabled, without aqo and without the
tuner, with planning time 1 and total time 3. -/
def learning_run : QueryRun K :=
  { explain_only := false, learn_aqo := true, use_aqo := false, collect_stat := true,
    adding_query := false, auto_tuning := false,
    cardinality_sum_errors := 0, cardinality_num_objects := 0,
    query_planning_time := 1, totaltime := 3, rnd := 0 }

/-! ## The array reads of the tuner -/

/-- The indices `get_estimation` reads in `elems`: `nelems - 1 - i` for
`i = 0, ..., auto_tuning_window_size - 1`, in the order of the loop. -/
def get_estimation_reads (auto_tuning_window_size nelems : Int) : List Int :=
  (List.range auto_tuning_window_size.toNat).map (fun (i : Nat) => nelems - 1 - (i : Int))

/-- The indices `converged_cq` reads in `elems`: none when it returns at
`nelems < auto_tuning_window_size + 2`, otherwise those of
`get_estimation(elems, nelems - 1)` and then `nelems - 1`. -/
def converged_cq_reads (auto_tuning_window_size nelems : Int) : List Int :=
  if nelems < auto_tuning_window_size + 2 then []
  else get_estimation_reads auto_tuning_window_size (nelems - 1) ++ [nelems - 1]

/-- The arrays of a `QueryStat`. -/
inductive StatArray where
  | execution_time_with_aqo
  | planning_time_with_aqo
  | cardinality_error_with_aqo
  | execution_time_without_aqo
  | planning_time_without_aqo
  | cardinality_error_without_aqo
deriving DecidableEq

/-- The size field that goes with an array of a `QueryStat`. -/
def array_size (stat : QueryStat K) : StatArray → Int
  | StatArray.execution_time_with_aqo => stat.execution_time_with_aqo_size
  | StatArray.planning_time_with_aqo => stat.planning_time_with_aqo_size
  | StatArray.cardinality_error_with_aqo => stat.cardinality_error_with_aqo_size
  | StatArray.execution_time_without_aqo => stat.execution_time_without_aqo_size
  | StatArray.planning_time_without_aqo => stat.planning_time_without_aqo_size
  | StatArray.cardinality_error_without_aqo => stat.cardinality_error_without_aqo_size

/-- The contents of an array of a `QueryStat`. -/
def array_elems (stat : QueryStat K) : StatArray → Int → K
  | StatArray.execution_time_with_aqo => stat.execution_time_with_aqo
  | StatArray.planning_time_with_aqo => stat.planning_time_with_aqo
  | StatArray.cardinality_error_with_aqo => stat.cardinality_error_with_aqo
  | StatArray.execution_time_without_aqo => stat.execution_time_without_aqo
  | StatArray.planning_time_without_aqo => stat.planning_time_without_aqo
  | StatArray.cardinality_error_without_aqo => stat.cardinality_error_without_aqo

/-- The array reads of `automatical_query_tuning`, each as the array and the
index read, in the order of the source: none in the first branch; the reads of
`converged_cq` on the cardinality errors with aqo when the second condition is
evaluated; and in the last branch the reads of the four calls of
`get_estimation`. -/
def automatical_query_tuning_reads (auto_tuning_window_size : Int) (stat : QueryStat K) :
    List (StatArray × Int) :=
  if stat.executions_without_aqo < auto_tuning_window_size then []
  else
    (converged_cq_reads auto_tuning_window_size stat.cardinality_error_with_aqo_size).map
        (fun i => (StatArray.cardinality_error_with_aqo, i)) ++
      (if !converged_cq auto_tuning_window_size stat.cardinality_error_with_aqo
          stat.cardinality_error_with_aqo_size then []
      else
        (get_estimation_reads auto_tuning_window_size stat.execution_time_with_aqo_size).map
            (fun i => (StatArray.execution_time_with_aqo, i)) ++
          ((get_estimation_reads auto_tuning_window_size
              stat.planning_time_with_aqo_size).map
              (fun i => (StatArray.planning_time_with_aqo, i)) ++
            ((get_estimation_reads auto_tuning_window_size
                stat.execution_time_without_aqo_size).map
                (fun i => (StatArray.execution_time_without_aqo, i)) ++
              (get_estimation_reads auto_tuning_window_size
                stat.planning_time_without_aqo_size).map
                (fun i => (StatArray.planning_time_without_aqo, i)))))

/-- The statistics after the first call of `update_query_stat_row` in
`learn_query_stat`, which records a run on the arrays of the runs with aqo. -/
def record_with_aqo (aqo_stat_size : Int) (stat : QueryStat K)
    (planning_time execution_time cardinality_error : K) : QueryStat K :=
  set_row_with_aqo stat
    (update_query_stat_row aqo_stat_size (row_with_aqo stat) planning_time execution_time
      cardinality_error)

/-- The statistics after the second call of `update_query_stat_row` in
`learn_query_stat`, which records a run on the arrays of the runs without
aqo. -/
def record_without_aqo (aqo_stat_size : Int) (stat : QueryStat K)
    (planning_time execution_time cardinality_error : K) : QueryStat K :=
  set_row_without_aqo stat
    (update_query_stat_row aqo_stat_size (row_without_aqo stat) planning_time execution_time
      cardinality_error)

/-- The statistics reachable from the empty ones by recording completed runs:
each run is recorded by one call of `update_query_stat_row`, on the arrays of
the runs with aqo or on those of the runs without, with any planning time,
execution time and cardinality error. -/
inductive Reachable (aqo_stat_size : Int) : QueryStat K → Prop where
  | empty : Reachable aqo_stat_size empty_stat
  | with_aqo (stat : QueryStat K) (planning_time execution_time cardinality_error : K) :
      Reachable aqo_stat_size stat →
      Reachable aqo_stat_size
        (record_with_aqo aqo_stat_size stat planning_time execution_time cardinality_error)
  | without_aqo (stat : QueryStat K) (planning_time execution_time cardinality_error : K) :
      Reachable aqo_stat_size stat →
      Reachable aqo_stat_size
        (record_without_aqo aqo_stat_size stat planning_time execution_time
          cardinality_error)

/-- One run recorded without aqo, with no cardinality error, and then three
with aqo, each with cardinality error 1; the planning time is 1 and the
execution time 2 throughout, and `aqo_stat_size = 3`. -/
def warm_stat : QueryStat ℚ :=
  record_with_aqo 3
    (record_with_aqo 3
      (record_with_aqo 3 (record_without_aqo 3 empty_stat 1 2 (-1)) 1 2 1) 1 2 1) 1 2 1

/-! ## Lemmas on the rolling rows -/

theorem shift_fold_apply (n : Nat) (s : Nat) (a : Int → K) (j : Int) :
    (List.range' s n).foldl
        (fun (b : Int → K) (i : Nat) => Function.update b ((i : Int) - 1) (b (i : Int))) a j =
      if (s : Int) - 1 ≤ j ∧ j < (s : Int) - 1 + n then a (j + 1) else a j := by
  induction n generalizing s a with
  | zero =>
    have h : ¬ ((s : Int) - 1 ≤ j ∧ j < (s : Int) - 1 + ((0 : Nat) : Int)) := by
      push_cast; omega
    rw [if_neg h]; rfl
  | succ n ih =>
    rw [List.range'_succ, List.foldl_cons, ih]
    by_cases h1 : ((s + 1 : Nat) : Int) - 1 ≤ j ∧ j < ((s + 1 : Nat) : Int) - 1 + n
    · have h2 : (s : Int) - 1 ≤ j ∧ j < (s : Int) - 1 + ((n + 1 : Nat) : Int) := by
        push_cast at h1 ⊢; omega
      have h3 : j + 1 ≠ (s : Int) - 1 := by push_cast at h1; omega
      rw [if_pos h1, if_pos h2, Function.update_noteq h3]
    · rw [if_neg h1]
      by_cases h4 : j = (s : Int) - 1
      · have h2 : (s : Int) - 1 ≤ j ∧ j < (s : Int) - 1 + ((n + 1 : Nat) : Int) := by
          push_cast; omega
        rw [if_pos h2, h4, Function.update_same]; simp
      · have h2 : ¬ ((s : Int) - 1 ≤ j ∧ j < (s : Int) - 1 + ((n + 1 : Nat) : Int)) := by
          push_cast at h1 ⊢; omega
        rw [if_neg h2, Function.update_noteq h4]

theorem shift_loop_apply (aqo_stat_size : Int) (a : Int → K) (j : Int) :
    shift_loop aqo_stat_size a j =
      if 0 ≤ j ∧ j < aqo_stat_size - 1 then a (j + 1) else a j := by
  unfold shift_loop
  rw [shift_fold_apply]
  by_cases h : 0 ≤ j ∧ j < aqo_stat_size - 1
  · rw [if_pos h, if_pos]; push_cast; omega
  · rw [if_neg h, if_neg]; push_cast; omega

theorem series_append_room (aqo_stat_size : Int) (a : Int → K) (a_size : Int) (v : K)
    (h0 : 0 ≤ a_size) (h1 : a_size < aqo_stat_size) :
    (stat_row_append aqo_stat_size a a_size v).2 = a_size + 1 ∧
    series (stat_row_append aqo_stat_size a a_size v).1 (a_size + 1) =
      series a a_size ++ [v] := by
  have hn : ¬ (a_size ≥ aqo_stat_size) := by omega
  have ht : (a_size + 1).toNat = a_size.toNat + 1 := by omega
  refine ⟨by simp [stat_row_append, hn], ?_⟩
  simp only [stat_row_append, if_neg hn, series, ht, List.range_succ, List.map_append,
    List.map_cons, List.map_nil]
  congr 1
  · apply List.map_congr_left
    intro i hi
    rw [List.mem_range] at hi
    rw [Function.update_noteq]
    omega
  · have : ((a_size.toNat : Nat) : Int) = a_size + 1 - 1 := by omega
    rw [this, Function.update_same]

theorem series_append_full (aqo_stat_size : Int) (a : Int → K) (a_size : Int) (v : K)
    (h1 : 1 ≤ aqo_stat_size) (h2 : a_size = aqo_stat_size) :
    (stat_row_append aqo_stat_size a a_size v).2 = a_size ∧
    series (stat_row_append aqo_stat_size a a_size v).1 a_size =
      (series a a_size).drop 1 ++ [v] := by
  subst h2
  have hp : a_size ≥ a_size := le_refl _
  obtain ⟨m, hm⟩ : ∃ m : Nat, a_size.toNat = m + 1 := ⟨a_size.toNat - 1, by omega⟩
  refine ⟨by simp [stat_row_append], ?_⟩
  simp only [stat_row_append, if_pos hp, series, hm]
  rw [List.range_succ, List.map_append, ← List.map_drop, ← List.range_succ,
    List.range_succ_eq_map, List.drop_one, List.tail_cons, List.map_map]
  congr 1
  · apply List.map_congr_left
    intro i hi
    rw [List.mem_range] at hi
    have hne : (i : Int) ≠ a_size - 1 := by omega
    have hin : 0 ≤ (i : Int) ∧ (i : Int) < a_size - 1 := by omega
    rw [Function.update_noteq hne, shift_loop_apply, if_pos hin]
    simp
  · have : ((m : Nat) : Int) = a_size - 1 := by omega
    simp only [List.map_cons, List.map_nil]
    rw [this, Function.update_same]

theorem append_values_concat (aqo_stat_size : Int) (st : (Int → K) × Int)
    (l : List K) (v : K) :
    append_values aqo_stat_size st (l ++ [v]) =
      stat_row_append aqo_stat_size (append_values aqo_stat_size st l).1
        (append_values aqo_stat_size st l).2 v := by
  simp [append_values, List.foldl_append]

/-- Appending the values of a list to an empty series keeps the last
`aqo_stat_size` of them, in order. -/
theorem append_values_fifo (aqo_stat_size : Int) (h1 : 1 ≤ aqo_stat_size)
    (a : Int → K) (values : List K) :
    (append_values aqo_stat_size (a, 0) values).2 =
        min (values.length : Int) aqo_stat_size ∧
    series (append_values aqo_stat_size (a, 0) values).1
        (append_values aqo_stat_size (a, 0) values).2 =
      values.drop (values.length - aqo_stat_size.toNat) := by
  induction values using List.reverseRecOn with
  | nil => simp [append_values, series]; omega
  | append_singleton l v ih =>
    obtain ⟨ih1, ih2⟩ := ih
    rw [append_values_concat]
    by_cases hlt : (l.length : Int) < aqo_stat_size
    · have hsz : (append_values aqo_stat_size (a, 0) l).2 = l.length := by
        rw [ih1]; omega
      have hd : l.length - aqo_stat_size.toNat = 0 := by omega
      have hd1 : (l ++ [v]).length - aqo_stat_size.toNat = 0 := by
        rw [List.length_append, List.length_singleton]; omega
      obtain ⟨r1, r2⟩ := series_append_room aqo_stat_size
        (append_values aqo_stat_size (a, 0) l).1 (append_values aqo_stat_size (a, 0) l).2 v
        (by omega) (by omega)
      rw [hd, List.drop_zero] at ih2
      refine ⟨?_, ?_⟩
      · rw [r1, hsz, List.length_append, List.length_singleton]; push_cast; omega
      · rw [r1, r2, ih2, hd1, List.drop_zero]
    · have hsz : (append_values aqo_stat_size (a, 0) l).2 = aqo_stat_size := by
        rw [ih1]; omega
      obtain ⟨r1, r2⟩ := series_append_full aqo_stat_size
        (append_values aqo_stat_size (a, 0) l).1 (append_values aqo_stat_size (a, 0) l).2 v
        h1 hsz
      have hd1 : (l ++ [v]).length - aqo_stat_size.toNat =
          l.length - aqo_stat_size.toNat + 1 := by
        rw [List.length_append, List.length_singleton]; omega
      refine ⟨?_, ?_⟩
      · rw [r1, hsz, List.length_append, List.length_singleton]; push_cast; omega
      · rw [r1, r2, ih2, hd1, List.drop_drop,
          List.drop_append_of_le_length (by omega)]

theorem record_runs_components (aqo_stat_size : Int) (runs : List (RunSample K))
    (row : StatRow K) :
    ((record_runs aqo_stat_size row runs).et, (record_runs aqo_stat_size row runs).et_size) =
        append_values aqo_stat_size (row.et, row.et_size)
          (runs.map RunSample.execution_time) ∧
    ((record_runs aqo_stat_size row runs).pt, (record_runs aqo_stat_size row runs).pt_size) =
        append_values aqo_stat_size (row.pt, row.pt_size)
          (runs.map RunSample.planning_time) ∧
    ((record_runs aqo_stat_size row runs).ce, (record_runs aqo_stat_size row runs).ce_size) =
        append_values aqo_stat_size (row.ce, row.ce_size)
          ((runs.map RunSample.cardinality_error).filter (fun c => decide (0 ≤ c))) ∧
    (record_runs aqo_stat_size row runs).n_exec = row.n_exec + runs.length := by
  induction runs generalizing row with
  | nil => simp [record_runs, append_values]
  | cons s t ih =>
    have hstep : record_runs aqo_stat_size row (s :: t) =
        record_runs aqo_stat_size (update_query_stat_row aqo_stat_size row
          s.planning_time s.execution_time s.cardinality_error) t := rfl
    rw [hstep]
    obtain ⟨i1, i2, i3, i4⟩ := ih (update_query_stat_row aqo_stat_size row
      s.planning_time s.execution_time s.cardinality_error)
    refine ⟨?_, ?_, ?_, ?_⟩
    · rw [i1]; rfl
    · rw [i2]; rfl
    · rw [i3]
      by_cases hc : 0 ≤ s.cardinality_error
      · simp [update_query_stat_row, append_values, hc]
      · simp [update_query_stat_row, append_values, hc]
    · rw [i4]; simp [update_query_stat_row]; ring

theorem record_runs_series (aqo_stat_size : Int) (h1 : 1 ≤ aqo_stat_size)
    (a b : Int → K) (b_size : Int) (values : List K)
    (h : (b, b_size) = append_values aqo_stat_size (a, 0) values) :
    b_size = min (values.length : Int) aqo_stat_size ∧
    series b b_size = values.drop (values.length - b_size.toNat) ∧
    (values.length = aqo_stat_size + 3 →
      b_size = aqo_stat_size ∧ series b b_size = values.drop 3) := by
  obtain ⟨f1, f2⟩ := append_values_fifo aqo_stat_size h1 a values
  rw [← h] at f1 f2
  simp only at f1 f2
  have hk : values.length - b_size.toNat = values.length - aqo_stat_size.toNat := by
    rw [f1]; omega
  refine ⟨f1, ?_, ?_⟩
  · rw [hk]; exact f2
  · intro hn
    have h3 : values.length - aqo_stat_size.toNat = 3 := by omega
    refine ⟨by rw [f1]; omega, ?_⟩
    rw [f2, h3]

/-! ## The claims on the rolling rows -/

/-- C1: for `aqo_stat_size >= 1`, when the runs of a list are recorded one at a
time by `update_query_stat_row` into a row whose three series are empty, the
execution-time and the planning-time series, and the cardinality-error series
when every error is non-negative, end with size `min(n, aqo_stat_size)` and
hold exactly the last `size` recorded values in their original order; after
`aqo_stat_size + 3` runs each holds the last `aqo_stat_size` values, the first
three being evicted. -/
theorem update_query_stat_row_fifo (aqo_stat_size : Int) (h1 : 1 ≤ aqo_stat_size)
    (row : StatRow K) (het : row.et_size = 0) (hpt : row.pt_size = 0)
    (hce : row.ce_size = 0) (runs : List (RunSample K)) :
    (((record_runs aqo_stat_size row runs).et_size = min (runs.length : Int) aqo_stat_size ∧
      series (record_runs aqo_stat_size row runs).et
          (record_runs aqo_stat_size row runs).et_size =
        (runs.map RunSample.execution_time).drop
          (runs.length - (record_runs aqo_stat_size row runs).et_size.toNat)) ∧
     ((record_runs aqo_stat_size row runs).pt_size = min (runs.length : Int) aqo_stat_size ∧
      series (record_runs aqo_stat_size row runs).pt
          (record_runs aqo_stat_size row runs).pt_size =
        (runs.map RunSample.planning_time).drop
          (runs.length - (record_runs aqo_stat_size row runs).pt_size.toNat)) ∧
     ((∀ s ∈ runs, 0 ≤ s.cardinality_error) →
      (record_runs aqo_stat_size row runs).ce_size = min (runs.length : Int) aqo_stat_size ∧
      series (record_runs aqo_stat_size row runs).ce
          (record_runs aqo_stat_size row runs).ce_size =
        (runs.map RunSample.cardinality_error).drop
          (runs.length - (record_runs aqo_stat_size row runs).ce_size.toNat))) ∧
    ((runs.length : Int) = aqo_stat_size + 3 →
      ((record_runs aqo_stat_size row runs).et_size = aqo_stat_size ∧
        series (record_runs aqo_stat_size row runs).et aqo_stat_size =
          (runs.map RunSample.execution_time).drop 3) ∧
      ((record_runs aqo_stat_size row runs).pt_size = aqo_stat_size ∧
        series (record_runs aqo_stat_size row runs).pt aqo_stat_size =
          (runs.map RunSample.planning_time).drop 3) ∧
      ((∀ s ∈ runs, 0 ≤ s.cardinality_error) →
        (record_runs aqo_stat_size row runs).ce_size = aqo_stat_size ∧
        series (record_runs aqo_stat_size row runs).ce aqo_stat_size =
          (runs.map RunSample.cardinality_error).drop 3)) := by
  obtain ⟨c1, c2, c3, -⟩ := record_runs_components aqo_stat_size runs row
  rw [het] at c1
  rw [hpt] at c2
  rw [hce] at c3
  obtain ⟨e1, e2, e3⟩ := record_runs_series aqo_stat_size h1 _ _ _ _ c1
  obtain ⟨p1, p2, p3⟩ := record_runs_series aqo_stat_size h1 _ _ _ _ c2
  simp only [List.length_map] at e1 e2 e3 p1 p2 p3
  have hc : (∀ s ∈ runs, 0 ≤ s.cardinality_error) →
      (record_runs aqo_stat_size row runs).ce_size = min (runs.length : Int) aqo_stat_size ∧
      series (record_runs aqo_stat_size row runs).ce
          (record_runs aqo_stat_size row runs).ce_size =
        (runs.map RunSample.cardinality_error).drop
          (runs.length - (record_runs aqo_stat_size row runs).ce_size.toNat) ∧
      ((runs.length : Int) = aqo_stat_size + 3 →
        (record_runs aqo_stat_size row runs).ce_size = aqo_stat_size ∧
        series (record_runs aqo_stat_size row runs).ce
            (record_runs aqo_stat_size row runs).ce_size =
          (runs.map RunSample.cardinality_error).drop 3) := by
    intro hnn
    have hf : (runs.map RunSample.cardinality_error).filter (fun c => decide (0 ≤ c)) =
        runs.map RunSample.cardinality_error := by
      rw [List.filter_eq_self]
      intro c hcm
      obtain ⟨s, hs, rfl⟩ := List.mem_map.1 hcm
      simpa using hnn s hs
    rw [hf] at c3
    have := record_runs_series aqo_stat_size h1 _ _ _ _ c3
    simpa only [List.length_map] using this
  refine ⟨⟨⟨e1, e2⟩, ⟨p1, p2⟩, fun hnn => ⟨(hc hnn).1, (hc hnn).2.1⟩⟩, ?_⟩
  intro hn
  refine ⟨?_, ?_, ?_⟩
  · obtain ⟨t1, t2⟩ := e3 hn
    rw [t1] at t2
    exact ⟨t1, t2⟩
  · obtain ⟨t1, t2⟩ := p3 hn
    rw [t1] at t2
    exact ⟨t1, t2⟩
  · intro hnn
    obtain ⟨t1, t2⟩ := (hc hnn).2.2 hn
    rw [t1] at t2
    exact ⟨t1, t2⟩

/-- Witness of C1: with `aqo_stat_size = 2`, five runs leave the last two
values of each series. -/
theorem update_query_stat_row_fifo_witness :
    (1 : Int) ≤ 2 ∧ (empty_row : StatRow ℚ).et_size = 0 ∧
    (empty_row : StatRow ℚ).pt_size = 0 ∧ (empty_row : StatRow ℚ).ce_size = 0 ∧
    ((five_runs.length : Int) = 2 + 3) ∧ (∀ s ∈ five_runs, 0 ≤ s.cardinality_error) ∧
    ((record_runs 2 empty_row five_runs).et_size = 2 ∧
      series (record_runs 2 empty_row five_runs).et 2 = [14, 15]) ∧
    ((record_runs 2 empty_row five_runs).pt_size = 2 ∧
      series (record_runs 2 empty_row five_runs).pt 2 = [4, 5]) ∧
    ((record_runs 2 empty_row five_runs).ce_size = 2 ∧
      series (record_runs 2 empty_row five_runs).ce 2 = [24, 25]) := by
  have hnn : ∀ s ∈ five_runs, 0 ≤ s.cardinality_error := by
    intro s hs
    simp only [five_runs, List.mem_cons, List.mem_singleton, List.not_mem_nil, or_false] at hs
    rcases hs with h | h | h | h | h <;> rw [h] <;> norm_num
  have hlen : (five_runs.length : Int) = 2 + 3 := by simp [five_runs]
  obtain ⟨-, hall⟩ :=
    update_query_stat_row_fifo 2 (by decide) (empty_row : StatRow ℚ) rfl rfl rfl five_runs
  obtain ⟨he, hp, hc⟩ := hall hlen
  exact ⟨by decide, rfl, rfl, rfl, hlen, hnn,
    by simpa [five_runs] using he, by simpa [five_runs] using hp,
    by simpa [five_runs] using hc hnn⟩

theorem stat_row_append_top (aqo_stat_size : Int) (a : Int → K) (a_size : Int) (v : K) :
    (stat_row_append aqo_stat_size a a_size v).2 =
        (if a_size ≥ aqo_stat_size then aqo_stat_size else a_size + 1) ∧
    (stat_row_append aqo_stat_size a a_size v).1
        ((stat_row_append aqo_stat_size a a_size v).2 - 1) = v := by
  simp [stat_row_append]

/-- C2: in every call of `update_query_stat_row` the execution counter grows by
exactly 1, and the execution-time and planning-time series receive their new
value: it is stored at the top index `size - 1` of the new size, after the
older entries when there was room and after the entries shifted down by one
when the series was full.  When `cardinality_error` is negative the
cardinality-error array and its size are left exactly as they were. -/
theorem update_query_stat_row_negative_error (aqo_stat_size : Int) (row : StatRow K)
    (planning_time execution_time cardinality_error : K) :
    (update_query_stat_row aqo_stat_size row planning_time execution_time
        cardinality_error).n_exec = row.n_exec + 1 ∧
    ((update_query_stat_row aqo_stat_size row planning_time execution_time
          cardinality_error).et_size =
        (if row.et_size ≥ aqo_stat_size then aqo_stat_size else row.et_size + 1) ∧
      (update_query_stat_row aqo_stat_size row planning_time execution_time
          cardinality_error).et
        ((update_query_stat_row aqo_stat_size row planning_time execution_time
          cardinality_error).et_size - 1) = execution_time ∧
      (0 ≤ row.et_size → row.et_size < aqo_stat_size →
        series (update_query_stat_row aqo_stat_size row planning_time execution_time
            cardinality_error).et (row.et_size + 1) =
          series row.et row.et_size ++ [execution_time]) ∧
      (1 ≤ aqo_stat_size → row.et_size = aqo_stat_size →
        series (update_query_stat_row aqo_stat_size row planning_time execution_time
            cardinality_error).et row.et_size =
          (series row.et row.et_size).drop 1 ++ [execution_time])) ∧
    ((update_query_stat_row aqo_stat_size row planning_time execution_time
          cardinality_error).pt_size =
        (if row.pt_size ≥ aqo_stat_size then aqo_stat_size else row.pt_size + 1) ∧
      (update_query_stat_row aqo_stat_size row planning_time execution_time
          cardinality_error).pt
        ((update_query_stat_row aqo_stat_size row planning_time execution_time
          cardinality_error).pt_size - 1) = planning_time ∧
      (0 ≤ row.pt_size → row.pt_size < aqo_stat_size →
        series (update_query_stat_row aqo_stat_size row planning_time execution_time
            cardinality_error).pt (row.pt_size + 1) =
          series row.pt row.pt_size ++ [planning_time]) ∧
      (1 ≤ aqo_stat_size → row.pt_size = aqo_stat_size →
        series (update_query_stat_row aqo_stat_size row planning_time execution_time
            cardinality_error).pt row.pt_size =
          (series row.pt row.pt_size).drop 1 ++ [planning_time])) ∧
    (cardinality_error < 0 →
      (update_query_stat_row aqo_stat_size row planning_time execution_time
          cardinality_error).ce = row.ce ∧
      (update_query_stat_row aqo_stat_size row planning_time execution_time
          cardinality_error).ce_size = row.ce_size) := by
  refine ⟨rfl, ⟨?_, ?_, ?_, ?_⟩, ⟨?_, ?_, ?_, ?_⟩, ?_⟩
  · exact (stat_row_append_top aqo_stat_size row.et row.et_size execution_time).1
  · exact (stat_row_append_top aqo_stat_size row.et row.et_size execution_time).2
  · intro h0 h1
    exact (series_append_room aqo_stat_size row.et row.et_size execution_time h0 h1).2
  · intro h1 h2
    exact (series_append_full aqo_stat_size row.et row.et_size execution_time h1 h2).2
  · exact (stat_row_append_top aqo_stat_size row.pt row.pt_size planning_time).1
  · exact (stat_row_append_top aqo_stat_size row.pt row.pt_size planning_time).2
  · intro h0 h1
    exact (series_append_room aqo_stat_size row.pt row.pt_size planning_time h0 h1).2
  · intro h1 h2
    exact (series_append_full aqo_stat_size row.pt row.pt_size planning_time h1 h2).2
  · intro hneg
    have hn : ¬ (cardinality_error ≥ 0) := not_le.2 hneg
    simp [update_query_stat_row, hn]

/-- Witness of C2: a run with cardinality error `-1` recorded in a row that
holds three samples of each kind, with `aqo_stat_size = 3`. -/
theorem update_query_stat_row_negative_error_witness :
    ((-1 : ℚ) < 0) ∧
    (update_query_stat_row 3 (record_runs 3 empty_row five_runs) 7 100 (-1)).n_exec = 6 ∧
    series (update_query_stat_row 3 (record_runs 3 empty_row five_runs) 7 100 (-1)).ce
        (update_query_stat_row 3 (record_runs 3 empty_row five_runs) 7 100 (-1)).ce_size =
      [23, 24, 25] ∧
    (update_query_stat_row 3 (record_runs 3 empty_row five_runs) 7 100 (-1)).et 2 = 100 ∧
    (update_query_stat_row 3 (record_runs 3 empty_row five_runs) 7 100 (-1)).pt 2 = 7 := by
  obtain ⟨hn, ⟨he1, he2, -, -⟩, ⟨hp1, hp2, -, -⟩, hc⟩ :=
    update_query_stat_row_negative_error 3 (record_runs 3 empty_row five_runs)
      (7 : ℚ) 100 (-1)
  obtain ⟨hc1, hc2⟩ := hc (by norm_num)
  have hs : (record_runs 3 (empty_row : StatRow ℚ) five_runs).et_size = 3 := by decide
  have hs2 : (record_runs 3 (empty_row : StatRow ℚ) five_runs).pt_size = 3 := by decide
  have hn0 : (record_runs 3 (empty_row : StatRow ℚ) five_runs).n_exec = 5 := by decide
  rw [hs] at he1
  rw [hs2] at hp1
  rw [he1] at he2
  rw [hp1] at hp2
  refine ⟨by norm_num, by rw [hn, hn0]; rfl, ?_, by simpa using he2, by simpa using hp2⟩
  rw [hc1, hc2]
  decide

/-! ## The convergence test -/

theorem foldl_add_eq_sum (f : Nat → K) (l : List Nat) (a : K) :
    l.foldl (fun (sum : K) (i : Nat) => sum + f i) a = a + (l.map f).sum := by
  induction l generalizing a with
  | nil => simp
  | cons x t ih => rw [List.foldl_cons, ih, List.map_cons, List.sum_cons, add_assoc]

theorem get_estimation_eq_mean (w : Int) (elems : Int → K) (nelems : Int) :
    get_estimation w elems (nelems - 1) = spec_window_mean w elems nelems := by
  unfold get_estimation spec_window_mean
  rw [foldl_add_eq_sum (fun i => elems (nelems - 1 - 1 - (i : Int))), zero_add]
  have h : (fun (i : Nat) => elems (nelems - 1 - 1 - (i : Int))) =
      (fun (i : Nat) => elems (nelems - 2 - (i : Int))) := by
    funext i
    congr 1
    ring
  rw [h]

theorem get_estimation_constant (w : Int) (hw : 1 ≤ w) (elems : Int → K) (nelems : Int)
    (c : K) (h : ∀ i : Int, nelems - w ≤ i → i < nelems → elems i = c) :
    get_estimation w elems nelems = c := by
  unfold get_estimation
  rw [foldl_add_eq_sum (fun i => elems (nelems - 1 - (i : Int))), zero_add]
  have hmap : (List.range w.toNat).map (fun (i : Nat) => elems (nelems - 1 - (i : Int))) =
      (List.range w.toNat).map (fun _ => c) := by
    apply List.map_congr_left
    intro i hi
    rw [List.mem_range] at hi
    exact h _ (by omega) (by omega)
  have hwK : (w : K) ≠ 0 := by
    have : (0 : K) < (w : K) := by exact_mod_cast (by omega : (0 : Int) < w)
    exact ne_of_gt this
  have hcast : ((w.toNat : Nat) : K) = (w : K) := by
    have : ((w.toNat : Nat) : Int) = w := Int.toNat_of_nonneg (by omega)
    exact_mod_cast this
  rw [hmap, List.map_const', List.sum_replicate, List.length_range, nsmul_eq_mul, hcast]
  field_simp

/-- C3, amended: for `auto_tuning_window_size >= 1` and a series of at least
`auto_tuning_window_size + 2` samples, `converged_cq` returns true exactly when
the last sample is below the relative or the absolute upper limit
(`est * 1.1` or `est + 0.1`) and above the relative or the absolute lower limit
(`est * 0.9` or `est - 0.1`), where `est` is the arithmetic mean of the
`auto_tuning_window_size` samples immediately before the last: on each side
one of the two bands is enough. -/
theorem converged_cq_iff_either_band (w : Int) (_hw : 1 ≤ w) (elems : Int → K)
    (nelems : Int) (hn : w + 2 ≤ nelems) :
    converged_cq w elems nelems = true ↔
      (elems (nelems - 1) < spec_window_mean w elems nelems * 1.1 ∨
        elems (nelems - 1) < spec_window_mean w elems nelems + 0.1) ∧
      (spec_window_mean w elems nelems * 0.9 < elems (nelems - 1) ∨
        spec_window_mean w elems nelems - 0.1 < elems (nelems - 1)) := by
  have hlt : ¬ (nelems < w + 2) := by omega
  simp only [converged_cq, if_neg hlt, get_estimation_eq_mean, Bool.and_eq_true,
    Bool.or_eq_true, decide_eq_true_eq, gt_iff_lt]

/-- Witness of C3 as amended: the series `[10, 10, 10.5]` with window size 1
has estimation 10; its last sample is inside the relative band and outside the
absolute one, and `converged_cq` returns true. -/
theorem converged_cq_iff_either_band_witness :
    (1 : Int) ≤ 1 ∧ (1 : Int) + 2 ≤ 3 ∧
    spec_window_mean 1 (array_of [(10 : ℚ), 10, 21 / 2]) 3 = 10 ∧
    converged_cq 1 (array_of [(10 : ℚ), 10, 21 / 2]) 3 = true := by
  have hm : spec_window_mean 1 (array_of [(10 : ℚ), 10, 21 / 2]) 3 = 10 := by
    norm_num [spec_window_mean, array_of, List.range_succ]
  refine ⟨by decide, by decide, hm, ?_⟩
  have hl : array_of [(10 : ℚ), 10, 21 / 2] (3 - 1) = 21 / 2 := by rfl
  rw [converged_cq_iff_either_band 1 (by decide) (array_of [(10 : ℚ), 10, 21 / 2]) 3
    (by decide), hm, hl]
  norm_num

/-- Counterexample to C3 as stated: on the series `[10, 10, 10.5]` with window
size 1 the estimation is 10 and the last sample 10.5 lies outside the absolute
band (9.9, 10.1), yet `converged_cq` returns true. -/
theorem converged_cq_not_both_bands :
    (1 : Int) + 2 ≤ 3 ∧
    converged_cq 1 (array_of [(10 : ℚ), 10, 21 / 2]) 3 = true ∧
    ¬ spec_within_both_bands (spec_window_mean 1 (array_of [(10 : ℚ), 10, 21 / 2]) 3)
        (array_of [(10 : ℚ), 10, 21 / 2] (3 - 1)) := by
  have hl : array_of [(10 : ℚ), 10, 21 / 2] (3 - 1) = 21 / 2 := by rfl
  have hm : spec_window_mean 1 (array_of [(10 : ℚ), 10, 21 / 2]) 3 = 10 := by
    norm_num [spec_window_mean, array_of, List.range_succ]
  have he : get_estimation 1 (array_of [(10 : ℚ), 10, 21 / 2]) (3 - 1) = 10 := by
    norm_num [get_estimation, array_of, List.range_succ]
  refine ⟨by decide, ?_, ?_⟩
  · simp only [converged_cq, he, hl]
    norm_num
  · rw [hm, hl]
    norm_num [spec_within_both_bands]

/-- C4: for `auto_tuning_window_size >= 1` and every `c`, a series of at least
`auto_tuning_window_size + 2` samples all equal to `c` is convergent for
`converged_cq`; a series of at least that many samples whose
`auto_tuning_window_size` samples before the last all equal `c > 0` and whose
last sample is smaller than both `0.9 * c` and `c - 0.1` is not convergent. -/
theorem converged_cq_constant_series (w : Int) (hw : 1 ≤ w) (c : K) (elems : Int → K)
    (nelems : Int) (hn : w + 2 ≤ nelems) :
    ((∀ i : Int, 0 ≤ i → i < nelems → elems i = c) → converged_cq w elems nelems = true) ∧
    (0 < c → (∀ i : Int, nelems - 1 - w ≤ i → i < nelems - 1 → elems i = c) →
      elems (nelems - 1) < 0.9 * c → elems (nelems - 1) < c - 0.1 →
      converged_cq w elems nelems = false) := by
  have hlt : ¬ (nelems < w + 2) := by omega
  constructor
  · intro hall
    have hest : get_estimation w elems (nelems - 1) = c :=
      get_estimation_constant w hw elems (nelems - 1) c
        (fun i h1 h2 => hall i (by omega) (by omega))
    have hlast : elems (nelems - 1) = c := hall _ (by omega) (by omega)
    simp only [converged_cq, if_neg hlt, hest, hlast]
    have h1 : c + 0.1 > c := by linarith [show (0 : K) < 0.1 by norm_num]
    have h2 : c - 0.1 < c := by linarith [show (0 : K) < 0.1 by norm_num]
    simp [h1, h2]
  · intro _ hwin hrel habs
    have hest : get_estimation w elems (nelems - 1) = c :=
      get_estimation_constant w hw elems (nelems - 1) c
        (fun i h1 h2 => hwin i (by omega) h2)
    simp only [converged_cq, if_neg hlt, hest]
    have h1 : ¬ (c * 0.9 < elems (nelems - 1)) := by
      rw [mul_comm]; exact not_lt.2 (le_of_lt hrel)
    have h2 : ¬ (c - 0.1 < elems (nelems - 1)) := not_lt.2 (le_of_lt habs)
    simp [h1, h2]

/-- Witness of C4, with window size 5: the series of seven samples 10 is
convergent, and the series of six samples 10 followed by 2 is not. -/
theorem converged_cq_constant_series_witness :
    (1 : Int) ≤ 5 ∧ (5 : Int) + 2 ≤ 7 ∧
    converged_cq 5 (array_of [(10 : ℚ), 10, 10, 10, 10, 10, 10]) 7 = true ∧
    converged_cq 5 (array_of [(10 : ℚ), 10, 10, 10, 10, 10, 2]) 7 = false := by
  refine ⟨by decide, by decide, ?_, ?_⟩
  · refine (converged_cq_constant_series 5 (by decide) (10 : ℚ)
      (array_of [(10 : ℚ), 10, 10, 10, 10, 10, 10]) 7 (by decide)).1 ?_
    intro i h0 h7
    interval_cases i <;> rfl
  · have hl : array_of [(10 : ℚ), 10, 10, 10, 10, 10, 2] (7 - 1) = 2 := by rfl
    refine (converged_cq_constant_series 5 (by decide) (10 : ℚ)
      (array_of [(10 : ℚ), 10, 10, 10, 10, 10, 2]) 7 (by decide)).2 (by norm_num) ?_
      (by rw [hl]; norm_num) (by rw [hl]; norm_num)
    intro i h0 h7
    interval_cases i <;> rfl

/-! ## The decision of the tuner -/

theorem tuning_first_branch (w : Int) (exploration : K) (exp : K → K)
    (stat : QueryStat K) (rnd : K) (h : stat.executions_without_aqo < w) :
    automatical_query_tuning w exploration exp stat rnd =
      { learn_aqo := true, use_aqo := false } := by
  simp [automatical_query_tuning, h]

/-- C5: when the count of executions without aqo is smaller than
`auto_tuning_window_size`, `automatical_query_tuning` sets `use_aqo = false`
and `learn_aqo = true`, whatever the series hold and whatever the random
draw. -/
theorem automatical_query_tuning_cold (w : Int) (exploration : K) (exp : K → K)
    (stat : QueryStat K) (rnd : K) (h : stat.executions_without_aqo < w) :
    automatical_query_tuning w exploration exp stat rnd =
      { learn_aqo := true, use_aqo := false } := by
  unfold automatical_query_tuning
  rw [if_pos h]

/-- Witness of C5: no execution recorded, window size 5. -/
theorem automatical_query_tuning_cold_witness :
    (empty_stat : QueryStat ℚ).executions_without_aqo < 5 ∧
    automatical_query_tuning 5 (1 / 10) (fun x => x) (empty_stat : QueryStat ℚ) (1 / 3) =
      { learn_aqo := true, use_aqo := false } :=
  ⟨by decide,
    automatical_query_tuning_cold 5 (1 / 10) (fun x => x) (empty_stat : QueryStat ℚ) (1 / 3)
      (by decide)⟩

theorem converged_cq_short (w : Int) (elems : Int → K) (nelems : Int)
    (h : nelems < w + 2) : converged_cq w elems nelems = false := by
  simp [converged_cq, h]

theorem tuning_not_converged (w : Int) (exploration : K)
    (exp : K → K) (stat : QueryStat K)
    (hc : converged_cq w stat.cardinality_error_with_aqo
      stat.cardinality_error_with_aqo_size = false) (rnd : K) :
    automatical_query_tuning w exploration exp stat rnd =
      (if stat.executions_without_aqo < w then { learn_aqo := true, use_aqo := false }
        else { learn_aqo := true, use_aqo := true }) := by
  simp [automatical_query_tuning, hc]

/-- C6: when the cardinality-error series of the runs with aqo is not
convergent, in particular when it has fewer than `auto_tuning_window_size + 2`
samples, two runs of `automatical_query_tuning` on the same statistics with two
random values give the same flags: `use_aqo = false`, `learn_aqo = true` when
fewer than `auto_tuning_window_size` executions without aqo are recorded, and
`use_aqo = true`, `learn_aqo = true` otherwise. -/
theorem automatical_query_tuning_deterministic (w : Int) (exploration : K) (exp : K → K)
    (stat : QueryStat K)
    (h : stat.cardinality_error_with_aqo_size < w + 2 ∨
      converged_cq w stat.cardinality_error_with_aqo
        stat.cardinality_error_with_aqo_size = false)
    (rnd1 rnd2 : K) :
    automatical_query_tuning w exploration exp stat rnd1 =
        automatical_query_tuning w exploration exp stat rnd2 ∧
    automatical_query_tuning w exploration exp stat rnd1 =
      (if stat.executions_without_aqo < w then { learn_aqo := true, use_aqo := false }
        else { learn_aqo := true, use_aqo := true }) := by
  have hc : converged_cq w stat.cardinality_error_with_aqo
      stat.cardinality_error_with_aqo_size = false := by
    rcases h with h | h
    · exact converged_cq_short w _ _ h
    · exact h
  have key := tuning_not_converged w exploration exp stat hc
  exact ⟨by rw [key rnd1, key rnd2], key rnd1⟩

/-- Witness of C6, with window size 5 and five executions without aqo: the
series of seven errors `10, ..., 10, 2` is long enough and not convergent, and
the draws `0` and `1` give the same flags `use_aqo = true`, `learn_aqo = true`. -/
theorem automatical_query_tuning_deterministic_witness :
    ¬ (diverged_stat.cardinality_error_with_aqo_size < 5 + 2) ∧
    converged_cq 5 diverged_stat.cardinality_error_with_aqo
        diverged_stat.cardinality_error_with_aqo_size = false ∧
    automatical_query_tuning 5 (1 / 10) (fun x => x) diverged_stat 0 =
        automatical_query_tuning 5 (1 / 10) (fun x => x) diverged_stat 1 ∧
    automatical_query_tuning 5 (1 / 10) (fun x => x) diverged_stat 0 =
      { learn_aqo := true, use_aqo := true } := by
  have hc : converged_cq 5 diverged_stat.cardinality_error_with_aqo
      diverged_stat.cardinality_error_with_aqo_size = false := by
    have h5 : Int.toNat 5 = 5 := rfl
    norm_num [converged_cq, get_estimation, diverged_stat, empty_stat, h5, List.range_succ]
  have h := automatical_query_tuning_deterministic 5 (1 / 10) (fun x => x) diverged_stat
    (Or.inr hc) 0 1
  have he : ¬ (diverged_stat.executions_without_aqo < 5) := by decide
  rw [if_neg he] at h
  exact ⟨by decide, hc, h.1, h.2⟩

/-! ## The end-to-end scenario -/

theorem learn_query_stat_without_aqo (s w : Int) (u : K) (exp : K → K)
    (run : QueryRun K) (stat : QueryStat K) (h : run_without_aqo_no_error run) :
    (learn_query_stat s w u exp run stat).1.executions_without_aqo =
        stat.executions_without_aqo + 1 ∧
    (learn_query_stat s w u exp run stat).1.cardinality_error_with_aqo_size =
        stat.cardinality_error_with_aqo_size ∧
    (learn_query_stat s w u exp run stat).2 =
      some (automatical_query_tuning w u exp (learn_query_stat s w u exp run stat).1
        run.rnd) := by
  obtain ⟨h1, h2, h3, h4, h5, -⟩ := h
  simp [learn_query_stat, h1, h2, h3, h4, h5, set_row_without_aqo, row_without_aqo,
    update_query_stat_row]

theorem tuning_trace_without_aqo (s w : Int) (u : K) (exp : K → K)
    (runs : List (QueryRun K)) :
    ∀ stat : QueryStat K, stat.cardinality_error_with_aqo_size < w + 2 →
      (∀ run ∈ runs, run_without_aqo_no_error run) →
      tuning_trace s w u exp stat runs =
        (List.range runs.length).map (fun (k : Nat) =>
          some (if stat.executions_without_aqo + (k : Int) + 1 < w then
            ({ learn_aqo := true, use_aqo := false } : TuningFlags)
          else { learn_aqo := true, use_aqo := true })) := by
  induction runs with
  | nil => intro stat _ _; rfl
  | cons run rest ih =>
    intro stat hsz hall
    obtain ⟨e1, e2, e3⟩ := learn_query_stat_without_aqo s w u exp run stat
      (hall run (List.mem_cons_self _ _))
    have hsz1 : (learn_query_stat s w u exp run stat).1.cardinality_error_with_aqo_size <
        w + 2 := by rw [e2]; exact hsz
    have hrest := ih (learn_query_stat s w u exp run stat).1 hsz1
      (fun r hr => hall r (List.mem_cons_of_mem _ hr))
    have hflags := (tuning_not_converged w u exp
      (learn_query_stat s w u exp run stat).1 (converged_cq_short w _ _ hsz1) run.rnd)
    rw [tuning_trace, hrest, e3, hflags, e1, List.length_cons, List.range_succ_eq_map,
      List.map_cons, List.map_map]
    congr 1
    · simp
    · apply List.map_congr_left
      intro k _
      simp only [Function.comp_apply, Nat.cast_succ]
      have : stat.executions_without_aqo + 1 + (k : Int) + 1 =
          stat.executions_without_aqo + ((k : Int) + 1) + 1 := by ring
      rw [this]

/-- C7: for `auto_tuning_window_size = w >= 1` and `aqo_stat_size >= 1`, start
from statistics with no execution without aqo and no cardinality error with
aqo recorded, as the empty statistics are.  When `w` runs end one after the
other on the branch without aqo, each reporting no cardinality error
(`cardinality_error = -1`), and the tuner runs after each, it decides
`use_aqo = false` after each of the first `w - 1` runs and `use_aqo = true`,
`learn_aqo = true` after the `w`-th run. -/
theorem tuner_enables_aqo_after_window (s w : Int) (hw : 1 ≤ w) (_hs : 1 ≤ s) (u : K)
    (exp : K → K) (stat : QueryStat K) (h0 : stat.executions_without_aqo = 0)
    (hc : stat.cardinality_error_with_aqo_size = 0) (runs : List (QueryRun K))
    (hlen : (runs.length : Int) = w) (hall : ∀ run ∈ runs, run_without_aqo_no_error run) :
    tuning_trace s w u exp stat runs =
      List.replicate (runs.length - 1) (some { learn_aqo := true, use_aqo := false }) ++
        [some { learn_aqo := true, use_aqo := true }] := by
  rw [tuning_trace_without_aqo s w u exp runs stat (by omega) hall, h0]
  obtain ⟨m, hm⟩ : ∃ m : Nat, runs.length = m + 1 := ⟨runs.length - 1, by omega⟩
  rw [hm, Nat.add_sub_cancel, List.range_succ, List.map_append, List.map_cons, List.map_nil]
  congr 1
  · rw [List.eq_replicate_iff]
    refine ⟨by simp, ?_⟩
    intro b hb
    obtain ⟨k, hk, rfl⟩ := List.mem_map.1 hb
    rw [List.mem_range] at hk
    have : (0 : Int) + (k : Int) + 1 < w := by omega
    rw [if_pos this]
  · have : ¬ ((0 : Int) + (m : Int) + 1 < w) := by omega
    rw [if_neg this]

/-- Witness of C7: window size 5, five runs without aqo with execution time
100 and no cardinality error, from the empty statistics: the tuner keeps
`use_aqo = false` after the first four runs and sets `use_aqo = true` after the
fifth, for the sixth occurrence of the query. -/
theorem tuner_enables_aqo_after_window_witness :
    (1 : Int) ≤ 5 ∧ (1 : Int) ≤ 10 ∧
    (empty_stat : QueryStat ℚ).executions_without_aqo = 0 ∧
    (empty_stat : QueryStat ℚ).cardinality_error_with_aqo_size = 0 ∧
    ((List.replicate 5 scenario_run).length : Int) = 5 ∧
    (∀ run ∈ List.replicate 5 scenario_run, run_without_aqo_no_error run) ∧
    scenario_run.totaltime - scenario_run.query_planning_time = 100 ∧
    tuning_trace 10 5 (1 / 10) (fun x => x) empty_stat (List.replicate 5 scenario_run) =
      [some { learn_aqo := true, use_aqo := false },
        some { learn_aqo := true, use_aqo := false },
        some { learn_aqo := true, use_aqo := false },
        some { learn_aqo := true, use_aqo := false },
        some { learn_aqo := true, use_aqo := true }] := by
  have hall : ∀ run ∈ List.replicate 5 scenario_run, run_without_aqo_no_error run := by
    intro run hrun
    rw [List.eq_of_mem_replicate hrun]
    exact ⟨rfl, rfl, rfl, rfl, rfl, Or.inr rfl⟩
  have h := tuner_enables_aqo_after_window 10 5 (by decide) (by decide) (1 / 10 : ℚ)
    (fun x => x) empty_stat rfl rfl (List.replicate 5 scenario_run) (by simp) hall
  refine ⟨by decide, by decide, rfl, rfl, by simp, hall, by norm_num [scenario_run], ?_⟩
  rw [h]
  rfl

/-! ## The probability of using aqo -/

theorem exp_neg_half_lt_one (u : ℝ) (hu : 0 < u) : Real.exp (-0.5 / u) < 1 := by
  have h : (-0.5 : ℝ) / u < 0 := div_neg_of_neg_of_pos (by norm_num) hu
  calc Real.exp (-0.5 / u) < Real.exp 0 := Real.exp_lt_exp.2 h
    _ = 1 := Real.exp_zero

theorem rescale_divisor_neg (u : ℝ) (hu : 0 < u) :
    1 - 2 / (1 + Real.exp (-0.5 / u)) < 0 := by
  have h1 := exp_neg_half_lt_one u hu
  have h0 : 0 < Real.exp (-0.5 / u) := Real.exp_pos _
  rw [sub_neg, lt_div_iff₀ (by linarith)]
  linarith

theorem p_use_logistic_anti (u : ℝ) (hu : 0 < u) (p1 p2 : ℝ) (h : p1 < p2) :
    p_use_logistic Real.exp u p2 < p_use_logistic Real.exp u p1 := by
  unfold p_use_logistic
  have h1 : (p1 - 0.5) / u < (p2 - 0.5) / u := by
    apply div_lt_div_of_pos_right _ hu
    linarith
  have h2 : Real.exp ((p1 - 0.5) / u) < Real.exp ((p2 - 0.5) / u) := Real.exp_lt_exp.2 h1
  have h3 : 0 < Real.exp ((p1 - 0.5) / u) := Real.exp_pos _
  apply one_div_lt_one_div_of_lt (by linarith)
  linarith

theorem p_use_rescale_anti (u : ℝ) (hu : 0 < u) (q1 q2 : ℝ) (h : q1 < q2) :
    p_use_rescale Real.exp u q2 < p_use_rescale Real.exp u q1 := by
  unfold p_use_rescale
  apply div_lt_div_of_neg_of_lt (rescale_divisor_neg u hu)
  linarith

/-- The logistic squashing followed by the rescaling is strictly increasing
in the ratio `p`. -/
theorem p_use_of_ratio_mono (u : ℝ) (hu : 0 < u) (p1 p2 : ℝ) (h : p1 < p2) :
    p_use_rescale Real.exp u (p_use_logistic Real.exp u p1) <
      p_use_rescale Real.exp u (p_use_logistic Real.exp u p2) :=
  p_use_rescale_anti u hu _ _ (p_use_logistic_anti u hu p1 p2 h)

theorem p_use_of_ratio_half (u : ℝ) (hu : 0 < u) :
    p_use_logistic Real.exp u (1 / 2) = 1 / 2 ∧
    p_use_rescale Real.exp u (1 / 2) = 1 / 2 := by
  have hd := rescale_divisor_neg u hu
  have h0 : 0 < Real.exp (-0.5 / u) := Real.exp_pos _
  constructor
  · unfold p_use_logistic
    have : ((1 : ℝ) / 2 - 0.5) / u = 0 := by norm_num
    rw [this, Real.exp_zero]
    norm_num
  · unfold p_use_rescale
    rw [div_eq_iff (ne_of_lt hd)]
    field_simp

theorem p_use_of_ratio_zero (u : ℝ) :
    p_use_rescale Real.exp u (p_use_logistic Real.exp u 0) = 0 := by
  unfold p_use_rescale p_use_logistic
  rw [zero_sub, sub_self, zero_div]

theorem p_use_of_ratio_one (u : ℝ) (hu : 0 < u) :
    p_use_rescale Real.exp u (p_use_logistic Real.exp u 1) = 1 := by
  have hd := rescale_divisor_neg u hu
  have h0 : 0 < Real.exp (-0.5 / u) := Real.exp_pos _
  have he : Real.exp (((1 : ℝ) - 0.5) / u) = (Real.exp (-0.5 / u))⁻¹ := by
    rw [← Real.exp_neg]
    congr 1
    ring
  unfold p_use_rescale p_use_logistic
  rw [div_eq_iff (ne_of_lt hd), he]
  field_simp
  ring

theorem p_use_ratio_bounds (t_aqo t_not_aqo : ℝ) (ha : 0 < t_aqo) (hn : 0 < t_not_aqo) :
    0 < p_use_ratio t_aqo t_not_aqo ∧ p_use_ratio t_aqo t_not_aqo < 1 ∧
    (1 / 2 < p_use_ratio t_aqo t_not_aqo ↔ t_aqo < t_not_aqo) ∧
    (p_use_ratio t_aqo t_not_aqo < 1 / 2 ↔ t_not_aqo < t_aqo) := by
  unfold p_use_ratio
  have hs : 0 < t_not_aqo + t_aqo := by linarith
  refine ⟨div_pos hn hs, ?_, ?_, ?_⟩
  · rw [div_lt_one hs]; linarith
  · rw [lt_div_iff₀ hs]; constructor <;> intro h <;> linarith
  · rw [div_lt_iff₀ hs]; constructor <;> intro h <;> linarith

theorem p_use_ratio_mono (t_aqo t1 t2 : ℝ) (ha : 0 < t_aqo) (h1 : 0 < t1) (h : t1 < t2) :
    p_use_ratio t_aqo t1 < p_use_ratio t_aqo t2 := by
  unfold p_use_ratio
  rw [div_lt_div_iff₀ (by linarith) (by linarith)]
  nlinarith

theorem p_use_ratio_anti (t_not_aqo t1 t2 : ℝ) (hn : 0 < t_not_aqo) (h1 : 0 < t1)
    (h : t1 < t2) : p_use_ratio t2 t_not_aqo < p_use_ratio t1 t_not_aqo := by
  unfold p_use_ratio
  rw [div_lt_div_iff₀ (by linarith) (by linarith)]
  nlinarith

theorem p_use_bounds (u t_aqo t_not_aqo : ℝ) (hu : 0 < u) (ha : 0 < t_aqo)
    (hn : 0 < t_not_aqo) :
    0 < p_use Real.exp u t_aqo t_not_aqo ∧ p_use Real.exp u t_aqo t_not_aqo < 1 := by
  obtain ⟨r0, r1, -, -⟩ := p_use_ratio_bounds t_aqo t_not_aqo ha hn
  have h0 := p_use_of_ratio_mono u hu _ _ r0
  have h1 := p_use_of_ratio_mono u hu _ _ r1
  rw [p_use_of_ratio_zero] at h0
  rw [p_use_of_ratio_one u hu] at h1
  exact ⟨h0, h1⟩

theorem p_use_half_lt_iff (u t_aqo t_not_aqo : ℝ) (hu : 0 < u) (ha : 0 < t_aqo)
    (hn : 0 < t_not_aqo) :
    (1 / 2 < p_use Real.exp u t_aqo t_not_aqo ↔ t_aqo < t_not_aqo) ∧
    (p_use Real.exp u t_aqo t_not_aqo < 1 / 2 ↔ t_not_aqo < t_aqo) := by
  obtain ⟨-, -, r2, r3⟩ := p_use_ratio_bounds t_aqo t_not_aqo ha hn
  obtain ⟨g1, g2⟩ := p_use_of_ratio_half u hu
  have hhalf : p_use_rescale Real.exp u (p_use_logistic Real.exp u (1 / 2)) = 1 / 2 := by
    rw [g1, g2]
  have hmono : StrictMono
      (fun p : ℝ => p_use_rescale Real.exp u (p_use_logistic Real.exp u p)) :=
    fun p1 p2 h => p_use_of_ratio_mono u hu p1 p2 h
  constructor
  · rw [← r2]
    have := hmono.lt_iff_lt (a := 1 / 2) (b := p_use_ratio t_aqo t_not_aqo)
    simp only [hhalf] at this
    exact this
  · rw [← r3]
    have := hmono.lt_iff_lt (a := p_use_ratio t_aqo t_not_aqo) (b := 1 / 2)
    simp only [hhalf] at this
    exact this

/-- C8: in exact real arithmetic and for every exploration rate `u > 0`, the
logistic squashing followed by the rescaling sends the ratio 1/2 to exactly
1/2, the ratio 0 to exactly 0 and the ratio 1 to exactly 1.  When
`t_aqo = t_not_aqo > 0` the value of `p_use` is exactly 1/2 after each of its
assignments (the ratio, the logistic squashing, the rescaling); when
`t_not_aqo = 0 < t_aqo` the ratio is 0 and the final `p_use` is exactly 0; when
`t_aqo = 0 < t_not_aqo` the ratio is 1 and the final `p_use` is exactly 1. -/
theorem p_use_at_half_zero_one (u : ℝ) (hu : 0 < u) :
    (p_use_rescale Real.exp u (p_use_logistic Real.exp u (1 / 2)) = 1 / 2 ∧
      p_use_rescale Real.exp u (p_use_logistic Real.exp u 0) = 0 ∧
      p_use_rescale Real.exp u (p_use_logistic Real.exp u 1) = 1) ∧
    (∀ t : ℝ, 0 < t →
      p_use_ratio t t = 1 / 2 ∧
      p_use_logistic Real.exp u (p_use_ratio t t) = 1 / 2 ∧
      p_use Real.exp u t t = 1 / 2) ∧
    (∀ t_aqo : ℝ, 0 < t_aqo →
      p_use_ratio t_aqo 0 = 0 ∧ p_use Real.exp u t_aqo 0 = 0) ∧
    (∀ t_not_aqo : ℝ, 0 < t_not_aqo →
      p_use_ratio 0 t_not_aqo = 1 ∧ p_use Real.exp u 0 t_not_aqo = 1) := by
  obtain ⟨g1, g2⟩ := p_use_of_ratio_half u hu
  refine ⟨⟨by rw [g1, g2], p_use_of_ratio_zero u, p_use_of_ratio_one u hu⟩, ?_, ?_, ?_⟩
  · intro t ht
    have hr : p_use_ratio t t = 1 / 2 := by
      unfold p_use_ratio
      field_simp
      ring
    refine ⟨hr, by rw [hr, g1], ?_⟩
    unfold p_use
    rw [hr, g1, g2]
  · intro t_aqo _
    have hr : p_use_ratio t_aqo 0 = 0 := by simp [p_use_ratio]
    refine ⟨hr, ?_⟩
    unfold p_use
    rw [hr, p_use_of_ratio_zero]
  · intro t_not_aqo ht
    have hr : p_use_ratio 0 t_not_aqo = 1 := by
      unfold p_use_ratio
      rw [add_zero, div_self (ne_of_gt ht)]
    refine ⟨hr, ?_⟩
    unfold p_use
    rw [hr, p_use_of_ratio_one u hu]

/-- Witness of C8: exploration rate 0.1, the value of `auto_tuning_exploration`
in `aqo.c`, and both times equal to 1. -/
theorem p_use_at_half_zero_one_witness :
    (0 : ℝ) < 0.1 ∧ (0 : ℝ) < 1 ∧
    p_use_ratio (1 : ℝ) 1 = 1 / 2 ∧
    p_use_logistic Real.exp 0.1 (p_use_ratio (1 : ℝ) 1) = 1 / 2 ∧
    p_use Real.exp 0.1 1 1 = 1 / 2 ∧
    p_use Real.exp 0.1 1 0 = 0 ∧
    p_use Real.exp 0.1 0 1 = 1 := by
  have hu : (0 : ℝ) < 0.1 := by norm_num
  obtain ⟨-, h1, h2, h3⟩ := p_use_at_half_zero_one 0.1 hu
  obtain ⟨a1, a2, a3⟩ := h1 1 one_pos
  exact ⟨hu, one_pos, a1, a2, a3, (h2 1 one_pos).2, (h3 1 one_pos).2⟩

/-- C9: in exact real arithmetic, for every exploration rate `u > 0` and all
positive estimated times `t_aqo` and `t_not_aqo`, the probability `p_use` lies
in `[0, 1]`, is greater than 1/2 exactly when aqo is the faster branch
(`t_aqo < t_not_aqo`) and smaller than 1/2 exactly when it is the slower one;
`p_use` is strictly increasing in `t_not_aqo` and strictly decreasing in
`t_aqo`. -/
theorem p_use_prefers_faster_branch (u t_aqo t_not_aqo : ℝ) (hu : 0 < u) (ha : 0 < t_aqo)
    (hn : 0 < t_not_aqo) :
    (0 ≤ p_use Real.exp u t_aqo t_not_aqo ∧ p_use Real.exp u t_aqo t_not_aqo ≤ 1) ∧
    (1 / 2 < p_use Real.exp u t_aqo t_not_aqo ↔ t_aqo < t_not_aqo) ∧
    (p_use Real.exp u t_aqo t_not_aqo < 1 / 2 ↔ t_not_aqo < t_aqo) ∧
    (∀ t2 : ℝ, t_not_aqo < t2 →
      p_use Real.exp u t_aqo t_not_aqo < p_use Real.exp u t_aqo t2) ∧
    (∀ t2 : ℝ, t_aqo < t2 →
      p_use Real.exp u t2 t_not_aqo < p_use Real.exp u t_aqo t_not_aqo) := by
  obtain ⟨b0, b1⟩ := p_use_bounds u t_aqo t_not_aqo hu ha hn
  obtain ⟨c1, c2⟩ := p_use_half_lt_iff u t_aqo t_not_aqo hu ha hn
  refine ⟨⟨le_of_lt b0, le_of_lt b1⟩, c1, c2, ?_, ?_⟩
  · intro t2 h2
    exact p_use_of_ratio_mono u hu _ _ (p_use_ratio_mono t_aqo t_not_aqo t2 ha hn h2)
  · intro t2 h2
    exact p_use_of_ratio_mono u hu _ _ (p_use_ratio_anti t_not_aqo t_aqo t2 hn ha h2)

/-- Witness of C9: exploration rate 0.1 and times 3 with aqo, 5 without: aqo is
the faster branch and `p_use` lies in `(1/2, 1]`. -/
theorem p_use_prefers_faster_branch_witness :
    (0 : ℝ) < 0.1 ∧ (0 : ℝ) < 3 ∧ (0 : ℝ) < 5 ∧
    1 / 2 < p_use Real.exp 0.1 3 5 ∧ p_use Real.exp 0.1 3 5 ≤ 1 ∧
    p_use Real.exp 0.1 3 5 < p_use Real.exp 0.1 3 6 ∧
    p_use Real.exp 0.1 4 5 < p_use Real.exp 0.1 3 5 := by
  have hu : (0 : ℝ) < 0.1 := by norm_num
  have h3 : (0 : ℝ) < 3 := by norm_num
  have h5 : (0 : ℝ) < 5 := by norm_num
  obtain ⟨⟨-, b1⟩, c1, -, m1, m2⟩ := p_use_prefers_faster_branch 0.1 3 5 hu h3 h5
  exact ⟨hu, h3, h5, c1.2 (by norm_num), b1, m1 6 (by norm_num), m2 4 (by norm_num)⟩

/-- C10: after `automatical_query_tuning`, in the last branch (enough
executions without aqo and a convergent cardinality-error series with aqo)
`use_aqo` is true exactly when the random draw is strictly below `p_use`, and
`learn_aqo` equals `use_aqo`; in the two other branches `learn_aqo` is true;
in every case `use_aqo = true` implies `learn_aqo = true`. -/
theorem automatical_query_tuning_learn_flag (w : Int) (u : K) (exp : K → K)
    (stat : QueryStat K) (rnd : K) :
    ((¬ stat.executions_without_aqo < w ∧
        converged_cq w stat.cardinality_error_with_aqo
          stat.cardinality_error_with_aqo_size = true) →
      ((automatical_query_tuning w u exp stat rnd).use_aqo = true ↔
          rnd < p_use exp u (t_aqo w stat) (t_not_aqo w stat)) ∧
      (automatical_query_tuning w u exp stat rnd).learn_aqo =
        (automatical_query_tuning w u exp stat rnd).use_aqo) ∧
    ((stat.executions_without_aqo < w ∨
        converged_cq w stat.cardinality_error_with_aqo
          stat.cardinality_error_with_aqo_size = false) →
      (automatical_query_tuning w u exp stat rnd).learn_aqo = true) ∧
    ((automatical_query_tuning w u exp stat rnd).use_aqo = true →
      (automatical_query_tuning w u exp stat rnd).learn_aqo = true) := by
  by_cases h1 : stat.executions_without_aqo < w
  · have hf := tuning_first_branch w u exp stat rnd h1
    rw [hf]
    refine ⟨fun h => absurd h1 h.1, fun _ => rfl, fun _ => rfl⟩
  · by_cases h2 : converged_cq w stat.cardinality_error_with_aqo
        stat.cardinality_error_with_aqo_size = true
    · have hf : automatical_query_tuning w u exp stat rnd =
          { learn_aqo := decide (rnd < p_use exp u (t_aqo w stat) (t_not_aqo w stat)),
            use_aqo := decide (rnd < p_use exp u (t_aqo w stat) (t_not_aqo w stat)) } := by
        simp [automatical_query_tuning, h1, h2]
      rw [hf]
      refine ⟨fun _ => ⟨by simp, rfl⟩, ?_, fun h => h⟩
      intro h
      rcases h with h | h
      · exact absurd h h1
      · rw [h2] at h
        exact absurd h (by decide)
    · have h3 : converged_cq w stat.cardinality_error_with_aqo
          stat.cardinality_error_with_aqo_size = false := by
        simpa using h2
      have hf := tuning_not_converged w u exp stat h3 rnd
      rw [if_neg h1] at hf
      rw [hf]
      refine ⟨fun h => absurd h.2 h2, fun _ => rfl, fun _ => rfl⟩

/-- Witness of C10 in the last branch, on statistics whose cardinality errors
have converged and whose estimated time is 3 with aqo and 5 without: with
window size 5 and exploration rate 0.1, the draw 1/2 is below `p_use` and sets
both flags, the draw 1 is not and clears both. -/
theorem automatical_query_tuning_learn_flag_witness :
    ¬ ((steady_stat : QueryStat ℝ).executions_without_aqo < 5) ∧
    converged_cq 5 (steady_stat : QueryStat ℝ).cardinality_error_with_aqo
      (steady_stat : QueryStat ℝ).cardinality_error_with_aqo_size = true ∧
    automatical_query_tuning 5 0.1 Real.exp (steady_stat : QueryStat ℝ) (1 / 2) =
      { learn_aqo := true, use_aqo := true } ∧
    automatical_query_tuning 5 0.1 Real.exp (steady_stat : QueryStat ℝ) 1 =
      { learn_aqo := false, use_aqo := false } := by
  have hu : (0 : ℝ) < 0.1 := by norm_num
  have he : ¬ ((steady_stat : QueryStat ℝ).executions_without_aqo < 5) := by decide
  have hc : converged_cq 5 (steady_stat : QueryStat ℝ).cardinality_error_with_aqo
      (steady_stat : QueryStat ℝ).cardinality_error_with_aqo_size = true := by
    have hest : get_estimation 5 (steady_stat : QueryStat ℝ).cardinality_error_with_aqo
        ((steady_stat : QueryStat ℝ).cardinality_error_with_aqo_size - 1) = 1 :=
      get_estimation_constant 5 (by decide) _ _ 1 (fun _ _ _ => rfl)
    have hlt : ¬ ((steady_stat : QueryStat ℝ).cardinality_error_with_aqo_size < 5 + 2) := by
      decide
    simp only [converged_cq, if_neg hlt, hest]
    norm_num [steady_stat]
  have ht1 : t_aqo 5 (steady_stat : QueryStat ℝ) = 3 := by
    unfold t_aqo
    rw [get_estimation_constant 5 (by decide)
        (steady_stat : QueryStat ℝ).execution_time_with_aqo _ 2 (fun _ _ _ => rfl),
      get_estimation_constant 5 (by decide)
        (steady_stat : QueryStat ℝ).planning_time_with_aqo _ 1 (fun _ _ _ => rfl)]
    norm_num
  have ht2 : t_not_aqo 5 (steady_stat : QueryStat ℝ) = 5 := by
    unfold t_not_aqo
    rw [get_estimation_constant 5 (by decide)
        (steady_stat : QueryStat ℝ).execution_time_without_aqo _ 4 (fun _ _ _ => rfl),
      get_estimation_constant 5 (by decide)
        (steady_stat : QueryStat ℝ).planning_time_without_aqo _ 1 (fun _ _ _ => rfl)]
    norm_num
  have hp1 : (1 : ℝ) / 2 < p_use Real.exp 0.1 3 5 :=
    (p_use_half_lt_iff 0.1 3 5 hu (by norm_num) (by norm_num)).1.2 (by norm_num)
  have hp2 : ¬ ((1 : ℝ) < p_use Real.exp 0.1 3 5) :=
    not_lt.2 (le_of_lt (p_use_bounds 0.1 3 5 hu (by norm_num) (by norm_num)).2)
  obtain ⟨a1, -, -⟩ := automatical_query_tuning_learn_flag 5 0.1 Real.exp
    (steady_stat : QueryStat ℝ) (1 / 2)
  obtain ⟨b1, -, -⟩ := automatical_query_tuning_learn_flag 5 0.1 Real.exp
    (steady_stat : QueryStat ℝ) 1
  obtain ⟨a2, a3⟩ := a1 ⟨he, hc⟩
  obtain ⟨b2, b3⟩ := b1 ⟨he, hc⟩
  rw [ht1, ht2] at a2 b2
  have a4 := a2.2 hp1
  have b4 : (automatical_query_tuning 5 0.1 Real.exp (steady_stat : QueryStat ℝ) 1).use_aqo =
      false := by
    simpa using (not_congr b2).2 hp2
  refine ⟨he, hc, ?_, ?_⟩
  · have a5 := a3
    rw [a4] at a5
    exact TuningFlags.ext a5 a4
  · have b5 := b3
    rw [b4] at b5
    exact TuningFlags.ext b5 b4

/-! ## The walk over the plan -/

theorem collect_planstat_own_frame (env : Collaborators K C Store) (plan : Plan K C)
    (instrument : Option (Instrumentation K)) (l r : Option (PlanState K C))
    (w : PlanWalk K C) :
    (collect_planstat_own env plan instrument l r w).other_plans = w.other_plans ∧
    (collect_planstat_own env plan instrument l r w).clauselist =
      (if plan.had_path then plan.path_clauses else []) ++ w.clauselist ∧
    (collect_planstat_own env plan instrument l r w).selectivities =
      (if plan.had_path then
          restore_selectivities env plan.path_clauses plan.path_relids plan.path_jointype
            plan.was_parametrized
        else []) ++ w.selectivities ∧
    ∃ new : List (Observation K C),
      (collect_planstat_own env plan instrument l r w).learn_calls = w.learn_calls ++ new := by
  unfold collect_planstat_own
  by_cases hp : plan.had_path = true
  · simp only [hp, if_true]
    cases instrument with
    | none => exact ⟨rfl, rfl, rfl, [], by simp⟩
    | some instr =>
      simp only []
      split_ifs <;>
        first
        | exact ⟨rfl, rfl, rfl, _, rfl⟩
        | exact ⟨rfl, rfl, rfl, [], (List.append_nil _).symm⟩
  · simp only [hp]
    exact ⟨rfl, by simp, by simp, [], by simp⟩

theorem own_other_plans (env : Collaborators K C Store) (plan : Plan K C)
    (instrument : Option (Instrumentation K)) (l r : Option (PlanState K C))
    (w : PlanWalk K C) :
    (collect_planstat_own env plan instrument l r w).other_plans = w.other_plans :=
  (collect_planstat_own_frame env plan instrument l r w).1

theorem own_clauselist (env : Collaborators K C Store) (plan : Plan K C)
    (instrument : Option (Instrumentation K)) (l r : Option (PlanState K C))
    (w : PlanWalk K C) :
    (collect_planstat_own env plan instrument l r w).clauselist =
      (if plan.had_path then plan.path_clauses else []) ++ w.clauselist :=
  (collect_planstat_own_frame env plan instrument l r w).2.1

theorem own_selectivities (env : Collaborators K C Store) (plan : Plan K C)
    (instrument : Option (Instrumentation K)) (l r : Option (PlanState K C))
    (w : PlanWalk K C) :
    (collect_planstat_own env plan instrument l r w).selectivities =
      (if plan.had_path then
          restore_selectivities env plan.path_clauses plan.path_relids plan.path_jointype
            plan.was_parametrized
        else []) ++ w.selectivities :=
  (collect_planstat_own_frame env plan instrument l r w).2.2.1

theorem own_keeps_calls (env : Collaborators K C Store) (plan : Plan K C)
    (instrument : Option (Instrumentation K)) (l r : Option (PlanState K C))
    (w : PlanWalk K C) :
    w.learn_calls <+: (collect_planstat_own env plan instrument l r w).learn_calls := by
  obtain ⟨new, h⟩ := (collect_planstat_own_frame env plan instrument l r w).2.2.2
  exact ⟨new, h.symm⟩

/-- A walk extends the queue at its end and the clause and selectivity lists
at their front, by what the walk of the same tree from empty lists gives. -/
theorem collect_planstat_lists (env : Collaborators K C Store) :
    ∀ (p : PlanState K C) (w : PlanWalk K C),
      (collect_planstat env p w).other_plans = w.other_plans ++ subtree_queue env p ∧
      (collect_planstat env p w).clauselist = subtree_clauses env p ++ w.clauselist ∧
      (collect_planstat env p w).selectivities =
        subtree_selectivities env p ++ w.selectivities
  | PlanState.mk plan instrument none none subPlan, w => by
    rw [subtree_queue, subtree_clauses, subtree_selectivities]
    simp only [collect_planstat, own_other_plans, own_clauselist, own_selectivities]
    simp [empty_walk]
  | PlanState.mk _ _ none (some _) subPlan, w => by
    rw [subtree_queue, subtree_clauses, subtree_selectivities]
    simp only [collect_planstat]
    simp [empty_walk]
  | PlanState.mk plan instrument (some l) none subPlan, w => by
    have l1 := fun v => (collect_planstat_lists env l v).1
    have l2 := fun v => (collect_planstat_lists env l v).2.1
    have l3 := fun v => (collect_planstat_lists env l v).2.2
    rw [subtree_queue, subtree_clauses, subtree_selectivities]
    simp only [collect_planstat, own_other_plans, own_clauselist, own_selectivities,
      l1, l2, l3]
    simp [empty_walk]
  | PlanState.mk plan instrument (some l) (some r) subPlan, w => by
    have l1 := fun v => (collect_planstat_lists env l v).1
    have l2 := fun v => (collect_planstat_lists env l v).2.1
    have l3 := fun v => (collect_planstat_lists env l v).2.2
    have r1 := fun v => (collect_planstat_lists env r v).1
    have r2 := fun v => (collect_planstat_lists env r v).2.1
    have r3 := fun v => (collect_planstat_lists env r v).2.2
    rw [subtree_queue, subtree_clauses, subtree_selectivities]
    simp only [collect_planstat, own_other_plans, own_clauselist, own_selectivities,
      l1, l2, l3, r1, r2, r3]
    simp [empty_walk]

/-- A walk keeps the calls of `learn_sample` made before it and adds its own
after them. -/
theorem collect_planstat_keeps_calls (env : Collaborators K C Store) :
    ∀ (p : PlanState K C) (w : PlanWalk K C),
      w.learn_calls <+: (collect_planstat env p w).learn_calls
  | PlanState.mk plan instrument none none subPlan, w => by
    simp only [collect_planstat]
    refine List.IsPrefix.trans ?_ (own_keeps_calls env plan instrument none none _)
    exact List.prefix_refl _
  | PlanState.mk _ _ none (some _) subPlan, w => by
    simp only [collect_planstat]
    exact List.prefix_refl _
  | PlanState.mk plan instrument (some l) none subPlan, w => by
    simp only [collect_planstat]
    refine List.IsPrefix.trans ?_ (own_keeps_calls env plan instrument (some l) none _)
    exact collect_planstat_keeps_calls env l
      { w with other_plans := w.other_plans ++ subPlan }
  | PlanState.mk plan instrument (some l) (some r) subPlan, w => by
    simp only [collect_planstat]
    refine List.IsPrefix.trans ?_ (own_keeps_calls env plan instrument (some l) (some r) _)
    refine List.IsPrefix.trans ?_ (collect_planstat_keeps_calls env r
      { collect_planstat env l { w with other_plans := w.other_plans ++ subPlan } with
        clauselist := [], selectivities := [], relidslist := [] })
    exact collect_planstat_keeps_calls env l
      { w with other_plans := w.other_plans ++ subPlan }

/-! ## Learning from one object -/

theorem new_matrix_rows_loop_facts (changed_lines : List Int) :
    ∀ matrix_rows : Int,
      matrix_rows ≤ new_matrix_rows_loop matrix_rows changed_lines ∧
      (∀ l ∈ changed_lines, l + 1 ≤ new_matrix_rows_loop matrix_rows changed_lines) ∧
      (new_matrix_rows_loop matrix_rows changed_lines = matrix_rows ∨
        ∃ l ∈ changed_lines, new_matrix_rows_loop matrix_rows changed_lines = l + 1) := by
  induction changed_lines with
  | nil => intro r; simp [new_matrix_rows_loop]
  | cons x t ih =>
    intro r
    have hstep : new_matrix_rows_loop r (x :: t) =
        new_matrix_rows_loop (if x ≥ r then x + 1 else r) t := rfl
    obtain ⟨i1, i2, i3⟩ := ih (if x ≥ r then x + 1 else r)
    rw [hstep]
    have hr : r ≤ (if x ≥ r then x + 1 else r) := by split_ifs <;> omega
    have hx : x + 1 ≤ (if x ≥ r then x + 1 else r) := by split_ifs <;> omega
    refine ⟨le_trans hr i1, ?_, ?_⟩
    · intro l hl
      rcases List.mem_cons.1 hl with h | h
      · rw [h]; exact le_trans hx i1
      · exact i2 l h
    · rcases i3 with h | ⟨l, hl, h⟩
      · by_cases hc : x ≥ r
        · right
          refine ⟨x, List.mem_cons_self _ _, ?_⟩
          rw [h, if_pos hc]
        · left
          rw [h, if_neg hc]
      · exact Or.inr ⟨l, List.mem_cons_of_mem _ hl, h⟩

/-- C20: `atomic_fss_learn_step` hands to `update_fss` the row count
`new_matrix_rows` that the loop over the changed lines computes from the prior
row count `r` (0 when `load_fss` fails).  For every `r` and every list of
changed lines this count is `r` when the list is empty and `max(r, m + 1)`
when `m` is the largest changed line; it is never below `r`; when `r <= K` and
every changed line is below `K` it is at most `K`, it is exactly `K` when
`r = K`, and it is `r + 1` when the largest changed line is `r`. -/
theorem atomic_fss_learn_step_row_count (env : Collaborators K C Store) (store : Store)
    (fss_hash matrix_cols : Int) (matrix : Int → Int → K) (targets features : Int → K)
    (target : K) (r aqo_K : Int) (changed_lines : List Int) :
    (atomic_fss_learn_step env store fss_hash matrix_cols matrix targets features target =
      env.update_fss store fss_hash
        (new_matrix_rows_loop
          (loaded_matrix_rows (env.load_fss store fss_hash matrix_cols matrix targets))
          (env.OkNNr_learn
            (loaded_matrix_rows (env.load_fss store fss_hash matrix_cols matrix targets))
            matrix_cols (env.load_fss store fss_hash matrix_cols matrix targets).matrix
            (env.load_fss store fss_hash matrix_cols matrix targets).targets features
            target).changed_lines)
        matrix_cols
        (env.OkNNr_learn
          (loaded_matrix_rows (env.load_fss store fss_hash matrix_cols matrix targets))
          matrix_cols (env.load_fss store fss_hash matrix_cols matrix targets).matrix
          (env.load_fss store fss_hash matrix_cols matrix targets).targets features
          target).matrix
        (env.OkNNr_learn
          (loaded_matrix_rows (env.load_fss store fss_hash matrix_cols matrix targets))
          matrix_cols (env.load_fss store fss_hash matrix_cols matrix targets).matrix
          (env.load_fss store fss_hash matrix_cols matrix targets).targets features
          target).targets
        (loaded_matrix_rows (env.load_fss store fss_hash matrix_cols matrix targets))
        (env.OkNNr_learn
          (loaded_matrix_rows (env.load_fss store fss_hash matrix_cols matrix targets))
          matrix_cols (env.load_fss store fss_hash matrix_cols matrix targets).matrix
          (env.load_fss store fss_hash matrix_cols matrix targets).targets features
          target).changed_lines) ∧
    ((env.load_fss store fss_hash matrix_cols matrix targets).found = false →
      loaded_matrix_rows (env.load_fss store fss_hash matrix_cols matrix targets) = 0) ∧
    (changed_lines = [] → new_matrix_rows_loop r changed_lines = r) ∧
    (∀ m ∈ changed_lines, (∀ l ∈ changed_lines, l ≤ m) →
      new_matrix_rows_loop r changed_lines = max r (m + 1)) ∧
    r ≤ new_matrix_rows_loop r changed_lines ∧
    (r ≤ aqo_K → (∀ l ∈ changed_lines, l < aqo_K) →
      new_matrix_rows_loop r changed_lines ≤ aqo_K) ∧
    (r = aqo_K → (∀ l ∈ changed_lines, l < aqo_K) →
      new_matrix_rows_loop r changed_lines = aqo_K) ∧
    (r ∈ changed_lines → (∀ l ∈ changed_lines, l ≤ r) →
      new_matrix_rows_loop r changed_lines = r + 1) := by
  obtain ⟨f1, f2, f3⟩ := new_matrix_rows_loop_facts changed_lines r
  have hmax : ∀ m ∈ changed_lines, (∀ l ∈ changed_lines, l ≤ m) →
      new_matrix_rows_loop r changed_lines = max r (m + 1) := by
    intro m hm hall
    have h1 := f2 m hm
    rcases f3 with h | ⟨l, hl, h⟩
    · rw [h] at h1 ⊢
      exact (max_eq_left h1).symm
    · have h2 := hall l hl
      rw [h] at f1 h1 ⊢
      have : l = m := by omega
      rw [this] at f1 ⊢
      exact (max_eq_right f1).symm
  have hcap : r ≤ aqo_K → (∀ l ∈ changed_lines, l < aqo_K) →
      new_matrix_rows_loop r changed_lines ≤ aqo_K := by
    intro hr hall
    rcases f3 with h | ⟨l, hl, h⟩
    · rw [h]; exact hr
    · rw [h]; have := hall l hl; omega
  refine ⟨rfl, ?_, ?_, hmax, f1, hcap, ?_, ?_⟩
  · intro hf
    simp [loaded_matrix_rows, hf]
  · intro he
    rw [he]
    rfl
  · intro hr hall
    exact le_antisymm (hcap (le_of_eq hr) hall) (hr ▸ f1)
  · intro hm hall
    rw [hmax r hm hall]
    exact max_eq_right (by omega)

/-- Witness of C20: from 5 stored rows the regressor of `row_count_env` appends
at line 5 and `update_fss` receives 6; a full subspace of 30 rows with changed
lines 3, 17 and 29 keeps 30 rows. -/
theorem atomic_fss_learn_step_row_count_witness :
    atomic_fss_learn_step (row_count_env : Collaborators ℚ Unit Int) 5 0 0 (fun _ _ => 0)
        (fun _ => 0) (fun _ => 0) 1 = 6 ∧
    new_matrix_rows_loop 30 [3, 17, 29] = 30 ∧
    new_matrix_rows_loop 5 [5] = 5 + 1 := by
  obtain ⟨h1, -, -, -, -, -, h2, -⟩ :=
    atomic_fss_learn_step_row_count (row_count_env : Collaborators ℚ Unit Int) 5 0 0
      (fun _ _ => 0) (fun _ => 0) (fun _ => 0) 1 30 30 [3, 17, 29]
  obtain ⟨-, -, -, -, -, -, -, h3⟩ :=
    atomic_fss_learn_step_row_count (row_count_env : Collaborators ℚ Unit Int) 5 0 0
      (fun _ _ => 0) (fun _ => 0) (fun _ => 0) 1 5 30 [5]
  refine ⟨?_, h2 rfl (by decide), h3 (by decide) (by decide)⟩
  rw [h1]
  decide

theorem learn_sample_fold (log : K → K) (threshold : K) (env : Collaborators K C Store)
    (calls : List (Observation K C)) :
    ∀ st : LearnState K Store,
      (calls.foldl (fun (s : LearnState K Store) (obs : Observation K C) =>
          learn_sample log threshold env obs s) st).cardinality_sum_errors =
        st.cardinality_sum_errors + (calls.map (prediction_error log)).sum ∧
      (calls.foldl (fun (s : LearnState K Store) (obs : Observation K C) =>
          learn_sample log threshold env obs s) st).cardinality_num_objects =
        st.cardinality_num_objects + calls.length := by
  induction calls with
  | nil => intro st; simp
  | cons o t ih =>
    intro st
    obtain ⟨i1, i2⟩ := ih (learn_sample log threshold env o st)
    rw [List.foldl_cons, i1, i2]
    have h1 : (learn_sample log threshold env o st).cardinality_sum_errors =
        st.cardinality_sum_errors + prediction_error log o := by
      unfold learn_sample
      split_ifs <;> rfl
    have h2 : (learn_sample log threshold env o st).cardinality_num_objects =
        st.cardinality_num_objects + 1 := by
      unfold learn_sample
      split_ifs <;> rfl
    rw [h1, h2]
    constructor
    · simp only [List.map_cons, List.sum_cons]; ring
    · simp only [List.length_cons]; push_cast; ring

/-- C11: for positive predicted and true cardinalities and every threshold,
`learn_sample` always adds the error `|log(predicted) - log(true)|` to the sum
and 1 to the counter; when the error is strictly below
`object_selection_prediction_threshold` the store is left as it was, and when
the error is at least the threshold the store is the one
`atomic_fss_learn_step` (load, regress, save) leaves for the object of
`get_fss_for_object` and the target `log(true)`. -/
theorem learn_sample_threshold (log : K → K) (threshold : K)
    (env : Collaborators K C Store) (obs : Observation K C) (st : LearnState K Store)
    (_hp : 0 < obs.predicted_cardinality) (_ht : 0 < obs.true_cardinality) :
    (prediction_error log obs =
        |log obs.predicted_cardinality - log obs.true_cardinality| ∧
      (learn_sample log threshold env obs st).cardinality_sum_errors =
        st.cardinality_sum_errors +
          |log obs.predicted_cardinality - log obs.true_cardinality| ∧
      (learn_sample log threshold env obs st).cardinality_num_objects =
        st.cardinality_num_objects + 1) ∧
    (|log obs.predicted_cardinality - log obs.true_cardinality| < threshold →
      (learn_sample log threshold env obs st).store = st.store) ∧
    (threshold ≤ |log obs.predicted_cardinality - log obs.true_cardinality| →
      (learn_sample log threshold env obs st).store =
        atomic_fss_learn_step env st.store
          (env.get_fss_for_object obs.clauselist obs.selectivities obs.relidslist).fss_hash
          (env.get_fss_for_object obs.clauselist obs.selectivities
            obs.relidslist).matrix_cols
          (fun _ _ => 0) (fun _ => 0)
          (env.get_fss_for_object obs.clauselist obs.selectivities obs.relidslist).features
          (log obs.true_cardinality)) := by
  obtain ⟨f1, f2⟩ := learn_sample_fold log threshold env [obs] st
  refine ⟨⟨rfl, ?_, ?_⟩, ?_, ?_⟩
  · simpa [prediction_error] using f1
  · simpa using f2
  · intro hlt
    have : prediction_error log obs < threshold := hlt
    simp [learn_sample, this]
  · intro hge
    have : ¬ prediction_error log obs < threshold := not_lt.2 hge
    simp [learn_sample, this]

theorem log_ratio_small : |Real.log 100 - Real.log 101| < 0.3 := by
  have h1 : Real.log 100 ≤ Real.log 101 :=
    Real.log_le_log (by norm_num) (by norm_num)
  have h2 : Real.log 101 - Real.log 100 = Real.log (101 / 100) :=
    (Real.log_div (by norm_num) (by norm_num)).symm
  have h3 : Real.log (101 / 100) ≤ 101 / 100 - 1 :=
    Real.log_le_sub_one_of_pos (by norm_num)
  rw [abs_sub_comm, abs_of_nonneg (by linarith)]
  rw [h2]
  calc Real.log (101 / 100) ≤ 101 / 100 - 1 := h3
    _ < 0.3 := by norm_num

theorem log_ratio_large : (0.3 : ℝ) ≤ |Real.log 100 - Real.log 1000| := by
  have h2 : Real.log 1000 - Real.log 100 = Real.log 10 := by
    rw [← Real.log_div (by norm_num) (by norm_num)]
    norm_num
  have h3 : 1 - (10 : ℝ)⁻¹ ≤ Real.log 10 :=
    Real.one_sub_inv_le_log_of_pos (by norm_num)
  have h4 : (0.3 : ℝ) ≤ Real.log 10 := by
    calc (0.3 : ℝ) ≤ 1 - (10 : ℝ)⁻¹ := by norm_num
      _ ≤ Real.log 10 := h3
  rw [abs_sub_comm, h2, abs_of_nonneg (by linarith)]
  exact h4

/-- Witness of C11, with threshold 0.3 on a subspace of 5 rows: the object
predicted 100 and observed 101 leaves the row count at 5; the object predicted
100 and observed 1000 is learned and the row count becomes 6.  Both are
counted in the error sum and the counter. -/
theorem learn_sample_threshold_witness :
    (learn_sample Real.log 0.3 (row_count_env : Collaborators ℝ Unit Int)
        (bare_observation 101 100)
        { cardinality_sum_errors := 0, cardinality_num_objects := 0, store := 5 }).store =
      5 ∧
    (learn_sample Real.log 0.3 (row_count_env : Collaborators ℝ Unit Int)
        (bare_observation 1000 100)
        { cardinality_sum_errors := 0, cardinality_num_objects := 0, store := 5 }).store =
      6 ∧
    (learn_sample Real.log 0.3 (row_count_env : Collaborators ℝ Unit Int)
        (bare_observation 101 100)
        { cardinality_sum_errors := 0, cardinality_num_objects := 0,
          store := 5 }).cardinality_num_objects = 1 := by
  obtain ⟨⟨-, -, a3⟩, a1, -⟩ := learn_sample_threshold Real.log 0.3
    (row_count_env : Collaborators ℝ Unit Int) (bare_observation 101 100)
    { cardinality_sum_errors := 0, cardinality_num_objects := 0, store := 5 }
    (by norm_num [bare_observation]) (by norm_num [bare_observation])
  obtain ⟨-, -, b1⟩ := learn_sample_threshold Real.log 0.3
    (row_count_env : Collaborators ℝ Unit Int) (bare_observation 1000 100)
    { cardinality_sum_errors := 0, cardinality_num_objects := 0, store := 5 }
    (by norm_num [bare_observation]) (by norm_num [bare_observation])
  refine ⟨a1 log_ratio_small, ?_, by simpa using a3⟩
  rw [b1 log_ratio_large]
  decide

/-! ## The selectivities of a node -/

theorem foldl_lappend_eq_map {A B : Type} (f : A → B) (l : List A) (acc : List B) :
    l.foldl (fun (lst : List B) (x : A) => lst ++ [f x]) acc = acc ++ l.map f := by
  induction l generalizing acc with
  | nil => simp
  | cons x t ih => rw [List.foldl_cons, ih]; simp

theorem restore_selectivities_eq_map (env : Collaborators K C Store)
    (clauselist : List (RestrictInfo K C)) (relidslist : List Int) (join_type : JoinType)
    (was_parametrized : Bool) :
    restore_selectivities env clauselist relidslist join_type was_parametrized =
      clauselist.map (fun rinfo =>
        if (was_parametrized && decide (relidslist.length = 1)) = true then
          match env.selectivity_cache_find_global_relid
              (env.get_clause_hash rinfo.clause (env.get_eclasses clauselist).nargs
                (env.get_eclasses clauselist).args_hash
                (env.get_eclasses clauselist).eclass_hash)
              (relidslist.headD 0) with
          | some sel => sel
          | none => join_type_selectivity join_type rinfo
        else join_type_selectivity join_type rinfo) := by
  unfold restore_selectivities
  simp only []
  rw [foldl_lappend_eq_map, List.nil_append]
  apply List.map_congr_left
  intro rinfo _
  unfold join_type_selectivity
  split_ifs <;> rfl

/-- C19: `restore_selectivities` returns exactly one selectivity per clause, in
the order of the clauses.  When the node is not parametrized, or its list of
relation ids does not have exactly one element, each is the selectivity of the
clause for the join type (`norm_selec` for `JOIN_INNER`, `outer_selec`
otherwise).  When the node is parametrized with exactly one relation id, each
is the value cached for the hash of the clause and that relation id when the
cache has one, and the selectivity for the join type otherwise. -/
theorem restore_selectivities_rule (env : Collaborators K C Store)
    (clauselist : List (RestrictInfo K C)) (relidslist : List Int) (join_type : JoinType)
    (was_parametrized : Bool) :
    (restore_selectivities env clauselist relidslist join_type was_parametrized).length =
        clauselist.length ∧
    (∀ rinfo : RestrictInfo K C,
      join_type_selectivity JoinType.JOIN_INNER rinfo = rinfo.norm_selec ∧
      (join_type ≠ JoinType.JOIN_INNER →
        join_type_selectivity join_type rinfo = rinfo.outer_selec)) ∧
    ((was_parametrized = false ∨ relidslist.length ≠ 1) →
      restore_selectivities env clauselist relidslist join_type was_parametrized =
        clauselist.map (join_type_selectivity join_type)) ∧
    (∀ relid : Int, was_parametrized = true → relidslist = [relid] →
      restore_selectivities env clauselist relidslist join_type was_parametrized =
        clauselist.map (fun rinfo =>
          match env.selectivity_cache_find_global_relid
              (env.get_clause_hash rinfo.clause (env.get_eclasses clauselist).nargs
                (env.get_eclasses clauselist).args_hash
                (env.get_eclasses clauselist).eclass_hash) relid with
          | some sel => sel
          | none => join_type_selectivity join_type rinfo)) := by
  have hmap := restore_selectivities_eq_map env clauselist relidslist join_type
    was_parametrized
  refine ⟨by rw [hmap, List.length_map], ?_, ?_, ?_⟩
  · intro rinfo
    refine ⟨by simp [join_type_selectivity], ?_⟩
    intro hne
    simp [join_type_selectivity, hne]
  · intro h
    rw [hmap]
    have hc : ¬ ((was_parametrized && decide (relidslist.length = 1)) = true) := by
      rcases h with h | h
      · simp [h]
      · simp [h]
    simp only [if_neg hc]
  · intro relid hw hr
    rw [hmap]
    subst hr
    subst hw
    simp

/-- Witness of C19 on two clauses, with a cache that holds 1/4 for the first
clause and the relation 7: without parametrization an inner join gives the two
inner-join selectivities and a left join the two outer-join ones; with
parametrization on the single relation 7 the first selectivity is the cached
1/4 and the second falls back. -/
theorem restore_selectivities_rule_witness :
    restore_selectivities cached_env two_clauses [7] JoinType.JOIN_INNER false =
      [1 / 2, 1 / 5] ∧
    restore_selectivities cached_env two_clauses [7, 8] JoinType.JOIN_LEFT true =
      [1 / 3, 1 / 6] ∧
    restore_selectivities cached_env two_clauses [7] JoinType.JOIN_LEFT true =
      [1 / 4, 1 / 6] := by
  obtain ⟨-, -, a, -⟩ := restore_selectivities_rule cached_env two_clauses [7]
    JoinType.JOIN_INNER false
  obtain ⟨-, -, b, -⟩ := restore_selectivities_rule cached_env two_clauses [7, 8]
    JoinType.JOIN_LEFT true
  obtain ⟨-, -, -, c⟩ := restore_selectivities_rule cached_env two_clauses [7]
    JoinType.JOIN_LEFT true
  refine ⟨?_, ?_, ?_⟩
  · rw [a (Or.inl rfl)]
    rfl
  · rw [b (Or.inr (by decide))]
    rfl
  · rw [c 7 rfl rfl]
    rfl

/-! ## The observation of a node -/

/-- The calls of `learn_sample` after the own part of a node: either the calls
before it, or these followed by one call with the lists of the node, its
`learn_rows` and its `plan_rows`. -/
theorem own_calls_cases (env : Collaborators K C Store) (plan : Plan K C)
    (instrument : Option (Instrumentation K)) (l r : Option (PlanState K C))
    (w : PlanWalk K C) :
    (collect_planstat_own env plan instrument l r w).learn_calls = w.learn_calls ∨
    ∃ instr, instrument = some instr ∧ plan.had_path = true ∧
      (collect_planstat_own env plan instrument l r w).learn_calls =
        w.learn_calls ++
          [{ clauselist := plan.path_clauses ++ w.clauselist,
             selectivities :=
               restore_selectivities env plan.path_clauses plan.path_relids
                 plan.path_jointype plan.was_parametrized ++ w.selectivities,
             relidslist := if plan.path_relids ≠ [] then plan.path_relids else w.relidslist,
             true_cardinality := learn_rows env plan instr (l.isNone && r.isNone),
             predicted_cardinality := plan.plan_rows }] := by
  unfold collect_planstat_own
  by_cases hp : plan.had_path = true
  · simp only [hp, if_true]
    cases instrument with
    | none => exact Or.inl rfl
    | some instr =>
      simp only []
      by_cases h1 : (r.isSome || l.isNone || !plan.path_clauses.isEmpty) = true
      · by_cases h2 : (!(decide ((env.InstrEndLoop instr).ntuples = 0) &&
            decide ((env.InstrEndLoop instr).nloops = 0))) = true
        · rw [if_pos h1, if_pos h2]
          exact Or.inr ⟨instr, rfl, trivial, rfl⟩
        · rw [if_pos h1, if_neg h2]
          exact Or.inl rfl
      · rw [if_neg h1]
        exact Or.inl rfl
  · simp only [hp]
    exact Or.inl rfl

theorem learn_rows_ge_one (env : Collaborators K C Store) (plan : Plan K C)
    (instr : Instrumentation K) (leaf : Bool) : 1 ≤ learn_rows env plan instr leaf := by
  unfold learn_rows
  simp only []
  split_ifs with h1 h2 h3 h4
  · exact le_refl _
  · exact not_lt.1 h3
  · exact le_refl _
  · exact not_lt.1 h4
  · exact le_refl _

/-- C13: when `collect_planstat` submits an observation for a node, the
observed cardinality it passes to `learn_sample` is `learn_rows`: it is 1 when
the loop count is below 0.5, and otherwise `max(1, (ntuples / nloops) * f)`
with `f = path_parallel_workers + 1` for a leaf with
`path_parallel_workers > 0` and `f = 1` otherwise; it is at least 1 in all
cases.  The tuple and loop counts are those `InstrEndLoop` leaves. -/
theorem learn_rows_value (env : Collaborators K C Store) (plan : Plan K C)
    (instr : Instrumentation K) (l r : Option (PlanState K C)) (w : PlanWalk K C) :
    (∀ obs ∈ (collect_planstat_own env plan (some instr) l r w).learn_calls,
      obs ∈ w.learn_calls ∨
        obs.true_cardinality = learn_rows env plan instr (l.isNone && r.isNone)) ∧
    ((env.InstrEndLoop instr).nloops < 0.5 →
      learn_rows env plan instr (l.isNone && r.isNone) = 1) ∧
    (0.5 ≤ (env.InstrEndLoop instr).nloops →
      learn_rows env plan instr (l.isNone && r.isNone) =
        max 1 ((env.InstrEndLoop instr).ntuples / (env.InstrEndLoop instr).nloops *
          (if (l.isNone && r.isNone) = true ∧ plan.path_parallel_workers > 0 then
            ((plan.path_parallel_workers + 1 : Int) : K)
          else 1))) ∧
    1 ≤ learn_rows env plan instr (l.isNone && r.isNone) := by
  refine ⟨?_, ?_, ?_, learn_rows_ge_one env plan instr _⟩
  · intro obs hobs
    rcases own_calls_cases env plan (some instr) l r w with h | ⟨i, hi, -, h⟩
    · rw [h] at hobs
      exact Or.inl hobs
    · rw [h, List.mem_append, List.mem_singleton] at hobs
      rcases hobs with h1 | h1
      · exact Or.inl h1
      · right
        rw [h1]
        cases hi
        rfl
  · intro hlt
    have : ¬ ((env.InstrEndLoop instr).nloops ≥ 0.5) := not_le.2 hlt
    simp [learn_rows, this]
  · intro hge
    have hge1 : (env.InstrEndLoop instr).nloops ≥ 0.5 := hge
    unfold learn_rows
    simp only [if_pos hge1]
    generalize (l.isNone && r.isNone) = leaf
    by_cases hf : leaf = true ∧ plan.path_parallel_workers > 0
    · have hc : (decide (plan.path_parallel_workers > 0) && leaf) = true := by
        simp [hf.1, hf.2]
      rw [if_pos hc, if_pos hf]
      by_cases h3 : (env.InstrEndLoop instr).ntuples / (env.InstrEndLoop instr).nloops *
          ((plan.path_parallel_workers + 1 : Int) : K) < 1
      · rw [if_pos h3]
        exact (max_eq_left (le_of_lt h3)).symm
      · rw [if_neg h3]
        exact (max_eq_right (not_lt.1 h3)).symm
    · have hc : ¬ ((decide (plan.path_parallel_workers > 0) && leaf) = true) := by
        intro hh
        rw [Bool.and_eq_true, decide_eq_true_eq] at hh
        exact hf ⟨hh.2, hh.1⟩
      rw [if_neg hc, if_neg hf, mul_one]
      by_cases h3 : (env.InstrEndLoop instr).ntuples / (env.InstrEndLoop instr).nloops < 1
      · rw [if_pos h3]
        exact (max_eq_left (le_of_lt h3)).symm
      · rw [if_neg h3]
        exact (max_eq_right (not_lt.1 h3)).symm

/-- Witness of C13 on a leaf with two parallel workers: 30 tuples over 3 loops
give `30 / 3 * 3 = 30`; 1 tuple over 4 loops gives `1 / 4 * 3 < 1`, clamped to
1; a loop count of 1/4 gives 1. -/
theorem learn_rows_value_witness :
    learn_rows (row_count_env : Collaborators ℚ Unit Int) (scan_plan 10 2)
      { ntuples := 30, nloops := 3 } true = 30 ∧
    learn_rows (row_count_env : Collaborators ℚ Unit Int) (scan_plan 10 2)
      { ntuples := 1, nloops := 4 } true = 1 ∧
    learn_rows (row_count_env : Collaborators ℚ Unit Int) (scan_plan 10 2)
      { ntuples := 30, nloops := 1 / 4 } true = 1 := by
  obtain ⟨-, -, a, -⟩ := learn_rows_value (row_count_env : Collaborators ℚ Unit Int)
    (scan_plan 10 2) { ntuples := 30, nloops := 3 } none none empty_walk
  obtain ⟨-, -, b, -⟩ := learn_rows_value (row_count_env : Collaborators ℚ Unit Int)
    (scan_plan 10 2) { ntuples := 1, nloops := 4 } none none empty_walk
  obtain ⟨-, c, -, -⟩ := learn_rows_value (row_count_env : Collaborators ℚ Unit Int)
    (scan_plan 10 2) { ntuples := 30, nloops := 1 / 4 } none none empty_walk
  refine ⟨?_, ?_, ?_⟩
  · have h := a (by norm_num [row_count_env])
    simp only [Option.isNone_none, Bool.and_self] at h
    rw [h]
    norm_num [row_count_env, scan_plan]
  · have h := b (by norm_num [row_count_env])
    simp only [Option.isNone_none, Bool.and_self] at h
    rw [h]
    norm_num [row_count_env, scan_plan]
  · have h := c (by norm_num [row_count_env])
    simp only [Option.isNone_none, Bool.and_self] at h
    exact h

/-- C15: for a well-formed node (not a right subtree without a left one), the
own part of `collect_planstat` submits exactly one observation when the node
has path info, carries instrumentation, is a two-child node or a leaf or has
own path clauses, and does not report 0 tuples over 0 loops; in every other
case it submits none and the calls of `learn_sample` are the ones made
before. -/
theorem collect_planstat_own_submits (env : Collaborators K C Store) (plan : Plan K C)
    (instrument : Option (Instrumentation K)) (l r : Option (PlanState K C))
    (w : PlanWalk K C) (hwf : ¬ (l = none ∧ r ≠ none)) :
    ((plan.had_path = true ∧
        ∃ instr, instrument = some instr ∧
          ((l ≠ none ∧ r ≠ none) ∨ (l = none ∧ r = none) ∨ plan.path_clauses ≠ []) ∧
          ¬ ((env.InstrEndLoop instr).ntuples = 0 ∧ (env.InstrEndLoop instr).nloops = 0)) ∧
      ∃ obs, (collect_planstat_own env plan instrument l r w).learn_calls =
        w.learn_calls ++ [obs]) ∨
    (¬ (plan.had_path = true ∧
        ∃ instr, instrument = some instr ∧
          ((l ≠ none ∧ r ≠ none) ∨ (l = none ∧ r = none) ∨ plan.path_clauses ≠ []) ∧
          ¬ ((env.InstrEndLoop instr).ntuples = 0 ∧ (env.InstrEndLoop instr).nloops = 0)) ∧
      (collect_planstat_own env plan instrument l r w).learn_calls = w.learn_calls) := by
  have hshape : (r.isSome || l.isNone || !plan.path_clauses.isEmpty) = true ↔
      ((l ≠ none ∧ r ≠ none) ∨ (l = none ∧ r = none) ∨ plan.path_clauses ≠ []) := by
    cases l <;> cases r <;> simp_all [List.isEmpty_iff]
  unfold collect_planstat_own
  by_cases hp : plan.had_path = true
  · simp only [hp, if_true, true_and]
    cases instrument with
    | none =>
      right
      exact ⟨by simp, rfl⟩
    | some instr =>
      simp only []
      by_cases h1 : (r.isSome || l.isNone || !plan.path_clauses.isEmpty) = true
      · by_cases h2 : (env.InstrEndLoop instr).ntuples = 0 ∧
            (env.InstrEndLoop instr).nloops = 0
        · have h2b : ¬ ((!(decide ((env.InstrEndLoop instr).ntuples = 0) &&
              decide ((env.InstrEndLoop instr).nloops = 0))) = true) := by
            simp [h2.1, h2.2]
          rw [if_pos h1, if_neg h2b]
          right
          refine ⟨?_, rfl⟩
          rintro ⟨i, hi, -, hne⟩
          cases hi
          exact hne h2
        · have h2b : (!(decide ((env.InstrEndLoop instr).ntuples = 0) &&
              decide ((env.InstrEndLoop instr).nloops = 0))) = true := by
            by_contra hc
            simp only [Bool.not_eq_true, Bool.not_eq_false', Bool.and_eq_true,
              decide_eq_true_eq] at hc
            exact h2 hc
          rw [if_pos h1, if_pos h2b]
          left
          exact ⟨⟨instr, rfl, hshape.1 h1, h2⟩, _, rfl⟩
      · rw [if_neg h1]
        right
        refine ⟨?_, rfl⟩
        rintro ⟨i, -, hs, -⟩
        exact h1 (hshape.2 hs)
  · simp only [hp]
    right
    exact ⟨by simp, rfl⟩

/-- Witness of C15 on leaves with path info: a leaf that ran once submits one
observation, a leaf with 0 tuples over 0 loops submits none. -/
theorem collect_planstat_own_submits_witness :
    ¬ ((none : Option (PlanState ℚ Unit)) = none ∧ (none : Option (PlanState ℚ Unit)) ≠ none) ∧
    (collect_planstat_own (row_count_env : Collaborators ℚ Unit Int) (scan_plan 10 0)
      (some { ntuples := 5, nloops := 1 }) none none empty_walk).learn_calls.length = 1 ∧
    (collect_planstat_own (row_count_env : Collaborators ℚ Unit Int) (scan_plan 10 0)
      (some { ntuples := 0, nloops := 0 }) none none empty_walk).learn_calls = [] := by
  have hwf : ¬ ((none : Option (PlanState ℚ Unit)) = none ∧
      (none : Option (PlanState ℚ Unit)) ≠ none) := by simp
  refine ⟨hwf, ?_, ?_⟩
  · rcases collect_planstat_own_submits (row_count_env : Collaborators ℚ Unit Int)
      (scan_plan 10 0) (some { ntuples := 5, nloops := 1 }) none none empty_walk hwf
      with ⟨-, obs, h⟩ | ⟨hn, -⟩
    · rw [h]
      rfl
    · exfalso
      apply hn
      refine ⟨rfl, _, rfl, Or.inr (Or.inl ⟨rfl, rfl⟩), ?_⟩
      norm_num [row_count_env]
  · rcases collect_planstat_own_submits (row_count_env : Collaborators ℚ Unit Int)
      (scan_plan 10 0) (some { ntuples := 0, nloops := 0 }) none none empty_walk hwf
      with ⟨⟨-, i, hi, -, hne⟩, -⟩ | ⟨-, h⟩
    · exfalso
      cases hi
      exact hne ⟨rfl, rfl⟩
    · rw [h]
      rfl

/-! ## The arguments of the logarithms -/

theorem collect_planstat_calls_mem (env : Collaborators K C Store) :
    ∀ (p : PlanState K C) (w : PlanWalk K C) (obs : Observation K C),
      obs ∈ (collect_planstat env p w).learn_calls →
      obs ∈ w.learn_calls ∨
        (1 ≤ obs.true_cardinality ∧
          ∃ plan ∈ tree_plans p, obs.predicted_cardinality = plan.plan_rows)
  | PlanState.mk plan instrument none none subPlan, w, obs, h => by
    simp only [collect_planstat] at h
    rcases own_calls_cases env plan instrument none none
      { w with other_plans := w.other_plans ++ subPlan } with e | ⟨i, -, -, e⟩
    · rw [e] at h
      exact Or.inl h
    · rw [e, List.mem_append, List.mem_singleton] at h
      rcases h with h | h
      · exact Or.inl h
      · right
        rw [h]
        exact ⟨learn_rows_ge_one env plan i _, plan, by simp [tree_plans], rfl⟩
  | PlanState.mk _ _ none (some _) subPlan, w, obs, h => by
    simp only [collect_planstat] at h
    exact Or.inl h
  | PlanState.mk plan instrument (some l) none subPlan, w, obs, h => by
    simp only [collect_planstat] at h
    rcases own_calls_cases env plan instrument (some l) none
      (collect_planstat env l { w with other_plans := w.other_plans ++ subPlan })
      with e | ⟨i, -, -, e⟩
    · rw [e] at h
      rcases collect_planstat_calls_mem env l _ obs h with h1 | ⟨h1, q, hq, h2⟩
      · exact Or.inl h1
      · exact Or.inr ⟨h1, q, by simp [tree_plans, hq], h2⟩
    · rw [e, List.mem_append, List.mem_singleton] at h
      rcases h with h | h
      · rcases collect_planstat_calls_mem env l _ obs h with h1 | ⟨h1, q, hq, h2⟩
        · exact Or.inl h1
        · exact Or.inr ⟨h1, q, by simp [tree_plans, hq], h2⟩
      · right
        rw [h]
        exact ⟨learn_rows_ge_one env plan i _, plan, by simp [tree_plans], rfl⟩
  | PlanState.mk plan instrument (some l) (some r) subPlan, w, obs, h => by
    simp only [collect_planstat] at h
    have hsub : obs ∈ (collect_planstat env r
        { collect_planstat env l { w with other_plans := w.other_plans ++ subPlan } with
          clauselist := [], selectivities := [], relidslist := [] }).learn_calls →
        obs ∈ w.learn_calls ∨
          (1 ≤ obs.true_cardinality ∧
            ∃ q ∈ tree_plans (PlanState.mk plan instrument (some l) (some r) subPlan),
              obs.predicted_cardinality = q.plan_rows) := by
      intro hr
      rcases collect_planstat_calls_mem env r _ obs hr with h1 | ⟨h1, q, hq, h2⟩
      · rcases collect_planstat_calls_mem env l _ obs h1 with h3 | ⟨h3, q, hq, h4⟩
        · exact Or.inl h3
        · exact Or.inr ⟨h3, q, by simp [tree_plans, hq], h4⟩
      · exact Or.inr ⟨h1, q, by simp [tree_plans, hq], h2⟩
    rcases own_calls_cases env plan instrument (some l) (some r) _ with e | ⟨i, -, -, e⟩
    · rw [e] at h
      exact hsub h
    · rw [e, List.mem_append, List.mem_singleton] at h
      rcases h with h | h
      · exact hsub h
      · right
        rw [h]
        exact ⟨learn_rows_ge_one env plan i _, plan, by simp [tree_plans], rfl⟩

/-- C14, amended: every observation a walk of `collect_planstat` adds has an
observed cardinality of at least 1, hence strictly positive, and as predicted
cardinality the `plan_rows` of a node of the tree, unchanged.  So the
predicted cardinality is strictly positive when every node of the tree has
`plan_rows > 0`; `collect_planstat` itself does not clamp it. -/
theorem collect_planstat_cardinalities (env : Collaborators K C Store)
    (p : PlanState K C) (w : PlanWalk K C) (obs : Observation K C)
    (h : obs ∈ (collect_planstat env p w).learn_calls) (hnew : obs ∉ w.learn_calls) :
    (1 ≤ obs.true_cardinality ∧ 0 < obs.true_cardinality) ∧
    (∃ plan ∈ tree_plans p, obs.predicted_cardinality = plan.plan_rows) ∧
    ((∀ plan ∈ tree_plans p, 0 < plan.plan_rows) → 0 < obs.predicted_cardinality) := by
  rcases collect_planstat_calls_mem env p w obs h with h1 | ⟨h1, q, hq, h2⟩
  · exact absurd h1 hnew
  · refine ⟨⟨h1, lt_of_lt_of_le one_pos h1⟩, ⟨q, hq, h2⟩, ?_⟩
    intro hall
    rw [h2]
    exact hall q hq

theorem executed_leaf_calls (plan_rows : K) (w : PlanWalk K C)
    (hc : w.clauselist = []) (hs : w.selectivities = []) (hr : w.relidslist = []) :
    (collect_planstat (row_count_env : Collaborators K C Int) (executed_leaf plan_rows)
      w).learn_calls = w.learn_calls ++ [bare_observation 5 plan_rows] := by
  simp only [executed_leaf, collect_planstat, collect_planstat_own, scan_plan, learn_rows,
    row_count_env, restore_selectivities, bare_observation, hc, hs, hr]
  norm_num

/-- Witness of C14 as amended: the leaf that returned 5 tuples in one loop and
whose plan predicts 10 rows submits the observed cardinality 5 and the
predicted cardinality 10. -/
theorem collect_planstat_cardinalities_witness :
    (bare_observation 5 10 : Observation ℚ Unit) ∈
      (collect_planstat (row_count_env : Collaborators ℚ Unit Int) (executed_leaf 10)
        empty_walk).learn_calls ∧
    (bare_observation 5 10 : Observation ℚ Unit) ∉
      (empty_walk : PlanWalk ℚ Unit).learn_calls ∧
    (1 : ℚ) ≤ (bare_observation 5 10 : Observation ℚ Unit).true_cardinality ∧
    (0 : ℚ) < (bare_observation 5 10 : Observation ℚ Unit).predicted_cardinality := by
  have hin : (bare_observation 5 10 : Observation ℚ Unit) ∈
      (collect_planstat (row_count_env : Collaborators ℚ Unit Int) (executed_leaf 10)
        empty_walk).learn_calls := by
    rw [executed_leaf_calls 10 empty_walk rfl rfl rfl]
    exact List.mem_append_right _ (List.mem_singleton_self _)
  have hout : (bare_observation 5 10 : Observation ℚ Unit) ∉
      (empty_walk : PlanWalk ℚ Unit).learn_calls := by
    simp [empty_walk]
  obtain ⟨⟨a, -⟩, -, b⟩ := collect_planstat_cardinalities
    (row_count_env : Collaborators ℚ Unit Int) (executed_leaf 10) empty_walk
    (bare_observation 5 10) hin hout
  refine ⟨hin, hout, a, b ?_⟩
  intro plan hplan
  simp only [executed_leaf, tree_plans, List.mem_singleton] at hplan
  rw [hplan]
  norm_num [scan_plan]

/-- Counterexample to C14 as stated: the leaf that returned 5 tuples in one
loop and whose plan predicts 0 rows submits an observation with the predicted
cardinality 0, which is not strictly positive; `learn_sample` takes its
logarithm. -/
theorem collect_planstat_predicted_zero :
    (collect_planstat (row_count_env : Collaborators ℚ Unit Int) (executed_leaf 0)
      empty_walk).learn_calls = [bare_observation 5 0] ∧
    ¬ ((0 : ℚ) < (bare_observation 5 0 : Observation ℚ Unit).predicted_cardinality) := by
  refine ⟨executed_leaf_calls 0 empty_walk rfl rfl rfl, ?_⟩
  simp [bare_observation]

/-! ## A right subtree without a left one -/

/-- C17: for a node with a right subtree and no left subtree,
`collect_planstat` only queues the subordinate plans of the node: the clause,
selectivity and relation-id lists are as on entry and no observation is
submitted, for the node or below it.  The caller gets exactly what it gets
from a leaf without path info that has the same subordinate plans. -/
theorem collect_planstat_malformed (env : Collaborators K C Store) (plan : Plan K C)
    (instrument : Option (Instrumentation K)) (r : PlanState K C)
    (subPlan : List (PlanState K C)) (w : PlanWalk K C) :
    ((collect_planstat env (PlanState.mk plan instrument none (some r) subPlan) w).clauselist =
        w.clauselist ∧
      (collect_planstat env (PlanState.mk plan instrument none (some r) subPlan)
        w).selectivities = w.selectivities ∧
      (collect_planstat env (PlanState.mk plan instrument none (some r) subPlan)
        w).relidslist = w.relidslist) ∧
    (collect_planstat env (PlanState.mk plan instrument none (some r) subPlan) w).learn_calls =
      w.learn_calls ∧
    (collect_planstat env (PlanState.mk plan instrument none (some r) subPlan) w).other_plans =
      w.other_plans ++ subPlan ∧
    collect_planstat env (PlanState.mk plan instrument none (some r) subPlan) w =
      collect_planstat env
        (PlanState.mk { plan with had_path := false } instrument none none subPlan) w := by
  refine ⟨⟨?_, ?_, ?_⟩, ?_, ?_, ?_⟩ <;>
    simp [collect_planstat, collect_planstat_own]

/-- Witness of C17: a node with path info and instrumentation whose only
subtree is a right one, an executed leaf: the walk submits nothing and leaves
the lists empty, where the walk of the right leaf alone submits one
observation. -/
theorem collect_planstat_malformed_witness :
    (collect_planstat (row_count_env : Collaborators ℚ Unit Int)
      (PlanState.mk (scan_plan 10 0) (some { ntuples := 5, nloops := 1 }) none
        (some (executed_leaf 7)) []) empty_walk).learn_calls = [] ∧
    (collect_planstat (row_count_env : Collaborators ℚ Unit Int)
      (PlanState.mk (scan_plan 10 0) (some { ntuples := 5, nloops := 1 }) none
        (some (executed_leaf 7)) []) empty_walk).clauselist = [] ∧
    (collect_planstat (row_count_env : Collaborators ℚ Unit Int) (executed_leaf 7)
      empty_walk).learn_calls.length = 1 := by
  obtain ⟨⟨a, -, -⟩, b, -, -⟩ := collect_planstat_malformed
    (row_count_env : Collaborators ℚ Unit Int) (scan_plan 10 0)
    (some { ntuples := 5, nloops := 1 }) (executed_leaf 7) [] empty_walk
  refine ⟨by rw [b]; rfl, by rw [a]; rfl, ?_⟩
  rw [executed_leaf_calls 7 empty_walk rfl rfl rfl]
  rfl

/-! ## The order of the lists -/

theorem restore_selectivities_aligned (env : Collaborators K C Store)
    (clauselist : List (RestrictInfo K C)) (relidslist : List Int) (join_type : JoinType)
    (was_parametrized : Bool) :
    position_aligned env clauselist
      (restore_selectivities env clauselist relidslist join_type was_parametrized) := by
  unfold position_aligned
  rw [restore_selectivities_eq_map, List.forall₂_map_right_iff, List.forall₂_same]
  intro rinfo _
  unfold selectivity_of_clause join_type_selectivity
  split_ifs
  · cases hc : env.selectivity_cache_find_global_relid
        (env.get_clause_hash rinfo.clause (env.get_eclasses clauselist).nargs
          (env.get_eclasses clauselist).args_hash (env.get_eclasses clauselist).eclass_hash)
        (relidslist.headD 0) with
    | none => exact Or.inl rfl
    | some sel => exact Or.inr (Or.inr ⟨_, _, _, _, hc⟩)
  · cases hc : env.selectivity_cache_find_global_relid
        (env.get_clause_hash rinfo.clause (env.get_eclasses clauselist).nargs
          (env.get_eclasses clauselist).args_hash (env.get_eclasses clauselist).eclass_hash)
        (relidslist.headD 0) with
    | none => exact Or.inr (Or.inl rfl)
    | some sel => exact Or.inr (Or.inr ⟨_, _, _, _, hc⟩)
  · exact Or.inl rfl
  · exact Or.inr (Or.inl rfl)

theorem own_aligned (env : Collaborators K C Store) (plan : Plan K C)
    (instrument : Option (Instrumentation K)) (l r : Option (PlanState K C))
    (w : PlanWalk K C) (h : position_aligned env w.clauselist w.selectivities) :
    position_aligned env (collect_planstat_own env plan instrument l r w).clauselist
      (collect_planstat_own env plan instrument l r w).selectivities := by
  rw [own_clauselist, own_selectivities]
  apply List.rel_append _ h
  by_cases hp : plan.had_path = true
  · rw [if_pos hp, if_pos hp]
    exact restore_selectivities_aligned env _ _ _ _
  · rw [if_neg hp, if_neg hp]
    exact List.Forall₂.nil

/-- A walk of `collect_planstat` keeps the two lists position-aligned. -/
theorem collect_planstat_aligned (env : Collaborators K C Store) :
    ∀ (p : PlanState K C) (w : PlanWalk K C),
      position_aligned env w.clauselist w.selectivities →
      position_aligned env (collect_planstat env p w).clauselist
        (collect_planstat env p w).selectivities
  | PlanState.mk plan instrument none none subPlan, w, h => by
    simp only [collect_planstat]
    exact own_aligned env plan instrument none none _ h
  | PlanState.mk _ _ none (some _) subPlan, w, h => by
    simp only [collect_planstat]
    exact h
  | PlanState.mk plan instrument (some l) none subPlan, w, h => by
    simp only [collect_planstat]
    exact own_aligned env plan instrument (some l) none _
      (collect_planstat_aligned env l { w with other_plans := w.other_plans ++ subPlan } h)
  | PlanState.mk plan instrument (some l) (some r) subPlan, w, h => by
    simp only [collect_planstat]
    apply own_aligned env plan instrument (some l) (some r)
    have hl := collect_planstat_aligned env l
      { w with other_plans := w.other_plans ++ subPlan } h
    have hr := collect_planstat_aligned env r
      { collect_planstat env l { w with other_plans := w.other_plans ++ subPlan } with
        clauselist := [], selectivities := [], relidslist := [] } List.Forall₂.nil
    exact List.rel_append hr hl

/-- C18: for a node with path info, `collect_planstat` walks the left subtree,
then the right subtree from empty lists, then handles the node itself, so that
the calls of `learn_sample` of the left subtree come first, those of the right
subtree next and the one of the node last.  After a two-child node the clause
list is made of the clauses of the node, then those accumulated in the right
subtree, then those accumulated in the left subtree, then those held on
entry, and the selectivity list is made of the selectivities of the same parts
in the same order; after a single-child node they are the entries of the node,
then those of the child, then those held on entry.  If the two lists are
position-aligned on entry they are position-aligned on exit, and of equal
length. -/
theorem collect_planstat_order (env : Collaborators K C Store) (plan : Plan K C)
    (instrument : Option (Instrumentation K)) (subPlan : List (PlanState K C))
    (w : PlanWalk K C) (hp : plan.had_path = true) :
    (∀ l r : PlanState K C,
      ((collect_planstat env (PlanState.mk plan instrument (some l) (some r) subPlan)
            w).clauselist =
          plan.path_clauses ++ (subtree_clauses env r ++ (subtree_clauses env l ++
            w.clauselist)) ∧
        (collect_planstat env (PlanState.mk plan instrument (some l) (some r) subPlan)
            w).selectivities =
          restore_selectivities env plan.path_clauses plan.path_relids plan.path_jointype
              plan.was_parametrized ++
            (subtree_selectivities env r ++ (subtree_selectivities env l ++
              w.selectivities))) ∧
      (w.learn_calls <+:
          (collect_planstat env l
            { w with other_plans := w.other_plans ++ subPlan }).learn_calls ∧
        (collect_planstat env l
            { w with other_plans := w.other_plans ++ subPlan }).learn_calls <+:
          (collect_planstat env r
            { collect_planstat env l { w with other_plans := w.other_plans ++ subPlan } with
              clauselist := [], selectivities := [], relidslist := [] }).learn_calls ∧
        (collect_planstat env r
            { collect_planstat env l { w with other_plans := w.other_plans ++ subPlan } with
              clauselist := [], selectivities := [], relidslist := [] }).learn_calls <+:
          (collect_planstat env (PlanState.mk plan instrument (some l) (some r) subPlan)
            w).learn_calls)) ∧
    (∀ l : PlanState K C,
      (collect_planstat env (PlanState.mk plan instrument (some l) none subPlan)
          w).clauselist =
        plan.path_clauses ++ (subtree_clauses env l ++ w.clauselist) ∧
      (collect_planstat env (PlanState.mk plan instrument (some l) none subPlan)
          w).selectivities =
        restore_selectivities env plan.path_clauses plan.path_relids plan.path_jointype
            plan.was_parametrized ++
          (subtree_selectivities env l ++ w.selectivities) ∧
      (collect_planstat env l
          { w with other_plans := w.other_plans ++ subPlan }).learn_calls <+:
        (collect_planstat env (PlanState.mk plan instrument (some l) none subPlan)
          w).learn_calls) ∧
    (∀ l r : Option (PlanState K C),
      position_aligned env w.clauselist w.selectivities →
      position_aligned env
          (collect_planstat env (PlanState.mk plan instrument l r subPlan) w).clauselist
          (collect_planstat env (PlanState.mk plan instrument l r subPlan) w).selectivities ∧
        (collect_planstat env (PlanState.mk plan instrument l r subPlan) w).clauselist.length =
          (collect_planstat env (PlanState.mk plan instrument l r subPlan)
            w).selectivities.length) := by
  refine ⟨?_, ?_, ?_⟩
  · intro l r
    have l2 := fun v => (collect_planstat_lists env l v).2.1
    have l3 := fun v => (collect_planstat_lists env l v).2.2
    have r2 := fun v => (collect_planstat_lists env r v).2.1
    have r3 := fun v => (collect_planstat_lists env r v).2.2
    refine ⟨⟨?_, ?_⟩,
      collect_planstat_keeps_calls env l { w with other_plans := w.other_plans ++ subPlan },
      collect_planstat_keeps_calls env r
        { collect_planstat env l { w with other_plans := w.other_plans ++ subPlan } with
          clauselist := [], selectivities := [], relidslist := [] }, ?_⟩
    · simp only [collect_planstat, own_clauselist, if_pos hp, l2, r2, List.append_nil]
    · simp only [collect_planstat, own_selectivities, if_pos hp, l3, r3, List.append_nil]
    · simp only [collect_planstat]
      refine List.IsPrefix.trans ?_ (own_keeps_calls env plan instrument (some l) (some r) _)
      exact List.prefix_refl _
  · intro l
    have l2 := fun v => (collect_planstat_lists env l v).2.1
    have l3 := fun v => (collect_planstat_lists env l v).2.2
    refine ⟨?_, ?_, ?_⟩
    · simp only [collect_planstat, own_clauselist, if_pos hp, l2]
    · simp only [collect_planstat, own_selectivities, if_pos hp, l3]
    · simp only [collect_planstat]
      refine List.IsPrefix.trans ?_ (own_keeps_calls env plan instrument (some l) none _)
      exact List.prefix_refl _
  · intro l r h
    have ha := collect_planstat_aligned env (PlanState.mk plan instrument l r subPlan) w h
    exact ⟨ha, List.Forall₂.length_eq ha⟩

/-- Witness of C18 on a join of two leaves, from empty lists: the clause list
on exit holds the clause of the join, then the one of the right leaf, then the
one of the left leaf, and the selectivity list their inner-join selectivities
in the same order. -/
theorem collect_planstat_order_witness :
    (clause_plan 3 (1 / 7) (1 / 8) [1, 2] 20).had_path = true ∧
    (collect_planstat cached_env join_of_leaves empty_walk).clauselist.map
      RestrictInfo.clause = [3, 2, 1] ∧
    (collect_planstat cached_env join_of_leaves empty_walk).selectivities =
      [1 / 7, 1 / 5, 1 / 2] := by
  obtain ⟨h, -, -⟩ := collect_planstat_order cached_env (clause_plan 3 (1 / 7) (1 / 8) [1, 2] 20)
    (some { ntuples := 6, nloops := 1 }) [] empty_walk rfl
  obtain ⟨⟨h1, h2⟩, -⟩ := h left_leaf right_leaf
  refine ⟨rfl, ?_, ?_⟩
  · rw [join_of_leaves, h1]
    rfl
  · rw [join_of_leaves, h2]
    rfl

/-! ## The loop over the queue of plans -/

theorem plan_size_list_append (a b : List (PlanState K C)) :
    plan_size_list (a ++ b) = plan_size_list a + plan_size_list b := by
  induction a with
  | nil => simp [plan_size_list]
  | cons x t ih => simp [plan_size_list, ih, Nat.add_assoc]

theorem plan_size_pos (p : PlanState K C) : 1 ≤ plan_size p := by
  cases p with
  | mk plan instrument l r s => simp only [plan_size]; omega

theorem subtree_queue_size (env : Collaborators K C Store) :
    ∀ p : PlanState K C, plan_size_list (subtree_queue env p) + 1 ≤ plan_size p
  | PlanState.mk plan instrument none none subPlan => by
    rw [subtree_queue]
    simp only [collect_planstat, own_other_plans, empty_walk, List.nil_append, plan_size,
      plan_size_opt]
    omega
  | PlanState.mk _ _ none (some r) subPlan => by
    rw [subtree_queue]
    simp only [collect_planstat, empty_walk, List.nil_append, plan_size, plan_size_opt]
    omega
  | PlanState.mk plan instrument (some l) none subPlan => by
    have l1 := fun v => (collect_planstat_lists env l v).1
    have hl := subtree_queue_size env l
    rw [subtree_queue]
    simp only [collect_planstat, own_other_plans, l1, empty_walk, List.nil_append,
      plan_size_list_append, plan_size, plan_size_opt]
    omega
  | PlanState.mk plan instrument (some l) (some r) subPlan => by
    have l1 := fun v => (collect_planstat_lists env l v).1
    have r1 := fun v => (collect_planstat_lists env r v).1
    have hl := subtree_queue_size env l
    have hr := subtree_queue_size env r
    rw [subtree_queue]
    simp only [collect_planstat, own_other_plans, l1, r1, empty_walk, List.nil_append,
      plan_size_list_append, plan_size, plan_size_opt]
    omega

theorem walk_step_queue (env : Collaborators K C Store) (w : PlanWalk K C)
    (to_walk : PlanState K C) (rest : List (PlanState K C))
    (h : w.other_plans = to_walk :: rest) :
    walk_step env w =
      { collect_planstat env to_walk w with
        other_plans := rest ++ subtree_queue env to_walk } := by
  unfold walk_step
  rw [h]
  simp only []
  rw [(collect_planstat_lists env to_walk w).1, h]
  rfl

theorem walk_loop_empties (env : Collaborators K C Store) :
    ∀ (fuel : Nat) (w : PlanWalk K C), plan_size_list w.other_plans ≤ fuel →
      (walk_loop env fuel w).other_plans = []
  | 0, w, h => by
    cases hq : w.other_plans with
    | nil => simp [walk_loop, hq]
    | cons p rest =>
      rw [hq] at h
      have := plan_size_pos p
      simp only [plan_size_list] at h
      omega
  | fuel + 1, w, h => by
    cases hq : w.other_plans with
    | nil => simp [walk_loop, hq]
    | cons p rest =>
      have hne : w.other_plans.length ≠ 0 := by rw [hq]; simp
      rw [walk_loop, if_pos hne]
      apply walk_loop_empties env fuel
      rw [walk_step_queue env w p rest hq]
      simp only [plan_size_list_append]
      rw [hq] at h
      simp only [plan_size_list] at h
      have := subtree_queue_size env p
      omega

/-- The walk of `learn_query_stat` ends: after as many turns as the plan has
nodes the queue is empty, and more turns change nothing. -/
theorem plan_walk_ends (env : Collaborators K C Store) (planstate : PlanState K C) :
    (plan_walk env planstate).other_plans = [] ∧
    ∀ k : Nat, walk_loop env (plan_size planstate + k) (walk_start planstate) =
      plan_walk env planstate := by
  have hend : (plan_walk env planstate).other_plans = [] := by
    apply walk_loop_empties
    simp [walk_start, plan_size_list]
  refine ⟨hend, ?_⟩
  have stable : ∀ (fuel : Nat) (w : PlanWalk K C),
      (walk_loop env fuel w).other_plans = [] →
      ∀ k : Nat, walk_loop env (fuel + k) w = walk_loop env fuel w := by
    intro fuel
    induction fuel with
    | zero =>
      intro w h k
      simp only [walk_loop] at h
      cases k with
      | zero => rfl
      | succ k => simp [walk_loop, h]
    | succ n ih =>
      intro w h k
      have e : n + 1 + k = (n + k) + 1 := by omega
      rw [e]
      by_cases hne : w.other_plans.length ≠ 0
      · rw [walk_loop, if_pos hne] at h
        rw [walk_loop, if_pos hne, walk_loop, if_pos hne]
        exact ih _ h k
      · rw [walk_loop, if_neg hne, walk_loop, if_neg hne]
  exact stable _ _ hend

/-! ## The cardinality error of a run -/

theorem prediction_error_sum_nonneg (log : K → K) (calls : List (Observation K C)) :
    0 ≤ (calls.map (prediction_error log)).sum := by
  apply List.sum_nonneg
  intro x hx
  obtain ⟨obs, -, rfl⟩ := List.mem_map.1 hx
  exact abs_nonneg _

theorem plan_walk_learn_sums (log : K → K) (threshold : K) (env : Collaborators K C Store)
    (planstate : PlanState K C) (st : LearnState K Store) :
    (plan_walk_learn log threshold env planstate st).cardinality_sum_errors =
      ((plan_walk env planstate).learn_calls.map (prediction_error log)).sum ∧
    (plan_walk_learn log threshold env planstate st).cardinality_num_objects =
      ((plan_walk env planstate).learn_calls.length : Int) := by
  obtain ⟨h1, h2⟩ := learn_sample_fold log threshold env (plan_walk env planstate).learn_calls
    { st with cardinality_sum_errors := 0, cardinality_num_objects := 0 }
  unfold plan_walk_learn
  rw [h1, h2]
  simp

theorem learn_query_stat_recorded (aqo_stat_size w : Int) (u : K) (exp : K → K)
    (run : QueryRun K) (stat : QueryStat K) (he : run.explain_only = false)
    (hc : run.collect_stat = true) :
    (learn_query_stat aqo_stat_size w u exp run stat).1 =
      (if run.use_aqo then
        set_row_with_aqo stat
          (update_query_stat_row aqo_stat_size (row_with_aqo stat) run.query_planning_time
            (run.totaltime - run.query_planning_time)
            (if (run.learn_aqo && decide (run.cardinality_num_objects ≠ 0)) = true then
              run.cardinality_sum_errors / (run.cardinality_num_objects : K)
            else -1))
      else
        set_row_without_aqo stat
          (update_query_stat_row aqo_stat_size (row_without_aqo stat)
            run.query_planning_time (run.totaltime - run.query_planning_time)
            (if (run.learn_aqo && decide (run.cardinality_num_objects ≠ 0)) = true then
              run.cardinality_sum_errors / (run.cardinality_num_objects : K)
            else -1))) := by
  simp only [learn_query_stat, he, hc, Bool.false_eq_true, if_false, if_true]
  split_ifs <;> rfl

/-- C12: for a run that is not explain-only and collects statistics, the
cardinality error `learn_query_stat` hands to `update_query_stat_row` is, when
learning is enabled and the plan walk submitted at least one observation, the
arithmetic mean of `|log(predicted) - log(observed)|` over all the
observations submitted to `learn_sample` during the walk, whether the
threshold discards them or not, and it is then non-negative; it is the
sentinel -1 exactly when learning is disabled or no observation was
submitted. -/
theorem cardinality_error_is_mean (aqo_stat_size w : Int) (u : K) (exp log : K → K)
    (threshold : K) (env : Collaborators K C Store) (planstate : PlanState K C)
    (run : QueryRun K) (st : LearnState K Store) (stat : QueryStat K)
    (he : run.explain_only = false) (hc : run.collect_stat = true) :
    (learn_query_stat_run aqo_stat_size w u exp log threshold env planstate run st
        stat).2.1 =
      (if run.use_aqo then
        set_row_with_aqo stat
          (update_query_stat_row aqo_stat_size (row_with_aqo stat) run.query_planning_time
            (run.totaltime - run.query_planning_time)
            (if run.learn_aqo = true ∧ 0 < (plan_walk env planstate).learn_calls.length then
              ((plan_walk env planstate).learn_calls.map (prediction_error log)).sum /
                ((plan_walk env planstate).learn_calls.length : K)
            else -1))
      else
        set_row_without_aqo stat
          (update_query_stat_row aqo_stat_size (row_without_aqo stat)
            run.query_planning_time (run.totaltime - run.query_planning_time)
            (if run.learn_aqo = true ∧ 0 < (plan_walk env planstate).learn_calls.length then
              ((plan_walk env planstate).learn_calls.map (prediction_error log)).sum /
                ((plan_walk env planstate).learn_calls.length : K)
            else -1))) ∧
    ((if run.learn_aqo = true ∧ 0 < (plan_walk env planstate).learn_calls.length then
          ((plan_walk env planstate).learn_calls.map (prediction_error log)).sum /
            ((plan_walk env planstate).learn_calls.length : K)
        else -1) = -1 ↔
      (run.learn_aqo = false ∨ (plan_walk env planstate).learn_calls = [])) ∧
    ((run.learn_aqo = true ∧ (plan_walk env planstate).learn_calls ≠ []) →
      0 ≤ (if run.learn_aqo = true ∧ 0 < (plan_walk env planstate).learn_calls.length then
          ((plan_walk env planstate).learn_calls.map (prediction_error log)).sum /
            ((plan_walk env planstate).learn_calls.length : K)
        else -1)) := by
  have hmean : (0 : K) ≤
      ((plan_walk env planstate).learn_calls.map (prediction_error log)).sum /
        ((plan_walk env planstate).learn_calls.length : K) :=
    div_nonneg (prediction_error_sum_nonneg log _) (Nat.cast_nonneg _)
  obtain ⟨s1, s2⟩ := plan_walk_learn_sums log threshold env planstate st
  refine ⟨?_, ?_, ?_⟩
  · have hrun := learn_query_stat_recorded aqo_stat_size w u exp
      { run with
        cardinality_sum_errors :=
          (if (if run.explain_only then false else run.learn_aqo) = true then
            plan_walk_learn log threshold env planstate st
          else st).cardinality_sum_errors,
        cardinality_num_objects :=
          (if (if run.explain_only then false else run.learn_aqo) = true then
            plan_walk_learn log threshold env planstate st
          else st).cardinality_num_objects } stat he hc
    have herr : (if (run.learn_aqo && decide ((if (if run.explain_only then false
          else run.learn_aqo) = true then plan_walk_learn log threshold env planstate st
          else st).cardinality_num_objects ≠ 0)) = true then
          (if (if run.explain_only then false else run.learn_aqo) = true then
            plan_walk_learn log threshold env planstate st
          else st).cardinality_sum_errors /
          (((if (if run.explain_only then false else run.learn_aqo) = true then
            plan_walk_learn log threshold env planstate st
          else st).cardinality_num_objects : Int) : K)
        else -1) =
        (if run.learn_aqo = true ∧ 0 < (plan_walk env planstate).learn_calls.length then
          ((plan_walk env planstate).learn_calls.map (prediction_error log)).sum /
            ((plan_walk env planstate).learn_calls.length : K)
        else -1) := by
      by_cases hl : run.learn_aqo = true
      · simp only [he, hl, if_true, Bool.false_eq_true, if_false, s1, s2, Bool.true_and,
          decide_eq_true_eq, true_and, Int.cast_natCast]
        by_cases hn : 0 < (plan_walk env planstate).learn_calls.length
        · have hn0 : ((plan_walk env planstate).learn_calls.length : Int) ≠ 0 := by omega
          rw [if_pos hn0, if_pos hn]
        · have hn0 : ¬ ((plan_walk env planstate).learn_calls.length : Int) ≠ 0 := by omega
          rw [if_neg hn0, if_neg hn]
      · have hl0 : run.learn_aqo = false := by simpa using hl
        simp [hl0]
    simp only [] at hrun
    rw [herr] at hrun
    exact hrun
  · constructor
    · intro h
      by_cases hl : run.learn_aqo = true
      · by_cases hn : 0 < (plan_walk env planstate).learn_calls.length
        · rw [if_pos ⟨hl, hn⟩] at h
          rw [h] at hmean
          exact absurd hmean (by norm_num)
        · right
          exact List.length_eq_zero.1 (by omega)
      · left
        simpa using hl
    · intro h
      rcases h with h | h
      · simp [h]
      · simp [h]
  · rintro ⟨hl, hne⟩
    have hn : 0 < (plan_walk env planstate).learn_calls.length :=
      List.length_pos.2 hne
    rw [if_pos ⟨hl, hn⟩]
    exact hmean

theorem executed_leaf_walk (plan_rows : K) :
    (plan_walk (row_count_env : Collaborators K C Int)
      (executed_leaf plan_rows)).learn_calls = [bare_observation 5 plan_rows] := by
  have hsize : plan_size (executed_leaf plan_rows : PlanState K C) = 1 := by
    simp [executed_leaf, plan_size, plan_size_opt, plan_size_list]
  have hne : (walk_start (executed_leaf plan_rows : PlanState K C)).other_plans.length ≠ 0 := by
    simp [walk_start]
  rw [plan_walk, hsize, walk_loop, if_pos hne, walk_loop,
    walk_step_queue _ _ (executed_leaf plan_rows) [] rfl]
  simp only []
  rw [executed_leaf_calls plan_rows _ rfl rfl rfl]
  rfl

/-- Witness of C12: a learning run without aqo over the leaf that returned 5
tuples where 10 were predicted.  The walk submits one observation, and the
error recorded in the empty statistics is `|log 10 - log 5|`, the mean over
this observation. -/
theorem cardinality_error_is_mean_witness :
    (learning_run : QueryRun ℝ).explain_only = false ∧
    (learning_run : QueryRun ℝ).collect_stat = true ∧
    (plan_walk (row_count_env : Collaborators ℝ Unit Int) (executed_leaf 10)).learn_calls =
      [bare_observation 5 10] ∧
    (learn_query_stat_run 10 5 0.1 Real.exp Real.log 0.3
      (row_count_env : Collaborators ℝ Unit Int) (executed_leaf 10) learning_run
      { cardinality_sum_errors := 0, cardinality_num_objects := 0, store := 5 }
      empty_stat).2.1.cardinality_error_without_aqo_size = 1 ∧
    (learn_query_stat_run 10 5 0.1 Real.exp Real.log 0.3
      (row_count_env : Collaborators ℝ Unit Int) (executed_leaf 10) learning_run
      { cardinality_sum_errors := 0, cardinality_num_objects := 0, store := 5 }
      empty_stat).2.1.cardinality_error_without_aqo 0 = |Real.log 10 - Real.log 5| := by
  obtain ⟨h, -, -⟩ := cardinality_error_is_mean 10 5 (0.1 : ℝ) Real.exp Real.log 0.3
    (row_count_env : Collaborators ℝ Unit Int) (executed_leaf 10) learning_run
    { cardinality_sum_errors := 0, cardinality_num_objects := 0, store := 5 }
    empty_stat rfl rfl
  have hpos : (0 : ℝ) ≤ |Real.log 10 - Real.log 5| := abs_nonneg _
  have herr : prediction_error Real.log (bare_observation 5 10 : Observation ℝ Unit) =
      |Real.log 10 - Real.log 5| := rfl
  rw [executed_leaf_walk] at h
  simp only [learning_run, Bool.false_eq_true, if_false, List.length_singleton, zero_lt_one,
    and_self, if_true, List.map_cons, List.map_nil, List.sum_cons, List.sum_nil, add_zero,
    Nat.cast_one, div_one, herr] at h
  refine ⟨rfl, rfl, executed_leaf_walk 10, ?_, ?_⟩
  · unfold learning_run
    rw [h]
    simp [set_row_without_aqo, update_query_stat_row, stat_row_append, row_without_aqo,
      empty_stat, hpos]
  · unfold learning_run
    rw [h]
    simp [set_row_without_aqo, update_query_stat_row, stat_row_append, row_without_aqo,
      empty_stat, hpos]

/-! ## The subordinate plans -/

/-- C16, amended: a turn of the loop of `learn_query_stat` hands to
`collect_planstat` the head of the queue together with the clause, selectivity
and relation-id lists as they are, and queues the subordinate plans found
behind the rest of the queue; the next turn starts from the lists this turn
left.  After the turn the clause and selectivity lists hold the entries
accumulated in the plan walked, followed by everything held before.  Only the
walk of the main tree starts from empty lists. -/
theorem walk_step_keeps_lists (env : Collaborators K C Store) (w : PlanWalk K C)
    (to_walk : PlanState K C) (rest : List (PlanState K C))
    (h : w.other_plans = to_walk :: rest) :
    walk_step env w =
      { collect_planstat env to_walk w with
        other_plans := rest ++ subtree_queue env to_walk } ∧
    ((walk_step env w).clauselist = subtree_clauses env to_walk ++ w.clauselist ∧
      (walk_step env w).selectivities =
        subtree_selectivities env to_walk ++ w.selectivities) ∧
    (∀ fuel : Nat, walk_loop env (fuel + 1) w = walk_loop env fuel (walk_step env w)) ∧
    ((walk_start to_walk).clauselist = [] ∧ (walk_start to_walk).selectivities = [] ∧
      (walk_start to_walk).relidslist = []) := by
  have hq := walk_step_queue env w to_walk rest h
  refine ⟨hq, ⟨?_, ?_⟩, ?_, ⟨rfl, rfl, rfl⟩⟩
  · rw [hq]
    exact (collect_planstat_lists env to_walk w).2.1
  · rw [hq]
    exact (collect_planstat_lists env to_walk w).2.2
  · intro fuel
    have hne : w.other_plans.length ≠ 0 := by rw [h]; simp
    rw [walk_loop, if_pos hne]

theorem leaf_with_subplan_first_turn :
    (walk_step cached_env (walk_start leaf_with_subplan)).other_plans = [left_leaf] ∧
    (walk_step cached_env (walk_start leaf_with_subplan)).clauselist.map
      RestrictInfo.clause = [3] := by
  obtain ⟨h1, h2, -⟩ := collect_planstat_lists cached_env leaf_with_subplan
    (walk_start leaf_with_subplan)
  have hq : subtree_queue cached_env leaf_with_subplan = [left_leaf] := by
    simp [subtree_queue, leaf_with_subplan, collect_planstat, own_other_plans, empty_walk]
  have hc : subtree_clauses cached_env leaf_with_subplan =
      [{ clause := 3, norm_selec := 1 / 7, outer_selec := 1 / 8 }] := by
    simp [subtree_clauses, leaf_with_subplan, collect_planstat, own_clauselist, empty_walk,
      clause_plan]
  rw [walk_step_queue cached_env (walk_start leaf_with_subplan) leaf_with_subplan [] rfl]
  constructor
  · rw [hq]
    rfl
  · simp only []
    rw [h2, hc]
    rfl

/-- Witness of C16 as amended, on a main tree with one subordinate plan: after
the turn for the main tree the queue holds the subordinate plan and the clause
list the clause 3 of the main tree; the turn for the subordinate plan puts its
clause 1 in front of it. -/
theorem walk_step_keeps_lists_witness :
    (walk_step cached_env (walk_start leaf_with_subplan)).other_plans = [left_leaf] ∧
    (walk_step cached_env (walk_step cached_env
      (walk_start leaf_with_subplan))).clauselist.map RestrictInfo.clause = [1, 3] := by
  obtain ⟨h1, h2⟩ := leaf_with_subplan_first_turn
  obtain ⟨-, ⟨h3, -⟩, -, -⟩ := walk_step_keeps_lists cached_env
    (walk_step cached_env (walk_start leaf_with_subplan)) left_leaf [] h1
  refine ⟨h1, ?_⟩
  rw [h3, List.map_append, h2]
  rfl

/-- Counterexample to C16 as stated, on a main tree with the clause 3 and one
subordinate plan with the clause 1: when the subordinate plan is at the head of
the queue the clause list handed to `collect_planstat` holds the clause 3 of
the main tree, and the observation of the subordinate plan carries the clauses
1 and 3. -/
theorem subordinate_plan_inherits_lists :
    (walk_step cached_env (walk_start leaf_with_subplan)).other_plans = [left_leaf] ∧
    (walk_step cached_env (walk_start leaf_with_subplan)).clauselist.map
      RestrictInfo.clause = [3] ∧
    (plan_walk cached_env leaf_with_subplan).learn_calls.map
        (fun obs => obs.clauselist.map RestrictInfo.clause) = [[3], [1, 3]] := by
  refine ⟨leaf_with_subplan_first_turn.1, leaf_with_subplan_first_turn.2, ?_⟩
  have hsize : plan_size leaf_with_subplan = 2 := by
    simp [leaf_with_subplan, left_leaf, plan_size, plan_size_opt, plan_size_list]
  rw [plan_walk, hsize]
  norm_num [walk_loop, walk_step, walk_start, leaf_with_subplan, left_leaf, collect_planstat,
    collect_planstat_own, clause_plan, learn_rows, cached_env, row_count_env,
    restore_selectivities]

/-! ## The array reads of the tuner -/

theorem get_estimation_reads_bounds (w nelems : Int) (i : Int)
    (h : i ∈ get_estimation_reads w nelems) : nelems - w ≤ i ∧ i < nelems := by
  unfold get_estimation_reads at h
  obtain ⟨k, hk, rfl⟩ := List.mem_map.1 h
  rw [List.mem_range] at hk
  omega

theorem converged_cq_reads_bounds (w nelems : Int) (hw : 1 ≤ w) (i : Int)
    (h : i ∈ converged_cq_reads w nelems) : 0 ≤ i ∧ i < nelems := by
  unfold converged_cq_reads at h
  by_cases hlt : nelems < w + 2
  · rw [if_pos hlt] at h
    exact absurd h (List.not_mem_nil _)
  · rw [if_neg hlt, List.mem_append, List.mem_singleton] at h
    rcases h with h | h
    · have := get_estimation_reads_bounds w (nelems - 1) i h
      omega
    · omega

/-- The value of `get_estimation` depends on `elems` only at the indices of
`get_estimation_reads`. -/
theorem get_estimation_reads_cover (w : Int) (elems elems2 : Int → K) (nelems : Int)
    (h : ∀ i ∈ get_estimation_reads w nelems, elems i = elems2 i) :
    get_estimation w elems nelems = get_estimation w elems2 nelems := by
  unfold get_estimation
  rw [foldl_add_eq_sum (fun i => elems (nelems - 1 - (i : Int))),
    foldl_add_eq_sum (fun i => elems2 (nelems - 1 - (i : Int)))]
  have hmap : (List.range w.toNat).map (fun (i : Nat) => elems (nelems - 1 - (i : Int))) =
      (List.range w.toNat).map (fun (i : Nat) => elems2 (nelems - 1 - (i : Int))) := by
    apply List.map_congr_left
    intro k hk
    apply h
    unfold get_estimation_reads
    exact List.mem_map.2 ⟨k, hk, rfl⟩
  rw [hmap]

/-- The value of `converged_cq` depends on `elems` only at the indices of
`converged_cq_reads`. -/
theorem converged_cq_reads_cover (w : Int) (elems elems2 : Int → K) (nelems : Int)
    (h : ∀ i ∈ converged_cq_reads w nelems, elems i = elems2 i) :
    converged_cq w elems nelems = converged_cq w elems2 nelems := by
  unfold converged_cq
  by_cases hlt : nelems < w + 2
  · rw [if_pos hlt, if_pos hlt]
  · rw [if_neg hlt, if_neg hlt]
    unfold converged_cq_reads at h
    rw [if_neg hlt] at h
    have h1 : get_estimation w elems (nelems - 1) = get_estimation w elems2 (nelems - 1) :=
      get_estimation_reads_cover w elems elems2 (nelems - 1)
        (fun i hi => h i (List.mem_append_left _ hi))
    have h2 : elems (nelems - 1) = elems2 (nelems - 1) :=
      h _ (List.mem_append_right _ (List.mem_singleton_self _))
    simp only [h1, h2]

theorem converged_cq_size (w : Int) (elems : Int → K) (nelems : Int)
    (h : converged_cq w elems nelems = true) : w + 2 ≤ nelems := by
  by_contra hlt
  rw [converged_cq_short w elems nelems (by omega)] at h
  exact absurd h (by decide)

theorem stat_row_append_size (aqo_stat_size : Int) (a : Int → K) (a_size : Int) (v : K) :
    (stat_row_append aqo_stat_size a a_size v).2 =
      (if a_size ≥ aqo_stat_size then aqo_stat_size else a_size + 1) := rfl

/-- The sizes of reachable statistics: with aqo the execution-time and
planning-time series have the same size, at most `aqo_stat_size`, and the
cardinality-error series is not longer; without aqo both timing series hold
`min(executions_without_aqo, aqo_stat_size)` samples. -/
theorem reachable_sizes (s : Int) (hs : 1 ≤ s) (stat : QueryStat K)
    (h : Reachable s stat) :
    (0 ≤ stat.cardinality_error_with_aqo_size ∧
      stat.cardinality_error_with_aqo_size ≤ stat.execution_time_with_aqo_size ∧
      stat.planning_time_with_aqo_size = stat.execution_time_with_aqo_size ∧
      stat.execution_time_with_aqo_size ≤ s) ∧
    (0 ≤ stat.executions_without_aqo ∧
      stat.execution_time_without_aqo_size = min stat.executions_without_aqo s ∧
      stat.planning_time_without_aqo_size = stat.execution_time_without_aqo_size) := by
  induction h with
  | empty =>
    have h0 : min (0 : Int) s = 0 := min_eq_left (by omega)
    simp only [empty_stat, h0]
    exact ⟨⟨le_refl _, le_refl _, trivial, by omega⟩, le_refl _, trivial, trivial⟩
  | with_aqo stat pt et ce _ ih =>
    obtain ⟨⟨a1, a2, a3, a4⟩, b⟩ := ih
    refine ⟨?_, b⟩
    have he : (record_with_aqo s stat pt et ce).execution_time_with_aqo_size =
        (if stat.execution_time_with_aqo_size ≥ s then s
          else stat.execution_time_with_aqo_size + 1) := rfl
    have hp : (record_with_aqo s stat pt et ce).planning_time_with_aqo_size =
        (if stat.planning_time_with_aqo_size ≥ s then s
          else stat.planning_time_with_aqo_size + 1) := rfl
    have hc : (record_with_aqo s stat pt et ce).cardinality_error_with_aqo_size =
          stat.cardinality_error_with_aqo_size ∨
        (record_with_aqo s stat pt et ce).cardinality_error_with_aqo_size =
          (if stat.cardinality_error_with_aqo_size ≥ s then s
            else stat.cardinality_error_with_aqo_size + 1) := by
      by_cases hce : ce ≥ 0
      · right
        simp [record_with_aqo, set_row_with_aqo, update_query_stat_row, row_with_aqo, hce,
          stat_row_append_size]
      · left
        simp [record_with_aqo, set_row_with_aqo, update_query_stat_row, row_with_aqo, hce]
    rw [he, hp, a3]
    rcases hc with hc | hc <;> rw [hc] <;> split_ifs <;> omega
  | without_aqo stat pt et ce _ ih =>
    obtain ⟨a, b1, b2, b3⟩ := ih
    refine ⟨a, ?_⟩
    have he : (record_without_aqo s stat pt et ce).execution_time_without_aqo_size =
        (if stat.execution_time_without_aqo_size ≥ s then s
          else stat.execution_time_without_aqo_size + 1) := rfl
    have hp : (record_without_aqo s stat pt et ce).planning_time_without_aqo_size =
        (if stat.planning_time_without_aqo_size ≥ s then s
          else stat.planning_time_without_aqo_size + 1) := rfl
    have hn : (record_without_aqo s stat pt et ce).executions_without_aqo =
        stat.executions_without_aqo + 1 := rfl
    rw [he, hp, hn, b3]
    rw [min_def] at b2 ⊢
    split_ifs at b2 ⊢ <;> omega

/-- The decision of `automatical_query_tuning` depends on the arrays only at
the reads of `automatical_query_tuning_reads`: statistics with the same sizes
and the same counter that agree at these reads give the same flags. -/
theorem automatical_query_tuning_reads_cover (w : Int) (u : K) (exp : K → K)
    (stat stat2 : QueryStat K) (rnd : K)
    (hsize : ∀ a : StatArray, array_size stat a = array_size stat2 a)
    (hexec : stat.executions_without_aqo = stat2.executions_without_aqo)
    (h : ∀ r ∈ automatical_query_tuning_reads w stat,
      array_elems stat r.1 r.2 = array_elems stat2 r.1 r.2) :
    automatical_query_tuning w u exp stat rnd = automatical_query_tuning w u exp stat2 rnd := by
  have s1 := hsize StatArray.execution_time_with_aqo
  have s2 := hsize StatArray.planning_time_with_aqo
  have s3 := hsize StatArray.cardinality_error_with_aqo
  have s4 := hsize StatArray.execution_time_without_aqo
  have s5 := hsize StatArray.planning_time_without_aqo
  simp only [array_size] at s1 s2 s3 s4 s5
  by_cases h1 : stat.executions_without_aqo < w
  · rw [tuning_first_branch w u exp stat rnd h1,
      tuning_first_branch w u exp stat2 rnd (hexec ▸ h1)]
  · have h1b : ¬ stat2.executions_without_aqo < w := hexec ▸ h1
    unfold automatical_query_tuning_reads at h
    rw [if_neg h1] at h
    have hconv : converged_cq w stat.cardinality_error_with_aqo
          stat.cardinality_error_with_aqo_size =
        converged_cq w stat2.cardinality_error_with_aqo
          stat2.cardinality_error_with_aqo_size := by
      rw [← s3]
      apply converged_cq_reads_cover
      intro i hi
      exact h (StatArray.cardinality_error_with_aqo, i)
        (List.mem_append_left _ (List.mem_map.2 ⟨i, hi, rfl⟩))
    by_cases h2 : converged_cq w stat.cardinality_error_with_aqo
        stat.cardinality_error_with_aqo_size = true
    · have h2b := h2
      rw [hconv] at h2b
      have hnot : ¬ ((!converged_cq w stat.cardinality_error_with_aqo
          stat.cardinality_error_with_aqo_size) = true) := by simp [h2]
      rw [if_neg hnot] at h
      have e1 : get_estimation w stat.execution_time_with_aqo
            stat.execution_time_with_aqo_size =
          get_estimation w stat2.execution_time_with_aqo
            stat2.execution_time_with_aqo_size := by
        rw [← s1]
        apply get_estimation_reads_cover
        intro i hi
        exact h (StatArray.execution_time_with_aqo, i)
          (List.mem_append_right _ (List.mem_append_left _ (List.mem_map.2 ⟨i, hi, rfl⟩)))
      have e2 : get_estimation w stat.planning_time_with_aqo
            stat.planning_time_with_aqo_size =
          get_estimation w stat2.planning_time_with_aqo
            stat2.planning_time_with_aqo_size := by
        rw [← s2]
        apply get_estimation_reads_cover
        intro i hi
        exact h (StatArray.planning_time_with_aqo, i)
          (List.mem_append_right _ (List.mem_append_right _
            (List.mem_append_left _ (List.mem_map.2 ⟨i, hi, rfl⟩))))
      have e3 : get_estimation w stat.execution_time_without_aqo
            stat.execution_time_without_aqo_size =
          get_estimation w stat2.execution_time_without_aqo
            stat2.execution_time_without_aqo_size := by
        rw [← s4]
        apply get_estimation_reads_cover
        intro i hi
        exact h (StatArray.execution_time_without_aqo, i)
          (List.mem_append_right _ (List.mem_append_right _ (List.mem_append_right _
            (List.mem_append_left _ (List.mem_map.2 ⟨i, hi, rfl⟩)))))
      have e4 : get_estimation w stat.planning_time_without_aqo
            stat.planning_time_without_aqo_size =
          get_estimation w stat2.planning_time_without_aqo
            stat2.planning_time_without_aqo_size := by
        rw [← s5]
        apply get_estimation_reads_cover
        intro i hi
        exact h (StatArray.planning_time_without_aqo, i)
          (List.mem_append_right _ (List.mem_append_right _ (List.mem_append_right _
            (List.mem_append_right _ (List.mem_map.2 ⟨i, hi, rfl⟩)))))
      simp only [automatical_query_tuning, h1, h1b, h2, h2b, t_aqo, t_not_aqo, e1, e2, e3, e4]
    · have h3 : converged_cq w stat.cardinality_error_with_aqo
          stat.cardinality_error_with_aqo_size = false := by simpa using h2
      have h3b := h3
      rw [hconv] at h3b
      rw [tuning_not_converged w u exp stat h3 rnd,
        tuning_not_converged w u exp stat2 h3b rnd, hexec]

/-- C21: for `auto_tuning_window_size >= 1` and `aqo_stat_size >= 1`, in every
statistics record reachable from the empty one by recording completed runs with
`update_query_stat_row`, on either branch and with any cardinality errors,
every array read of `automatical_query_tuning` (those of `converged_cq` and of
the four calls of `get_estimation`) is at an index `i` with
`0 <= i < size` of the series read, and this size is at most `aqo_stat_size`.
Whenever the last branch is reached, each of the four timing series holds at
least `auto_tuning_window_size` samples. -/
theorem automatical_query_tuning_reads_in_bounds (s w : Int) (hs : 1 ≤ s) (hw : 1 ≤ w)
    (stat : QueryStat K) (hr : Reachable s stat) :
    (∀ r ∈ automatical_query_tuning_reads w stat,
      0 ≤ r.2 ∧ r.2 < array_size stat r.1 ∧ array_size stat r.1 ≤ s) ∧
    ((¬ stat.executions_without_aqo < w ∧
        converged_cq w stat.cardinality_error_with_aqo
          stat.cardinality_error_with_aqo_size = true) →
      w ≤ stat.execution_time_with_aqo_size ∧ w ≤ stat.planning_time_with_aqo_size ∧
      w ≤ stat.execution_time_without_aqo_size ∧
      w ≤ stat.planning_time_without_aqo_size) := by
  obtain ⟨⟨a1, a2, a3, a4⟩, b1, b2, b3⟩ := reachable_sizes s hs stat hr
  have hmin : ∀ n : Int, w ≤ n → w ≤ s → w ≤ min n s := fun n h1 h2 => le_min h1 h2
  have hmins : min stat.executions_without_aqo s ≤ s := min_le_right _ _
  have hlast : (¬ stat.executions_without_aqo < w ∧
        converged_cq w stat.cardinality_error_with_aqo
          stat.cardinality_error_with_aqo_size = true) →
      w ≤ stat.execution_time_with_aqo_size ∧ w ≤ stat.planning_time_with_aqo_size ∧
      w ≤ stat.execution_time_without_aqo_size ∧
      w ≤ stat.planning_time_without_aqo_size := by
    rintro ⟨h1, h2⟩
    have hc := converged_cq_size w _ _ h2
    have hwn := hmin stat.executions_without_aqo (by omega) (by omega)
    rw [b3, b2, a3]
    exact ⟨by omega, by omega, hwn, hwn⟩
  refine ⟨?_, hlast⟩
  intro r hrd
  unfold automatical_query_tuning_reads at hrd
  by_cases h1 : stat.executions_without_aqo < w
  · rw [if_pos h1] at hrd
    exact absurd hrd (List.not_mem_nil _)
  · rw [if_neg h1, List.mem_append] at hrd
    rcases hrd with hrd | hrd
    · obtain ⟨i, hi, rfl⟩ := List.mem_map.1 hrd
      have := converged_cq_reads_bounds w _ hw i hi
      simp only [array_size]
      omega
    · by_cases h2 : converged_cq w stat.cardinality_error_with_aqo
          stat.cardinality_error_with_aqo_size = true
      · obtain ⟨c1, c2, c3, c4⟩ := hlast ⟨h1, h2⟩
        have hnot : ¬ ((!converged_cq w stat.cardinality_error_with_aqo
            stat.cardinality_error_with_aqo_size) = true) := by simp [h2]
        rw [if_neg hnot] at hrd
        simp only [List.mem_append, List.mem_map] at hrd
        rcases hrd with ⟨i, hi, rfl⟩ | ⟨i, hi, rfl⟩ | ⟨i, hi, rfl⟩ | ⟨i, hi, rfl⟩
        · have := get_estimation_reads_bounds w _ i hi
          simp only [array_size]
          omega
        · have := get_estimation_reads_bounds w _ i hi
          simp only [array_size]
          omega
        · have := get_estimation_reads_bounds w _ i hi
          simp only [array_size]
          rw [b2] at this c3 ⊢
          omega
        · have := get_estimation_reads_bounds w _ i hi
          simp only [array_size]
          rw [b3, b2] at this c4 ⊢
          omega
      · have hnot : (!converged_cq w stat.cardinality_error_with_aqo
            stat.cardinality_error_with_aqo_size) = true := by simpa using h2
        rw [if_pos hnot] at hrd
        exact absurd hrd (List.not_mem_nil _)

theorem warm_stat_reachable : Reachable 3 warm_stat :=
  Reachable.with_aqo _ 1 2 1
    (Reachable.with_aqo _ 1 2 1
      (Reachable.with_aqo _ 1 2 1 (Reachable.without_aqo _ 1 2 (-1) Reachable.empty)))

theorem warm_stat_reads :
    automatical_query_tuning_reads 1 warm_stat =
      [(StatArray.cardinality_error_with_aqo, 1), (StatArray.cardinality_error_with_aqo, 2),
        (StatArray.execution_time_with_aqo, 2), (StatArray.planning_time_with_aqo, 2),
        (StatArray.execution_time_without_aqo, 0),
        (StatArray.planning_time_without_aqo, 0)] := by
  have h1 : Int.toNat 1 = 1 := rfl
  have hc : warm_stat.cardinality_error_with_aqo_size = 3 := by decide
  have he : ¬ (warm_stat.executions_without_aqo < 1) := by decide
  have s1 : warm_stat.execution_time_with_aqo_size = 3 := by decide
  have s2 : warm_stat.planning_time_with_aqo_size = 3 := by decide
  have s3 : warm_stat.execution_time_without_aqo_size = 1 := by decide
  have s4 : warm_stat.planning_time_without_aqo_size = 1 := by decide
  have v1 : warm_stat.cardinality_error_with_aqo 1 = 1 := by rfl
  have v2 : warm_stat.cardinality_error_with_aqo 2 = 1 := by rfl
  have hconv : converged_cq 1 warm_stat.cardinality_error_with_aqo
      warm_stat.cardinality_error_with_aqo_size = true := by
    rw [hc]
    norm_num [converged_cq, get_estimation, h1, List.range_succ, v1, v2]
  unfold automatical_query_tuning_reads
  rw [if_neg he, hconv, hc, s1, s2, s3, s4]
  simp [converged_cq_reads, get_estimation_reads, h1, List.range_succ]

/-- Witness of C21, with `aqo_stat_size = 3` and `auto_tuning_window_size = 1`:
after one run without aqo and three runs with aqo of constant cardinality
error, the tuner reaches its last branch; it reads the cardinality errors at
the indices 1 and 2 of 3, the times with aqo at the index 2 of 3 and the times
without aqo at the index 0 of 1. -/
theorem automatical_query_tuning_reads_in_bounds_witness :
    (1 : Int) ≤ 3 ∧ (1 : Int) ≤ 1 ∧ Reachable 3 warm_stat ∧
    automatical_query_tuning_reads 1 warm_stat =
      [(StatArray.cardinality_error_with_aqo, 1), (StatArray.cardinality_error_with_aqo, 2),
        (StatArray.execution_time_with_aqo, 2), (StatArray.planning_time_with_aqo, 2),
        (StatArray.execution_time_without_aqo, 0),
        (StatArray.planning_time_without_aqo, 0)] ∧
    ((0 : Int) ≤ 2 ∧ (2 : Int) < array_size warm_stat StatArray.execution_time_with_aqo ∧
      array_size warm_stat StatArray.execution_time_with_aqo ≤ 3) ∧
    ((0 : Int) ≤ 0 ∧ (0 : Int) < array_size warm_stat StatArray.planning_time_without_aqo ∧
      array_size warm_stat StatArray.planning_time_without_aqo ≤ 3) := by
  obtain ⟨h, -⟩ := automatical_query_tuning_reads_in_bounds 3 1 (by decide) (by decide)
    warm_stat warm_stat_reachable
  refine ⟨by decide, by decide, warm_stat_reachable, warm_stat_reads, ?_, ?_⟩
  · exact h (StatArray.execution_time_with_aqo, 2) (by rw [warm_stat_reads]; simp)
  · exact h (StatArray.planning_time_without_aqo, 0) (by rw [warm_stat_reads]; simp)

end Aqo
